import Mathlib

/-!
Bond trading system: price notation, order book, algorithmic execution and streaming.

A shallow embedding of the C++ sources under `tradingsystem/`.

Conventions of the embedding.

* `std::string` is a `List Char`; the text handled here is ASCII, where a C++ `char` and a
  Lean `Char` have the same code.
* `double` is `ℚ`.  `ConvertStringToPrice` and `PriceToString` only ever add, subtract and scale
  by powers of two values that stay on a dyadic grid, so on every finite `double` whose integer
  part fits an `int` the rational computation is the IEEE computation.  Elsewhere (`mid ± spread/2`,
  the spread test) the rational operation stands for the `double` operation without its rounding.
* `int` (32 bits) and `long` (64 bits, LP64) are `Int`.  Signed overflow and an out-of-range
  `double → int` conversion are undefined behaviour in C++ and lie outside the embedding;
  conversions whose result C++ defines (`long → int`, `long → double`, the range check of
  `std::stoi`) are written out.
* A C++ exception is `none`.
* A service is a record of its fields; a member function takes the record and returns the new
  record together with the list of `ProcessAdd` calls it made, in call order.
-/

namespace TradingSystem

/-! ## `utilities.hpp`: the fractional price notation -/

/-- The C `isspace` on ASCII: space, and the controls `\t \n \v \f \r`. -/
def isspace (c : Char) : Bool :=
  c.toNat == 32 || (9 ≤ c.toNat && c.toNat ≤ 13)

/-- The function `std::to_string(int)`: a minus sign for a negative value, then the decimal digits. -/
def to_string (i : Int) : List Char :=
  if i < 0 then '-' :: Nat.toDigits 10 i.natAbs else Nat.toDigits 10 i.natAbs

/-- The value of a run of decimal digits, most significant first. -/
def decimalValue (ds : List Char) : Nat :=
  ds.foldl (fun a c => 10 * a + (c.toNat - 48)) 0

/-- The function `std::stoi(str)` (base 10): leading white space is skipped, one optional sign is
read, then the longest run of digits; what follows is ignored.  `std::invalid_argument` (no digit)
and `std::out_of_range` (value outside `int`) are `none`. -/
def stoi (s : List Char) : Option Int :=
  let s1 := s.dropWhile isspace
  let neg : Bool := s1.head? == some '-'
  let s2 := if s1.head? == some '-' || s1.head? == some '+' then s1.tail else s1
  let ds := s2.takeWhile Char.isDigit
  if ds.isEmpty then none
  else
    let v : Int := if neg then -(decimalValue ds : Int) else (decimalValue ds : Int)
    if -2147483648 ≤ v ∧ v ≤ 2147483647 then some v else none

/-- The constant `std::string::npos`, the largest `size_t`. -/
def npos : Nat := 2 ^ 64 - 1

/-- The member `std::string::find(char)`: index of the first occurrence; `none` stands for the
result `npos` when there is no occurrence. -/
def find (s : List Char) (c : Char) : Option Nat :=
  if c ∈ s then some (s.indexOf c) else none

/-- The member `std::string::substr(pos, len)`: `std::out_of_range` when `pos` is past the end. -/
def substr (s : List Char) (pos len : Nat) : Option (List Char) :=
  if s.length < pos then none else some ((s.drop pos).take len)

/-- The conversion `int(x)` of a `double`: truncation toward zero (undefined in C++ when the
result does not fit an `int`). -/
def truncToInt (x : ℚ) : Int :=
  if 0 ≤ x then ⌊x⌋ else ⌈x⌉

/-- The function `ConvertStringToPrice` of `utilities.hpp`.  When no dash is found,
`separate_pos` is `npos`, the first `substr` takes the whole text and `separate_pos + 1` wraps
around to `0` in `size_t`. -/
def ConvertStringToPrice (str_price : List Char) : Option ℚ := do
  let separate_pos := find str_price '-'
  let int_text ← substr str_price 0 (separate_pos.getD npos)
  let int_val ← stoi int_text
  let res : ℚ := (int_val : ℚ)
  let xy ← substr str_price (match separate_pos with | some pos => pos + 1 | none => 0) 2
  let xy_val ← stoi xy
  let res : ℚ := res + (xy_val : ℚ) / 32
  let z ← str_price.getLast?
  if z = '+' then
    pure (res + 1 / 64)
  else
    pure (res + (((z.toNat : Int) - 48 : Int) : ℚ) / 256)

/-- The function `PriceToString` of `utilities.hpp`. -/
def PriceToString (price : ℚ) : List Char :=
  let int_part : Int := truncToInt price
  let flt_part : ℚ := price - (int_part : ℚ)
  let res : List Char := to_string int_part ++ ['-']
  let flt_part : ℚ := flt_part * 32
  let int_part : Int := truncToInt flt_part
  let res : List Char := if int_part < 10 then res ++ ['0'] else res
  let res : List Char := res ++ to_string int_part
  let flt_part : ℚ := flt_part - (int_part : ℚ)
  let int_part : Int := truncToInt (flt_part * 8)
  if int_part = 4 then res ++ ['+'] else res ++ to_string int_part

/-- The text `PriceToString` writes for `n + a/32 + e/256`. -/
def gridText (n a e : Nat) : List Char :=
  Nat.toDigits 10 n ++ '-' :: ((if a < 10 then ['0'] else []) ++ Nat.toDigits 10 a ++
    (if e = 4 then ['+'] else Nat.toDigits 10 e))

/-- A well-formed price text: integer part `n` without leading zeros, the 32nds field `a` on two
digits, and a final character `z`. -/
def priceText (n a : Nat) (z : Char) : List Char :=
  Nat.toDigits 10 n ++ ['-', Nat.digitChar (a / 10), Nat.digitChar (a % 10), z]

/-! ## Numeric conversions -/

/-- The conversion `long → double` as an integer: values below 2^53 in magnitude are kept, larger
ones are rounded to 53 significant bits, ties to even.  A `long` is below 2^64 in magnitude;
other arguments are returned unchanged. -/
def roundLong53 (n : Int) : Int :=
  let m := n.natAbs
  match (List.range 12).find? (fun sh => decide (m < 2 ^ (53 + sh))) with
  | none => n
  | some sh =>
    let q := m / 2 ^ sh
    let r := m % 2 ^ sh
    let half := 2 ^ (sh - 1)
    let q1 := if half < r ∨ (r = half ∧ q % 2 = 1) then q + 1 else q
    n.sign * ((q1 * 2 ^ sh : Nat) : Int)

/-- The implicit conversion `long → double`. -/
def longToDouble (n : Int) : ℚ := ((roundLong53 n : Int) : ℚ)

/-- The implicit conversion `long → int`: reduction modulo 2^32 into `[-2^31, 2^31)`. -/
def longToInt (n : Int) : Int := (n + 2147483648) % 4294967296 - 2147483648

/-! ## Products and keyed stores -/

/-- Modelled from the spec: `products.hpp` is not among the sources.  The services use a product
type `T` only through `GetProductId()`. -/
class Product (T : Type) where
  GetProductId : T → List Char

/-- Modelled from the spec: the `Bond` class of the missing `products.hpp`, as an instrument with
identifier, ticker, coupon and maturity date (the arguments `RetrieveProduct` passes to its
constructor; the identifier type is always `CUSIP`). -/
structure Bond where
  productId : List Char
  ticker : List Char
  coupon : ℚ
  maturityDate : Nat × Nat × Nat
deriving DecidableEq, Inhabited

instance : Product Bond := ⟨Bond.productId⟩

/-- A `std::map<string, V>`: the value stored under each key, `none` for an absent key. -/
abbrev StdMap (V : Type) := List Char → Option V

/-- The empty map. -/
def StdMap.empty {V : Type} : StdMap V := fun _ => none

/-- The statement `m[key] = value`. -/
def StdMap.assign {V : Type} (m : StdMap V) (key : List Char) (value : V) : StdMap V :=
  fun k => if k = key then some value else m k

/-- Reading `m[key]`: the stored value; an absent key is first inserted with a value that is
default-constructed. -/
def StdMap.index {V : Type} [Inhabited V] (m : StdMap V) (key : List Char) : V × StdMap V :=
  match m key with
  | some v => (v, m)
  | none => (default, m.assign key default)

/-! ## `marketdataservice.hpp` -/

/-- Side for market data. -/
inductive PricingSide where
  | BID
  | OFFER
deriving DecidableEq, Repr, Inhabited

/-- A market data order with price, quantity, and side. -/
structure Order where
  price : ℚ
  quantity : Int
  side : PricingSide
deriving DecidableEq, Inhabited

/-- Class representing a bid and offer order. -/
structure BidOffer where
  bidOrder : Order
  offerOrder : Order
deriving DecidableEq

/-- Order book with a bid and offer stack. -/
structure OrderBook (T : Type) where
  product : T
  bidStack : List Order
  offerStack : List Order

instance {T : Type} [Inhabited T] : Inhabited (OrderBook T) := ⟨⟨default, [], []⟩⟩

/-- The first loop of `GetBidOffer`: the pair `(top_bid, top_bid_price)` after the scan. -/
def scanBids (bidStack : List Order) (start : Order × ℚ) : Order × ℚ :=
  bidStack.foldl (fun st bid => if bid.price > st.2 then (bid, bid.price) else st) start

/-- The second loop of `GetBidOffer`: the pair `(bottom_offer, bottom_offer_price)`. -/
def scanOffers (offerStack : List Order) (start : Order × ℚ) : Order × ℚ :=
  offerStack.foldl (fun st offer => if offer.price < st.2 then (offer, offer.price) else st) start

/-- The member `OrderBook<T>::GetBidOffer`.  Calling `front()` on an empty stack is undefined
behaviour: `none`. -/
def OrderBook.GetBidOffer {T : Type} (book : OrderBook T) : Option BidOffer := do
  let top_bid ← book.bidStack.head?
  let top := scanBids book.bidStack (top_bid, top_bid.price)
  let bottom_offer ← book.offerStack.head?
  let bottom := scanOffers book.offerStack (bottom_offer, bottom_offer.price)
  pure ⟨top.1, bottom.1⟩

/-- The fields of `MarketDataService<T>`; `L` names the registered listeners.  The connector only
points back to the service and is left out. -/
structure MarketDataService (T L : Type) where
  orderBooks : StdMap (OrderBook T)
  listeners : List L
  bookDepth : Int

/-- The statement `aggregated[price] += quantity` on an `unordered_map<double, long>`, kept as
the list of its entries: an absent price is inserted with 0 first. -/
def addQuantity (m : List (ℚ × Int)) (price : ℚ) (quantity : Int) : List (ℚ × Int) :=
  match m with
  | [] => [(price, 0 + quantity)]
  | (k, v) :: rest =>
    if k = price then (k, v + quantity) :: rest else (k, v) :: addQuantity rest price quantity

/-- The two accumulation loops of `AggregateDepth`. -/
def aggregate (orders : List Order) : List (ℚ × Int) :=
  orders.foldl (fun m o => addQuantity m o.price o.quantity) []

/-- The member `MarketDataService<T>::AggregateDepth`.  The order in which an `unordered_map` is
traversed is unspecified: `iter` lists the entries of a table in traversal order.  The result is
the `OrderBook` the function constructs (C++ hands it out by reference). -/
def MarketDataService.AggregateDepth {T L : Type} [Inhabited T]
    (iter : List (ℚ × Int) → List (ℚ × Int)) (s : MarketDataService T L)
    (instrumentId : List Char) : MarketDataService T L × OrderBook T :=
  let r1 := s.orderBooks.index instrumentId
  let product := r1.1.product
  let r2 := r1.2.index instrumentId
  let bids := r2.1.bidStack
  let r3 := r2.2.index instrumentId
  let offers := r3.1.offerStack
  let aggregatedBids := aggregate bids
  let consolidatedBids := (iter aggregatedBids).map (fun bid => Order.mk bid.1 bid.2 PricingSide.BID)
  let aggregatedOffers := aggregate offers
  let consolidatedOffers :=
    (iter aggregatedOffers).map (fun offer => Order.mk offer.1 offer.2 PricingSide.OFFER)
  ({ s with orderBooks := r3.2 }, ⟨product, consolidatedBids, consolidatedOffers⟩)

/-! ## `algoexecutionservice.hpp` -/

/-- The order types. -/
inductive OrderType where
  | FOK
  | IOC
  | MARKET
  | LIMIT
  | STOP
deriving DecidableEq, Repr, Inhabited

/-- An execution order that can be placed on an exchange.  The field `hiddenQuantity` is a
`double` in the source. -/
structure ExecutionOrder (T : Type) where
  product : T
  side : PricingSide
  orderId : List Char
  orderType : OrderType
  price : ℚ
  visibleQuantity : Int
  hiddenQuantity : ℚ
  parentOrderId : List Char
  isChildOrder : Bool
deriving DecidableEq

/-- The constructor of `ExecutionOrder<T>`: both quantities arrive as `double` and pass through
`static_cast<long>`; the hidden quantity is stored back into a `double` field. -/
def ExecutionOrder.ctor {T : Type} (_product : T) (_side : PricingSide) (_orderId : List Char)
    (_orderType : OrderType) (_price : ℚ) (_visibleQuantity _hiddenQuantity : ℚ)
    (_parentOrderId : List Char) (_isChildOrder : Bool) : ExecutionOrder T :=
  { product := _product
    side := _side
    orderId := _orderId
    orderType := _orderType
    price := _price
    visibleQuantity := truncToInt _visibleQuantity
    hiddenQuantity := longToDouble (truncToInt _hiddenQuantity)
    parentOrderId := _parentOrderId
    isChildOrder := _isChildOrder }

/-- The getter `GetHiddenQuantity`, which returns the `double` field as a `long`. -/
def ExecutionOrder.GetHiddenQuantity {T : Type} (o : ExecutionOrder T) : Int :=
  truncToInt o.hiddenQuantity

/-- The class `AlgoExecution<T>`: a pointer to an execution order, `none` for an object that was
only default-constructed and points to no order. -/
structure AlgoExecution (T : Type) where
  executionOrder : Option (ExecutionOrder T)
deriving DecidableEq

instance {T : Type} : Inhabited (AlgoExecution T) := ⟨⟨none⟩⟩

/-- The constructor of `AlgoExecution<T>`: it takes the quantities as `long` and hands them to
the `ExecutionOrder` constructor, whose parameters are `double`. -/
def AlgoExecution.ctor {T : Type} (_product : T) (_side : PricingSide) (_orderId : List Char)
    (_orderType : OrderType) (_price : ℚ) (_visibleQuantity _hiddenQuantity : Int)
    (_parentOrderId : List Char) (_isChildOrder : Bool) : AlgoExecution T :=
  ⟨some (ExecutionOrder.ctor _product _side _orderId _orderType _price
    (longToDouble _visibleQuantity) (longToDouble _hiddenQuantity) _parentOrderId _isChildOrder)⟩

/-- The fields of `AlgoExecutionService<T>`; `L` names the registered listeners.  The member
`listener` only points back to the service and is left out. -/
structure AlgoExecutionService (T L : Type) where
  algoExecutions : StdMap (AlgoExecution T)
  listeners : List L
  SPREAD_LIMIT : ℚ
  executionCount : Int

/-- The constructor of `AlgoExecutionService<T>`. -/
def AlgoExecutionService.ctor {T L : Type} : AlgoExecutionService T L :=
  { algoExecutions := StdMap.empty
    listeners := []
    SPREAD_LIMIT := 1 / 128
    executionCount := 0 }

/-- The member `AlgoExecutionService<T>::GetData`. -/
def AlgoExecutionService.GetData {T L : Type} (s : AlgoExecutionService T L) (_id : List Char) :
    AlgoExecution T × AlgoExecutionService T L :=
  let r := s.algoExecutions.index _id
  (r.1, { s with algoExecutions := r.2 })

/-- The member `AlgoExecutionService<T>::OnMessage`.  A default-constructed `_data` points to no
order and dereferencing it is undefined: `none`. -/
def AlgoExecutionService.OnMessage {T L : Type} [Product T] (s : AlgoExecutionService T L)
    (_data : AlgoExecution T) : Option (AlgoExecutionService T L) := do
  let order ← _data.executionOrder
  let _id := Product.GetProductId order.product
  pure { s with algoExecutions := s.algoExecutions.assign _id _data }

/-- The member `AlgoExecutionService<T>::AddListener`. -/
def AlgoExecutionService.AddListener {T L : Type} (s : AlgoExecutionService T L) (_listener : L) :
    AlgoExecutionService T L :=
  { s with listeners := s.listeners ++ [_listener] }

/-- The member `AlgoExecutionService<T>::AlgoOrderExecution`.  The identifier drawn from
`GenerateTradingId()` is the argument `_orderId`.  The result is the new service together with
the `ProcessAdd` calls made, each with the listener called and its argument; `none` when
`GetBidOffer` is undefined. -/
def AlgoExecutionService.AlgoOrderExecution {T L : Type} [Product T]
    (s : AlgoExecutionService T L) (_orderBook : OrderBook T) (_orderId : List Char) :
    Option (AlgoExecutionService T L × List (L × AlgoExecution T)) := do
  let _product := _orderBook.product
  let _productId := Product.GetProductId _product
  let currBidOffer ← _orderBook.GetBidOffer
  let bid_order := currBidOffer.bidOrder
  let offer_order := currBidOffer.offerOrder
  let bid_price := bid_order.price
  let bid_quantity := bid_order.quantity
  let offer_price := offer_order.price
  let offer_quantity := offer_order.quantity
  if offer_price - bid_price ≤ s.SPREAD_LIMIT then
    let choice : ℚ × Int × PricingSide :=
      if s.executionCount.tmod 2 ≠ 0 then (bid_price, bid_quantity, PricingSide.BID)
      else (offer_price, offer_quantity, PricingSide.OFFER)
    let algoOrder : AlgoExecution T :=
      AlgoExecution.ctor _product choice.2.2 _orderId OrderType.MARKET choice.1 choice.2.1 0
        "PARENT_ORDER_ID".toList false
    pure ({ s with executionCount := s.executionCount + 1
                   algoExecutions := s.algoExecutions.assign _productId algoOrder },
      s.listeners.map (fun l => (l, algoOrder)))
  else
    pure (s, [])

/-- Feeding a sequence of order-book snapshots, each with its generated order identifier, to
`AlgoOrderExecution` one after the other (what `AlgoExecutionToMarketDataListener::ProcessAdd`
does for each snapshot): the service afterwards. -/
def AlgoExecutionService.processAll {T L : Type} [Product T] (s : AlgoExecutionService T L) :
    List (OrderBook T × List Char) → Option (AlgoExecutionService T L)
  | [] => some s
  | (book, orderId) :: rest =>
    (s.AlgoOrderExecution book orderId).bind (fun r => AlgoExecutionService.processAll r.1 rest)

/-- Whether a snapshot passes the spread test of `AlgoOrderExecution` under the limit `limit`. -/
def qualifies {T : Type} (limit : ℚ) (book : OrderBook T) : Bool :=
  match book.GetBidOffer with
  | some r => decide (r.offerOrder.price - r.bidOrder.price ≤ limit)
  | none => false

/-! ## `pricingservice.hpp` and `algostreamingservice.hpp` -/

/-- A price object consisting of mid and bid/offer spread. -/
structure Price (T : Type) where
  product : T
  mid : ℚ
  bidOfferSpread : ℚ
deriving DecidableEq

/-- A price stream order featuring price and visible and hidden quantity. -/
structure PriceStreamOrder where
  price : ℚ
  visibleQuantity : Int
  hiddenQuantity : Int
  side : PricingSide
deriving DecidableEq

/-- Price stream with a two-way market. -/
structure PriceStream (T : Type) where
  product : T
  bidOrder : PriceStreamOrder
  offerOrder : PriceStreamOrder
deriving DecidableEq

/-- The class `AlgoStream<T>`: a pointer to a price stream, `none` for an object that was
only default-constructed and points to no stream. -/
structure AlgoStream (T : Type) where
  priceStream : Option (PriceStream T)
deriving DecidableEq

instance {T : Type} : Inhabited (AlgoStream T) := ⟨⟨none⟩⟩

/-- The constructor of `AlgoStream<T>`. -/
def AlgoStream.ctor {T : Type} (_product : T) (_bidOrder _offerOrder : PriceStreamOrder) :
    AlgoStream T :=
  ⟨some ⟨_product, _bidOrder, _offerOrder⟩⟩

/-- The fields of `AlgoStreamingService<T>`; `L` names the registered listeners. -/
structure AlgoStreamingService (T L : Type) where
  algoStreams : StdMap (AlgoStream T)
  listeners : List L
  pricePublishCount : Int

/-- The constructor of `AlgoStreamingService<T>`. -/
def AlgoStreamingService.ctor {T L : Type} : AlgoStreamingService T L :=
  { algoStreams := StdMap.empty
    listeners := []
    pricePublishCount := 0 }

/-- The member `AlgoStreamingService<T>::GetData`. -/
def AlgoStreamingService.GetData {T L : Type} (s : AlgoStreamingService T L) (_key : List Char) :
    AlgoStream T × AlgoStreamingService T L :=
  let r := s.algoStreams.index _key
  (r.1, { s with algoStreams := r.2 })

/-- The member `AlgoStreamingService<T>::AddListener`. -/
def AlgoStreamingService.AddListener {T L : Type} (s : AlgoStreamingService T L) (_listener : L) :
    AlgoStreamingService T L :=
  { s with listeners := s.listeners ++ [_listener] }

/-- The constant `MILLION`. -/
def MILLION : Int := 1000000

/-- The constant `HIDDEN_QUANTITY_MULTIPLIER`. -/
def HIDDEN_QUANTITY_MULTIPLIER : Int := 2

/-- The function `calculateVisibleQuantity(int count)`; `%` is the C++ remainder, which has the
sign of `count`. -/
def calculateVisibleQuantity (count : Int) : Int :=
  (count.tmod 2 + 1) * MILLION

/-- The member `AlgoStreamingService<T>::AlgoPublishPrice`: the new service and the `ProcessAdd`
calls made.  The `long` counter is passed to the `int` parameter of
`calculateVisibleQuantity`. -/
def AlgoStreamingService.AlgoPublishPrice {T L : Type} [Product T]
    (s : AlgoStreamingService T L) (price : Price T) :
    AlgoStreamingService T L × List (L × AlgoStream T) :=
  let product := price.product
  let productId := Product.GetProductId product
  let midPrice := price.mid
  let spread := price.bidOfferSpread
  let bidPrice := midPrice - spread / 2
  let offerPrice := midPrice + spread / 2
  let visibleQuantity := calculateVisibleQuantity (longToInt s.pricePublishCount)
  let hiddenQuantity := visibleQuantity * HIDDEN_QUANTITY_MULTIPLIER
  let bidOrder : PriceStreamOrder := ⟨bidPrice, visibleQuantity, hiddenQuantity, PricingSide.BID⟩
  let offerOrder : PriceStreamOrder :=
    ⟨offerPrice, visibleQuantity, hiddenQuantity, PricingSide.OFFER⟩
  let algoStream : AlgoStream T := AlgoStream.ctor product bidOrder offerOrder
  ({ s with pricePublishCount := s.pricePublishCount + 1
            algoStreams := s.algoStreams.assign productId algoStream },
    s.listeners.map (fun listener => (listener, algoStream)))

/-- Publishing a sequence of prices one after the other (what
`AlgoStreamingToPricingListener::ProcessAdd` does for each price): the service afterwards. -/
def AlgoStreamingService.publishAll {T L : Type} [Product T] (s : AlgoStreamingService T L)
    (prices : List (Price T)) : AlgoStreamingService T L :=
  prices.foldl (fun st price => (st.AlgoPublishPrice price).1) s

/-! ## Sample data -/

/-- The order book of the specification's example: bids (100.0, 5), (100.5, 3) and offers
(101.0, 2), (100.75, 4). -/
def sampleBook : OrderBook Bond :=
  { product := default
    bidStack := [⟨100, 5, PricingSide.BID⟩, ⟨201 / 2, 3, PricingSide.BID⟩]
    offerStack := [⟨101, 2, PricingSide.OFFER⟩, ⟨403 / 4, 4, PricingSide.OFFER⟩] }

/-- A book with two bids at 100.0, of quantities 5 and 3. -/
def twoBidsBook : OrderBook Bond :=
  { product := default
    bidStack := [⟨100, 5, PricingSide.BID⟩, ⟨100, 3, PricingSide.BID⟩]
    offerStack := [⟨101, 2, PricingSide.OFFER⟩] }

/-- A market data service that stores `twoBidsBook` under the identifier `91282CJL6`. -/
def sampleService : MarketDataService Bond Nat :=
  { orderBooks := StdMap.assign StdMap.empty "91282CJL6".toList twoBidsBook
    listeners := []
    bookDepth := 10 }

/-- The execution that `AlgoOrderExecution` builds on a snapshot whose best bid and offer are
`r`, when the execution counter is `count`. -/
def builtExecution {T : Type} (count : Int) (product : T) (r : BidOffer) (_orderId : List Char) :
    AlgoExecution T :=
  AlgoExecution.ctor product
    (if count.tmod 2 ≠ 0 then (r.bidOrder.price, r.bidOrder.quantity, PricingSide.BID)
      else (r.offerOrder.price, r.offerOrder.quantity, PricingSide.OFFER)).2.2
    _orderId OrderType.MARKET
    (if count.tmod 2 ≠ 0 then (r.bidOrder.price, r.bidOrder.quantity, PricingSide.BID)
      else (r.offerOrder.price, r.offerOrder.quantity, PricingSide.OFFER)).1
    (if count.tmod 2 ≠ 0 then (r.bidOrder.price, r.bidOrder.quantity, PricingSide.BID)
      else (r.offerOrder.price, r.offerOrder.quantity, PricingSide.OFFER)).2.1
    0 "PARENT_ORDER_ID".toList false

/-- A snapshot with zero spread whose only offer has the quantity 2^53 + 1. -/
def largeBook : OrderBook Bond :=
  { product := default
    bidStack := [⟨100, 1000000, PricingSide.BID⟩]
    offerStack := [⟨100, 9007199254740993, PricingSide.OFFER⟩] }

/-- A snapshot whose offer stack is empty. -/
def oneSidedBook : OrderBook Bond :=
  { product := default
    bidStack := [⟨100, 1000000, PricingSide.BID⟩]
    offerStack := [] }

/-- A snapshot with spread 1/128. -/
def tightBook : OrderBook Bond :=
  { product := default
    bidStack := [⟨100, 1000000, PricingSide.BID⟩]
    offerStack := [⟨12801 / 128, 2000000, PricingSide.OFFER⟩] }

/-- A freshly constructed `AlgoExecutionService` on which the listeners `ls` have been registered
in turn. -/
def AlgoExecutionService.fresh {T L : Type} (ls : List L) : AlgoExecutionService T L :=
  ls.foldl AlgoExecutionService.AddListener AlgoExecutionService.ctor

/-- A freshly constructed `AlgoStreamingService` on which the listeners `ls` have been registered
in turn. -/
def AlgoStreamingService.fresh {T L : Type} (ls : List L) : AlgoStreamingService T L :=
  ls.foldl AlgoStreamingService.AddListener AlgoStreamingService.ctor

/-- A price with mid 100 and spread 1/128 for the default bond. -/
def samplePrice : Price Bond :=
  { product := default, mid := 100, bidOfferSpread := 1 / 128 }

/-! ## `tradebookingservice.hpp` -/

/-- Trade sides. -/
inductive Side where
  | BUY
  | SELL
deriving DecidableEq, Repr, Inhabited

/-- Trade object with a price, side, and quantity on a particular book. -/
structure Trade (T : Type) where
  product : T
  tradeId : List Char
  price : ℚ
  book : List Char
  quantity : Int
  side : Side
deriving DecidableEq

instance {T : Type} [Inhabited T] : Inhabited (Trade T) := ⟨⟨default, [], 0, [], 0, Side.BUY⟩⟩

/-- The fields of `TradeBookingService<T>`; `L` names the registered listeners.  The connector
and the member `listener` only point back to the service and are left out. -/
structure TradeBookingService (T L : Type) where
  trades : StdMap (Trade T)
  listeners : List L

/-- The constructor of `TradeBookingService<T>`. -/
def TradeBookingService.ctor {T L : Type} : TradeBookingService T L :=
  { trades := StdMap.empty
    listeners := [] }

/-- The member `TradeBookingService<T>::GetData`. -/
def TradeBookingService.GetData {T L : Type} [Inhabited T] (s : TradeBookingService T L)
    (_key : List Char) : Trade T × TradeBookingService T L :=
  let r := s.trades.index _key
  (r.1, { s with trades := r.2 })

/-- The member `TradeBookingService<T>::OnMessage`: the new service and the `ProcessAdd` calls
made. -/
def TradeBookingService.OnMessage {T L : Type} (s : TradeBookingService T L) (_data : Trade T) :
    TradeBookingService T L × List (L × Trade T) :=
  let _id := _data.tradeId
  ({ s with trades := s.trades.assign _id _data }, s.listeners.map (fun l => (l, _data)))

/-- The member `TradeBookingService<T>::AddListener`. -/
def TradeBookingService.AddListener {T L : Type} (s : TradeBookingService T L) (_listener : L) :
    TradeBookingService T L :=
  { s with listeners := s.listeners ++ [_listener] }

/-- The member `TradeBookingService<T>::BookTrade`: the `ProcessAdd` calls made. -/
def TradeBookingService.BookTrade {T L : Type} (s : TradeBookingService T L) (_trade : Trade T) :
    List (L × Trade T) :=
  s.listeners.map (fun l => (l, _trade))

/-- The fields of `TradeBookingToExecutionListener<T>` besides the pointer to its service. -/
structure TradeBookingToExecutionListener where
  tradeBookCount : Int
deriving DecidableEq

/-- The constructor of `TradeBookingToExecutionListener<T>`. -/
def TradeBookingToExecutionListener.ctor : TradeBookingToExecutionListener :=
  { tradeBookCount := 0 }

/-- The static vector `marketVector` of `ProcessAdd`. -/
def marketVector : List (List Char) := ["TRSY1".toList, "TRSY2".toList, "TRSY3".toList]

/-- The member `TradeBookingToExecutionListener<T>::ProcessAdd`, acting on the listener and on
the service it points to: both afterwards, and the `ProcessAdd` calls made on the service's
listeners, first those of `OnMessage`, then those of `BookTrade`.  In
`tradeBookCount % marketVector.size()` the `long` counter is converted to `size_t`. -/
def TradeBookingToExecutionListener.ProcessAdd {T L : Type}
    (self : TradeBookingToExecutionListener) (service : TradeBookingService T L)
    (executionData : ExecutionOrder T) :
    TradeBookingToExecutionListener × TradeBookingService T L × List (L × Trade T) :=
  let tradeBookCount := self.tradeBookCount + 1
  let product := executionData.product
  let pricingSide := executionData.side
  let orderId := executionData.orderId
  let price := executionData.price
  let visibleQuantity := executionData.visibleQuantity
  let hiddenQuantity := executionData.GetHiddenQuantity
  let tradeSide := if pricingSide = PricingSide.BID then Side.SELL else Side.BUY
  let book :=
    marketVector.getD ((tradeBookCount % 18446744073709551616) % (marketVector.length : Int)).toNat []
  let totalQuantity := visibleQuantity + hiddenQuantity
  let trade : Trade T := ⟨product, orderId, price, book, totalQuantity, tradeSide⟩
  let r := service.OnMessage trade
  ({ tradeBookCount := tradeBookCount }, r.1, r.2 ++ r.1.BookTrade trade)

/-! ## `positionservice.hpp` -/

/-- Inserting a new key into a `std::map<string, long>`, kept as the list of its entries in key
order. -/
def insertEntry (m : List (List Char × Int)) (key : List Char) (value : Int) :
    List (List Char × Int) :=
  match m with
  | [] => [(key, value)]
  | (k, v) :: rest =>
    if key < k then (key, value) :: (k, v) :: rest else (k, v) :: insertEntry rest key value

/-- Adding `delta` to the value stored under a key that is present. -/
def updateEntry (m : List (List Char × Int)) (key : List Char) (delta : Int) :
    List (List Char × Int) :=
  match m with
  | [] => []
  | (k, v) :: rest =>
    if k = key then (k, v + delta) :: rest else (k, v) :: updateEntry rest key delta

/-- The statement `m[key] += delta` on a `std::map<string, long>`: an absent key is first
inserted with the value 0. -/
def addAt (m : List (List Char × Int)) (key : List Char) (delta : Int) : List (List Char × Int) :=
  if key ∈ m.map Prod.fst then updateEntry m key delta else insertEntry m key (0 + delta)

/-- Position class in a particular book. -/
structure Position (T : Type) where
  product : T
  positions : List (List Char × Int)
deriving DecidableEq

instance {T : Type} [Inhabited T] : Inhabited (Position T) := ⟨⟨default, []⟩⟩

/-- The constructor `Position(const T& _product)`. -/
def Position.ctor {T : Type} (_product : T) : Position T :=
  { product := _product
    positions := [] }

/-- The member `Position<T>::GetPosition`: the value of `positions[book]`, and the position with
an absent book inserted at 0. -/
def Position.GetPosition {T : Type} (p : Position T) (book : List Char) : Int × Position T :=
  match p.positions.lookup book with
  | some v => (v, p)
  | none => (0, { p with positions := insertEntry p.positions book 0 })

/-- The member `Position<T>::GetPositions`. -/
def Position.GetPositions {T : Type} (p : Position T) : List (List Char × Int) :=
  p.positions

/-- The member `Position<T>::AddPosition`. -/
def Position.AddPosition {T : Type} (p : Position T) (_book : List Char) (_position : Int) :
    Position T :=
  { p with positions := addAt p.positions _book _position }

/-- The member `Position<T>::GetAggregatePosition`. -/
def Position.GetAggregatePosition {T : Type} (p : Position T) : Int :=
  p.positions.foldl (fun aggregatePosition e => aggregatePosition + e.2) 0

/-- The fields of `PositionService<T>`; `L` names the registered listeners. -/
structure PositionService (T L : Type) where
  positions : StdMap (Position T)
  listeners : List L

/-- The constructor of `PositionService<T>`. -/
def PositionService.ctor {T L : Type} : PositionService T L :=
  { positions := StdMap.empty
    listeners := [] }

/-- The member `PositionService<T>::GetData`. -/
def PositionService.GetData {T L : Type} [Inhabited T] (s : PositionService T L)
    (_key : List Char) : Position T × PositionService T L :=
  let r := s.positions.index _key
  (r.1, { s with positions := r.2 })

/-- The member `PositionService<T>::OnMessage`. -/
def PositionService.OnMessage {T L : Type} [Product T] (s : PositionService T L)
    (_data : Position T) : PositionService T L :=
  let _id := Product.GetProductId _data.product
  { s with positions := s.positions.assign _id _data }

/-- The member `PositionService<T>::AddListener`. -/
def PositionService.AddListener {T L : Type} (s : PositionService T L) (_listener : L) :
    PositionService T L :=
  { s with listeners := s.listeners ++ [_listener] }

/-- The member `PositionService<T>::AddTrade`: the new service and the `ProcessAdd` calls
made. -/
def PositionService.AddTrade {T L : Type} [Product T] [Inhabited T] (s : PositionService T L)
    (_trade : Trade T) : PositionService T L × List (L × Position T) :=
  let _product := _trade.product
  let _productId := Product.GetProductId _product
  let _book := _trade.book
  let _quantity := _trade.quantity
  let _side := _trade.side
  let _positionTo := Position.ctor _product
  let _positionTo :=
    if _side = Side.BUY then _positionTo.AddPosition _book _quantity
    else _positionTo.AddPosition _book (-_quantity)
  let r := s.positions.index _productId
  let _positionFrom := r.1
  let _positionMap := _positionFrom.GetPositions
  let _positionTo := _positionMap.foldl (fun merged p => merged.AddPosition p.1 p.2) _positionTo
  ({ s with positions := r.2.assign _productId _positionTo },
    s.listeners.map (fun l => (l, _positionTo)))

/-- Applying a sequence of trades with `AddTrade`, one after the other (what
`PositionToTradeBookingListener::ProcessAdd` does for each trade): the service afterwards. -/
def PositionService.addTrades {T L : Type} [Product T] [Inhabited T] (s : PositionService T L)
    (trades : List (Trade T)) : PositionService T L :=
  trades.foldl (fun st t => (st.AddTrade t).1) s

/-- A freshly constructed `PositionService` on which the listeners `ls` have been registered in
turn. -/
def PositionService.fresh {T L : Type} (ls : List L) : PositionService T L :=
  ls.foldl PositionService.AddListener PositionService.ctor

/-- The signed quantity of a trade: `+quantity` for BUY, `-quantity` for SELL. -/
def signedQuantity {T : Type} (t : Trade T) : Int :=
  if t.side = Side.BUY then t.quantity else -t.quantity

/-- The position of the instrument `productId` in `book` as the service vends it:
`GetData(productId).GetPosition(book)`. -/
def PositionService.positionOf {T L : Type} [Inhabited T] (s : PositionService T L)
    (productId book : List Char) : Int :=
  ((s.GetData productId).1.GetPosition book).1

/-- The aggregate position of the instrument `productId` as the service vends it:
`GetData(productId).GetAggregatePosition()`. -/
def PositionService.aggregateOf {T L : Type} [Inhabited T] (s : PositionService T L)
    (productId : List Char) : Int :=
  (s.GetData productId).1.GetAggregatePosition

/-- The per-book map on file for the instrument `productId`:
`GetData(productId).GetPositions()`. -/
def PositionService.booksOf {T L : Type} [Inhabited T] (s : PositionService T L)
    (productId : List Char) : List (List Char × Int) :=
  (s.GetData productId).1.GetPositions

/-- The position that `AddTrade` builds for a trade: the trade's product, with the per-book map
on file folded into the one-entry map made from the trade. -/
def PositionService.merged {T L : Type} [Product T] [Inhabited T] (s : PositionService T L)
    (t : Trade T) : Position T :=
  { product := t.product
    positions := (s.booksOf (Product.GetProductId t.product)).foldl
      (fun m e => addAt m e.1 e.2) (addAt [] t.book (signedQuantity t)) }

/-- The bond 91282CJL6 (the 2-year note of `bondMap`). -/
def sampleBond : Bond :=
  { productId := "91282CJL6".toList
    ticker := "US2Y".toList
    coupon := 39 / 800
    maturityDate := (2025, 11, 30) }

/-- The three trades of the specification's example: BUY 1,000,000 and SELL 400,000 in TRSY1,
then BUY 200,000 in TRSY2. -/
def sampleTrades : List (Trade Bond) :=
  [⟨sampleBond, "TRADE1".toList, 100, "TRSY1".toList, 1000000, Side.BUY⟩,
   ⟨sampleBond, "TRADE2".toList, 100, "TRSY1".toList, 400000, Side.SELL⟩,
   ⟨sampleBond, "TRADE3".toList, 100, "TRSY2".toList, 200000, Side.BUY⟩]

/-! ## `riskservice.hpp` -/

/-- PV01 risk. -/
structure PV01 (T : Type) where
  product : T
  pv01 : ℚ
  quantity : Int
deriving DecidableEq

instance {T : Type} [Inhabited T] : Inhabited (PV01 T) := ⟨⟨default, 0, 0⟩⟩

/-- A bucket sector to bucket a group of securities. -/
structure BucketedSector (T : Type) where
  products : List T
  name : List Char
deriving DecidableEq

/-- The table `PV01Map` of `GetPV01`. -/
def PV01Map : List (List Char × ℚ) :=
  [("91282CJL6".toList, 1967211 / 100000000),
   ("91282CHY0".toList, 28849852 / 1000000000),
   ("91282CHX2".toList, 48555605 / 1000000000),
   ("91282CJM4".toList, 68303332 / 1000000000),
   ("91282CJJ1".toList, 8071955 / 100000000),
   ("912810TM0".toList, 118325668 / 1000000000),
   ("912810TL2".toList, 185319634 / 1000000000)]

/-- The function `GetPV01` of `utilities.hpp`: `PV01Map[_id]` on a local, non-const map, so an
identifier that is not in the table yields a value-initialised `double`, 0. -/
def GetPV01 (_id : List Char) : ℚ :=
  (PV01Map.lookup _id).getD 0

/-- The fields of `RiskService<T>`; `L` names the registered listeners. -/
structure RiskService (T L : Type) where
  pv01s : StdMap (PV01 T)
  listeners : List L

/-- The constructor of `RiskService<T>`. -/
def RiskService.ctor {T L : Type} : RiskService T L :=
  { pv01s := StdMap.empty
    listeners := [] }

/-- The member `RiskService<T>::GetData`. -/
def RiskService.GetData {T L : Type} [Inhabited T] (s : RiskService T L) (key : List Char) :
    PV01 T × RiskService T L :=
  let r := s.pv01s.index key
  (r.1, { s with pv01s := r.2 })

/-- The member `RiskService<T>::OnMessage`. -/
def RiskService.OnMessage {T L : Type} [Product T] (s : RiskService T L) (_data : PV01 T) :
    RiskService T L :=
  let id := Product.GetProductId _data.product
  { s with pv01s := s.pv01s.assign id _data }

/-- The member `RiskService<T>::AddListener`. -/
def RiskService.AddListener {T L : Type} (s : RiskService T L) (_listener : L) :
    RiskService T L :=
  { s with listeners := s.listeners ++ [_listener] }

/-- The member `RiskService<T>::AddPosition`: the new service and the `ProcessAdd` calls made. -/
def RiskService.AddPosition {T L : Type} [Product T] (s : RiskService T L)
    (_position : Position T) : RiskService T L × List (L × PV01 T) :=
  let _product := _position.product
  let _id := Product.GetProductId _product
  let _pv01Value := GetPV01 _id
  let _quantity := _position.GetAggregatePosition
  let _pv01 : PV01 T := ⟨_product, _pv01Value, _quantity⟩
  ({ s with pv01s := s.pv01s.assign _id _pv01 }, s.listeners.map (fun l => (l, _pv01)))

/-- One turn of the loop of `GetBucketedRisk`, on the pair of the map `pv01s` and the running
sum `_pv01`: both reads go through `pv01s[_pId]`, and the quantity is cast to `double`. -/
def bucketStep {T : Type} [Product T] [Inhabited T] (st : StdMap (PV01 T) × ℚ) (p : T) :
    StdMap (PV01 T) × ℚ :=
  let _pId := Product.GetProductId p
  let r1 := st.1.index _pId
  let _q := r1.1.quantity
  let r2 := r1.2.index _pId
  let _val := r2.1.pv01
  (r2.2, st.2 + _val * longToDouble _q)

/-- The member `RiskService<T>::GetBucketedRisk`, with the map as `pv01s[_pId]` leaves it.  The
result is the `PV01` value the function constructs (C++ hands it out by reference). -/
def RiskService.GetBucketedRisk {T L : Type} [Product T] [Inhabited T] (s : RiskService T L)
    (_sector : BucketedSector T) : RiskService T L × PV01 (BucketedSector T) :=
  let _product := _sector
  let _quantity : Int := 1
  let _products := _sector.products
  let r := _products.foldl bucketStep (s.pv01s, 0)
  ({ s with pv01s := r.1 }, ⟨_product, r.2, _quantity⟩)

/-! ## `inquiryservice.hpp` -/

/-- Various inquiry states. -/
inductive InquiryState where
  | RECEIVED
  | QUOTED
  | DONE
  | REJECTED
  | CUSTOMER_REJECTED
deriving DecidableEq, Repr, Inhabited

/-- Inquiry object modeling a customer inquiry from a client. -/
structure Inquiry (T : Type) where
  inquiryId : List Char
  product : T
  side : Side
  quantity : Int
  price : ℚ
  state : InquiryState
deriving DecidableEq

instance {T : Type} [Inhabited T] : Inhabited (Inquiry T) :=
  ⟨⟨[], default, Side.BUY, 0, 0, InquiryState.RECEIVED⟩⟩

/-- The member `Inquiry<T>::SetState`. -/
def Inquiry.SetState {T : Type} (self : Inquiry T) (_state : InquiryState) : Inquiry T :=
  { self with state := _state }

/-- The fields of `InquiryService<T>`; `L` names the registered listeners.  The connector only
points back to the service and is left out. -/
structure InquiryService (T L : Type) where
  inquiries : StdMap (Inquiry T)
  listeners : List L

/-- The constructor of `InquiryService<T>`. -/
def InquiryService.ctor {T L : Type} : InquiryService T L :=
  { inquiries := StdMap.empty
    listeners := [] }

/-- The member `InquiryService<T>::GetData`. -/
def InquiryService.GetData {T L : Type} [Inhabited T] (s : InquiryService T L)
    (_key : List Char) : Inquiry T × InquiryService T L :=
  let r := s.inquiries.index _key
  (r.1, { s with inquiries := r.2 })

/-- The member `InquiryService<T>::AddListener`. -/
def InquiryService.AddListener {T L : Type} (s : InquiryService T L) (_listener : L) :
    InquiryService T L :=
  { s with listeners := s.listeners ++ [_listener] }

/-- What a call that takes an inquiry by reference leaves behind: the service, the inquiry as
the caller sees it afterwards, the `ProcessAdd` calls made on the listeners and the inquiries
handed to `InquiryConnector::Publish`, each as it was at the time of the call. -/
structure InquiryOutcome (T L : Type) where
  service : InquiryService T L
  inquiry : Inquiry T
  calls : List (L × Inquiry T)
  published : List (Inquiry T)

/-- The measure that makes the mutual calls of `OnMessage`, `Publish` and `Subscribe` end: only
an inquiry in state RECEIVED is sent round, and it comes back QUOTED. -/
def roundTripsLeft {T : Type} (inquiry : Inquiry T) : Nat :=
  if inquiry.state = InquiryState.RECEIVED then 3 else 0

mutual

/-- The member `InquiryService<T>::OnMessage`.  The second test reads the local `currentState`
taken on entry, not the state the inquiry has after `Publish`. -/
def InquiryService.OnMessage {T L : Type} (s : InquiryService T L) (inquiry : Inquiry T) :
    InquiryOutcome T L :=
  let currentState := inquiry.state
  let r1 : InquiryOutcome T L :=
    if _h : currentState = InquiryState.RECEIVED then
      let s1 := { s with inquiries := s.inquiries.assign inquiry.inquiryId inquiry }
      let r := InquiryConnector.Publish s1 inquiry
      { r with published := inquiry :: r.published }
    else ⟨s, inquiry, [], []⟩
  if currentState = InquiryState.QUOTED then
    let inquiry2 := r1.inquiry.SetState InquiryState.DONE
    let s2 := { r1.service with
      inquiries := r1.service.inquiries.assign inquiry2.inquiryId inquiry2 }
    ⟨s2, inquiry2, r1.calls ++ s2.listeners.map (fun listener => (listener, inquiry2)),
      r1.published⟩
  else r1
termination_by 2 * roundTripsLeft inquiry + 2
decreasing_by
  simp only [roundTripsLeft]
  simp_all

/-- The member `InquiryConnector<T>::Publish`, acting on the service it points to. -/
def InquiryConnector.Publish {T L : Type} (s : InquiryService T L) (_data : Inquiry T) :
    InquiryOutcome T L :=
  if _h : _data.state = InquiryState.RECEIVED then
    InquiryConnector.Subscribe s (_data.SetState InquiryState.QUOTED)
  else ⟨s, _data, [], []⟩
termination_by 2 * roundTripsLeft _data + 1
decreasing_by
  simp only [roundTripsLeft, Inquiry.SetState]
  simp_all

/-- The member `InquiryConnector<T>::Subscribe(Inquiry<T>&)`. -/
def InquiryConnector.Subscribe {T L : Type} (s : InquiryService T L) (_data : Inquiry T) :
    InquiryOutcome T L :=
  InquiryService.OnMessage s _data
termination_by 2 * roundTripsLeft _data + 3
decreasing_by
  simp only [roundTripsLeft]
  omega

end

/-! ## The remaining keyed stores -/

instance {T : Type} [Inhabited T] : Inhabited (Price T) := ⟨⟨default, 0, 0⟩⟩

instance {T : Type} [Inhabited T] : Inhabited (ExecutionOrder T) :=
  ⟨⟨default, PricingSide.BID, [], OrderType.FOK, 0, 0, 0, [], false⟩⟩

instance : Inhabited PriceStreamOrder := ⟨⟨0, 0, 0, PricingSide.BID⟩⟩

instance {T : Type} [Inhabited T] : Inhabited (PriceStream T) := ⟨⟨default, default, default⟩⟩

/-- The fields of `PricingService<T>`; `L` names the registered listeners. -/
structure PricingService (T L : Type) where
  prices : StdMap (Price T)
  listeners : List L

/-- The member `PricingService<T>::GetData`. -/
def PricingService.GetData {T L : Type} [Inhabited T] (s : PricingService T L)
    (_key : List Char) : Price T × PricingService T L :=
  let r := s.prices.index _key
  (r.1, { s with prices := r.2 })

/-- The member `PricingService<T>::OnMessage`: the new service and the `ProcessAdd` calls
made. -/
def PricingService.OnMessage {T L : Type} [Product T] (s : PricingService T L)
    (_data : Price T) : PricingService T L × List (L × Price T) :=
  ({ s with prices := s.prices.assign (Product.GetProductId _data.product) _data },
    s.listeners.map (fun listener => (listener, _data)))

/-- The member `MarketDataService<T>::GetData`. -/
def MarketDataService.GetData {T L : Type} [Inhabited T] (s : MarketDataService T L)
    (_key : List Char) : OrderBook T × MarketDataService T L :=
  let r := s.orderBooks.index _key
  (r.1, { s with orderBooks := r.2 })

/-- The member `MarketDataService<T>::OnMessage`: the new service and the `ProcessAdd` calls
made. -/
def MarketDataService.OnMessage {T L : Type} [Product T] (s : MarketDataService T L)
    (_data : OrderBook T) : MarketDataService T L × List (L × OrderBook T) :=
  let product_id := Product.GetProductId _data.product
  ({ s with orderBooks := s.orderBooks.assign product_id _data },
    s.listeners.map (fun listener => (listener, _data)))

/-- The member `AlgoStreamingService<T>::OnMessage`.  A record that points to no stream cannot
be dereferenced: `none`. -/
def AlgoStreamingService.OnMessage {T L : Type} [Product T] (s : AlgoStreamingService T L)
    (_data : AlgoStream T) : Option (AlgoStreamingService T L) := do
  let stream ← _data.priceStream
  let _id := Product.GetProductId stream.product
  pure { s with algoStreams := s.algoStreams.assign _id _data }

/-- The fields of `ExecutionService<T>`; `L` names the registered listeners. -/
structure ExecutionService (T L : Type) where
  executionOrders : StdMap (ExecutionOrder T)
  listeners : List L

/-- The member `ExecutionService<T>::GetData`. -/
def ExecutionService.GetData {T L : Type} [Inhabited T]
    (s : ExecutionService T L) (_id : List Char) : ExecutionOrder T × ExecutionService T L :=
  let r := s.executionOrders.index _id
  (r.1, { s with executionOrders := r.2 })

/-- The member `ExecutionService<T>::OnMessage`. -/
def ExecutionService.OnMessage {T L : Type} [Product T] (s : ExecutionService T L)
    (_data : ExecutionOrder T) : ExecutionService T L :=
  let _id := Product.GetProductId _data.product
  { s with executionOrders := s.executionOrders.assign _id _data }

/-- The fields of `StreamingService<T>`; `L` names the registered listeners. -/
structure StreamingService (T L : Type) where
  priceStreams : StdMap (PriceStream T)
  listeners : List L

/-- The member `StreamingService<T>::GetData`. -/
def StreamingService.GetData {T L : Type} [Inhabited T]
    (s : StreamingService T L) (key : List Char) : PriceStream T × StreamingService T L :=
  let r := s.priceStreams.index key
  (r.1, { s with priceStreams := r.2 })

/-- The member `StreamingService<T>::OnMessage`. -/
def StreamingService.OnMessage {T L : Type} [Product T] (s : StreamingService T L)
    (data : PriceStream T) : StreamingService T L :=
  let id := Product.GetProductId data.product
  { s with priceStreams := s.priceStreams.assign id data }

/-- The enumeration `ServiceType` of `historicaldataservice.hpp`. -/
inductive ServiceType where
  | POSITION
  | RISK
  | EXECUTION
  | STREAMING
  | INQUIRY
deriving DecidableEq, Repr, Inhabited

/-- What `HistoricalDataService<V>` asks of the type `V` it archives in `OnMessage`:
`GetProduct().GetProductId()`. -/
class Archived (V : Type) where
  productId : V → List Char

instance {T : Type} [Product T] : Archived (Position T) :=
  ⟨fun v => Product.GetProductId v.product⟩

instance {T : Type} [Product T] : Archived (PV01 T) :=
  ⟨fun v => Product.GetProductId v.product⟩

instance {T : Type} [Product T] : Archived (ExecutionOrder T) :=
  ⟨fun v => Product.GetProductId v.product⟩

instance {T : Type} [Product T] : Archived (PriceStream T) :=
  ⟨fun v => Product.GetProductId v.product⟩

instance {T : Type} [Product T] : Archived (Inquiry T) :=
  ⟨fun v => Product.GetProductId v.product⟩

/-- The fields of `HistoricalDataService<V>`; `L` names the registered listeners. -/
structure HistoricalDataService (V L : Type) where
  historicalDatas : StdMap V
  listeners : List L
  type : ServiceType

/-- The member `HistoricalDataService<V>::GetData`. -/
def HistoricalDataService.GetData {V L : Type} [Inhabited V] (s : HistoricalDataService V L)
    (_key : List Char) : V × HistoricalDataService V L :=
  let r := s.historicalDatas.index _key
  (r.1, { s with historicalDatas := r.2 })

/-- The member `HistoricalDataService<V>::OnMessage`. -/
def HistoricalDataService.OnMessage {V L : Type} [Archived V] (s : HistoricalDataService V L)
    (_data : V) : HistoricalDataService V L :=
  { s with historicalDatas := s.historicalDatas.assign (Archived.productId _data) _data }

/-- The member `Price<T>::ToStrings`. -/
def Price.ToStrings {T : Type} [Product T] (p : Price T) : List (List Char) :=
  [Product.GetProductId p.product, PriceToString p.mid, PriceToString p.bidOfferSpread]

/-- The fields of `GUIService<T>`; `L` names the registered listeners. -/
structure GUIService (T L : Type) where
  GUIs : StdMap (Price T)
  listeners : List L
  accelerator : Int
  time : Int

/-- The constructor of `GUIService<T>`. -/
def GUIService.ctor {T L : Type} : GUIService T L :=
  { GUIs := StdMap.empty
    listeners := []
    accelerator := 300
    time := 0 }

/-- The member `GUIService<T>::GetData`. -/
def GUIService.GetData {T L : Type} [Inhabited T] (s : GUIService T L) (_key : List Char) :
    Price T × GUIService T L :=
  let r := s.GUIs.index _key
  (r.1, { s with GUIs := r.2 })

/-- The loop `while (currentTime < time) currentTime += 1000;` of `GUIConnector::Publish`. -/
def catchUp (time currentTime : Int) : Int :=
  if currentTime < time then catchUp time (currentTime + 1000) else currentTime
termination_by (time - currentTime).toNat
decreasing_by omega

/-- The member `GUIConnector<T>::Publish`, acting on the service it points to; `clock` is what
`GetTime()` returns, the milliseconds within the current second.  The result is the service
and, when a line is appended to `gui.txt`, the fields written after the time stamp. -/
def GUIConnector.Publish {T L : Type} [Product T] (s : GUIService T L) (data : Price T)
    (clock : Int) : GUIService T L × Option (List (List Char)) :=
  let accelerator := s.accelerator
  let time := s.time
  let currentTime := catchUp time (longToInt clock)
  if currentTime - time ≥ accelerator then
    ({ s with time := currentTime }, some data.ToStrings)
  else (s, none)

/-- The member `GUIService<T>::OnMessage`; `clock` is what `GetTime()` returns during the
call. -/
def GUIService.OnMessage {T L : Type} [Product T] (s : GUIService T L) (_data : Price T)
    (clock : Int) : GUIService T L × Option (List (List Char)) :=
  let product_id := Product.GetProductId _data.product
  GUIConnector.Publish { s with GUIs := s.GUIs.assign product_id _data } _data clock

/-! ## Sample data for risk and inquiries -/

/-- The bond 91282CHY0 (the 3-year note of `bondMap`). -/
def sampleBond3Y : Bond :=
  { productId := "91282CHY0".toList
    ticker := "US3Y".toList
    coupon := 37 / 800
    maturityDate := (2026, 9, 15) }

/-- A position of 2 in the bond 91282CJL6, all in TRSY1. -/
def samplePosition : Position Bond :=
  { product := sampleBond
    positions := [("TRSY1".toList, 2)] }

/-- The risk service of the specification's example: the records (0.02, 1,000,000) and
(0.03, 2,000,000). -/
def sampleRisk : RiskService Bond Nat :=
  ((RiskService.ctor : RiskService Bond Nat).OnMessage ⟨sampleBond, 1 / 50, 1000000⟩).OnMessage
    ⟨sampleBond3Y, 3 / 100, 2000000⟩

/-- The sector made of the two bonds of `sampleRisk`. -/
def sampleSector : BucketedSector Bond :=
  { products := [sampleBond, sampleBond3Y]
    name := "FrontEnd".toList }

/-- The PV01 value on file for a product: `GetData(id).GetPV01()`. -/
def RiskService.pv01Of {T L : Type} [Inhabited T] (s : RiskService T L) (id : List Char) : ℚ :=
  (s.GetData id).1.pv01

/-- The quantity on file for a product: `GetData(id).GetQuantity()`. -/
def RiskService.quantityOf {T L : Type} [Inhabited T] (s : RiskService T L) (id : List Char) :
    Int :=
  (s.GetData id).1.quantity

/-- An inquiry to buy 1,000,000 of the bond 91282CJL6 at 100, in the given state. -/
def sampleInquiry (state : InquiryState) : Inquiry Bond :=
  { inquiryId := "INQ1".toList
    product := sampleBond
    side := Side.BUY
    quantity := 1000000
    price := 100
    state := state }

/-- An inquiry service with no inquiry on file and the listeners 1 and 2. -/
def sampleInquiryService : InquiryService Bond Nat :=
  ((InquiryService.ctor : InquiryService Bond Nat).AddListener 1).AddListener 2

/-! ## `utilities.hpp`: reference data and text rows -/

/-- The inner loop of `SplitLine`: `getline(lineStream, cell, ',')` until it fails.  `cell` holds
the characters read since the last comma; at the end of the text an empty `cell` means that
`getline` extracted nothing and failed. -/
def SplitLine.cells (cell : List Char) : List Char → List (List Char)
  | [] => if cell = [] then [] else [cell]
  | c :: rest =>
    if c = ',' then cell :: SplitLine.cells [] rest else SplitLine.cells (cell ++ [c]) rest

/-- The function `SplitLine` of `utilities.hpp`. -/
def SplitLine (line : List Char) : List (List Char) :=
  SplitLine.cells [] line

/-- The function `std::stol(str)` (base 10): as `std::stoi`, with the range of `long`. -/
def stol (s : List Char) : Option Int :=
  let s1 := s.dropWhile isspace
  let neg : Bool := s1.head? == some '-'
  let s2 := if s1.head? == some '-' || s1.head? == some '+' then s1.tail else s1
  let ds := s2.takeWhile Char.isDigit
  if ds.isEmpty then none
  else
    let v : Int := if neg then -(decimalValue ds : Int) else (decimalValue ds : Int)
    if -9223372036854775808 ≤ v ∧ v ≤ 9223372036854775807 then some v else none

/-- The table `bondMap`: maturity in years, then identifier and maturity date. -/
def bondMap : List (Int × List Char × Nat × Nat × Nat) :=
  [(2, "91282CJL6".toList, 2025, 11, 30),
   (3, "91282CHY0".toList, 2026, 9, 15),
   (5, "91282CHX2".toList, 2028, 8, 31),
   (7, "91282CJM4".toList, 2030, 11, 30),
   (10, "91282CJJ1".toList, 2033, 11, 15),
   (20, "912810TM0".toList, 2042, 11, 30),
   (30, "912810TL2".toList, 2052, 11, 15)]

/-- The table `bondIdMatMap`: identifier, then maturity in years. -/
def bondIdMatMap : List (List Char × Int) :=
  [("91282CJL6".toList, 2),
   ("91282CHY0".toList, 3),
   ("91282CHX2".toList, 5),
   ("91282CJM4".toList, 7),
   ("91282CJJ1".toList, 10),
   ("912810TM0".toList, 20),
   ("912810TL2".toList, 30)]

/-- The table `bondIdCouponMap`: identifier, then coupon (0.04875, 0.04625, 0.04375, 0.04375,
0.045, 0.04, 0.04). -/
def bondIdCouponMap : List (List Char × ℚ) :=
  [("91282CJL6".toList, 39 / 800),
   ("91282CHY0".toList, 37 / 800),
   ("91282CHX2".toList, 7 / 160),
   ("91282CJM4".toList, 7 / 160),
   ("91282CJJ1".toList, 9 / 200),
   ("912810TM0".toList, 1 / 25),
   ("912810TL2".toList, 1 / 25)]

/-- The function `FetchCusipId`; `std::out_of_range` from `bondMap.at` is `none`. -/
def FetchCusipId (mat : Int) : Option (List Char) := do
  let entry ← bondMap.lookup mat
  pure entry.1

/-- The overload `RetrieveProduct(int mat)`; `std::out_of_range` from `at` is `none`. -/
def RetrieveProductOfMaturity (mat : Int) : Option Bond := do
  let entry ← bondMap.lookup mat
  let id := entry.1
  let ticker := "US".toList ++ to_string mat ++ "Y".toList
  let coupon ← bondIdCouponMap.lookup id
  let entry2 ← bondMap.lookup mat
  pure ⟨id, ticker, coupon, entry2.2⟩

/-- The overload `RetrieveProduct(string _id)`; `std::out_of_range` from `at` is `none`. -/
def RetrieveProduct (_id : List Char) : Option Bond := do
  let _mat ← bondIdMatMap.lookup _id
  RetrieveProductOfMaturity _mat

/-! ## Listener registration and the market data connector -/

/-- The constructor of `PricingService<T>`. -/
def PricingService.ctor {T L : Type} : PricingService T L :=
  { prices := StdMap.empty
    listeners := [] }

/-- The member `PricingService<T>::AddListener`. -/
def PricingService.AddListener {T L : Type} (s : PricingService T L) (_listener : L) :
    PricingService T L :=
  { s with listeners := s.listeners ++ [_listener] }

/-- The member `PricingService<T>::GetListeners`. -/
def PricingService.GetListeners {T L : Type} (s : PricingService T L) : List L :=
  s.listeners

/-- The constructor of `MarketDataService<T>`. -/
def MarketDataService.ctor {T L : Type} : MarketDataService T L :=
  { orderBooks := StdMap.empty
    listeners := []
    bookDepth := 10 }

/-- The member `MarketDataService<T>::AddListener`. -/
def MarketDataService.AddListener {T L : Type} (s : MarketDataService T L) (listener : L) :
    MarketDataService T L :=
  { s with listeners := s.listeners ++ [listener] }

/-- The member `MarketDataService<T>::GetListeners`. -/
def MarketDataService.GetListeners {T L : Type} (s : MarketDataService T L) : List L :=
  s.listeners

/-- The member `MarketDataService<T>::GetOrderBookDepth`. -/
def MarketDataService.GetOrderBookDepth {T L : Type} (s : MarketDataService T L) : Int :=
  s.bookDepth

/-- The first statements of the loop body of `MarketDataConnector<T>::Subscribe`: the product
identifier and the order read from one record.  An index past the end of `tokens` and an
exception of `ConvertStringToPrice` or `stol` are `none`. -/
def MarketDataConnector.readRecord (record : List Char) : Option (List Char × Order) := do
  let tokens := SplitLine record
  let productId ← tokens.get? 0
  let price ← ConvertStringToPrice (← tokens.get? 1)
  let quantity ← stol (← tokens.get? 2)
  let side := if (← tokens.get? 3) = "BID".toList then PricingSide.BID else PricingSide.OFFER
  pure (productId, ⟨price, quantity, side⟩)

/-- The locals of `MarketDataConnector<T>::Subscribe` between two records, with the service it
feeds.  `calls` lists the `ProcessAdd` calls made so far and `snapshots` the order books handed
to `OnMessage` so far, both in order. -/
structure SubscribeState (L : Type) where
  service : MarketDataService Bond L
  bids : List Order
  offers : List Order
  totalOrdersProcessed : Int
  calls : List (L × OrderBook Bond)
  snapshots : List (OrderBook Bond)

/-- One turn of the loop of `MarketDataConnector<T>::Subscribe`.  A remainder by a zero
`processThreshold` is undefined: `none`. -/
def MarketDataConnector.processRecord {L : Type} (processThreshold : Int)
    (st : SubscribeState L) (record : List Char) : Option (SubscribeState L) := do
  let r ← MarketDataConnector.readRecord record
  let productId := r.1
  let newOrder := r.2
  let bids := if newOrder.side = PricingSide.BID then st.bids ++ [newOrder] else st.bids
  let offers := if newOrder.side = PricingSide.BID then st.offers else st.offers ++ [newOrder]
  let totalOrdersProcessed := st.totalOrdersProcessed + 1
  if processThreshold = 0 then none
  else if totalOrdersProcessed.tmod processThreshold = 0 then
    let product ← RetrieveProduct productId
    let currentOrderBook : OrderBook Bond := ⟨product, bids, offers⟩
    let m := st.service.OnMessage currentOrderBook
    pure ⟨m.1, [], [], totalOrdersProcessed, st.calls ++ m.2, st.snapshots ++ [currentOrderBook]⟩
  else
    pure ⟨st.service, bids, offers, totalOrdersProcessed, st.calls, st.snapshots⟩

/-- The member `MarketDataConnector<T>::Subscribe` for `T = Bond`, on the records `getline`
reads from the stream, in order. -/
def MarketDataConnector.Subscribe {L : Type} (service : MarketDataService Bond L)
    (marketDataStream : List (List Char)) : Option (SubscribeState L) :=
  let depthOfBook := service.GetOrderBookDepth
  let processThreshold := depthOfBook * 2
  marketDataStream.foldlM (MarketDataConnector.processRecord processThreshold)
    ⟨service, [], [], 0, [], []⟩

/-- The member `AlgoExecutionToMarketDataListener<T>::ProcessAdd`, acting on the service it
points to; `_orderId` is the identifier `AlgoOrderExecution` draws. -/
def AlgoExecutionToMarketDataListener.ProcessAdd {T L : Type} [Product T]
    (service : AlgoExecutionService T L) (_data : OrderBook T) (_orderId : List Char) :
    Option (AlgoExecutionService T L × List (L × AlgoExecution T)) :=
  service.AlgoOrderExecution _data _orderId

/-- The instrument a record names, as `Subscribe` retrieves it. -/
def recordProduct (record : List Char) : Option Bond :=
  (MarketDataConnector.readRecord record).bind (fun r => RetrieveProduct r.1)

/-- The orders `Subscribe` reads from a run of records, in order. -/
def recordOrders (records : List (List Char)) : List Order :=
  (records.filterMap MarketDataConnector.readRecord).map Prod.snd

/-- The orders of side BID among those of a run of records. -/
def bidsOf (records : List (List Char)) : List Order :=
  (recordOrders records).filter (fun o => decide (o.side = PricingSide.BID))

/-- The orders of side OFFER among those of a run of records. -/
def offersOf (records : List (List Char)) : List Order :=
  (recordOrders records).filter (fun o => decide (o.side = PricingSide.OFFER))

/-- The order book made of a block of records: the instrument of its last record, its BID
orders and its OFFER orders. -/
def snapshotOf (block : List (List Char)) : Option (OrderBook Bond) := do
  let last ← block.getLast?
  let product ← recordProduct last
  pure ⟨product, bidsOf block, offersOf block⟩

/-- The block of records number `j` (from 0) when records are taken 20 at a time. -/
def blockAt (records : List (List Char)) (j : Nat) : List (List Char) :=
  (records.drop (20 * j)).take 20

/-! ## From executions to trades to positions -/

/-- The trade that `TradeBookingToExecutionListener::ProcessAdd` builds from an execution order
when the booking counter stands at `self.tradeBookCount` on entry. -/
def TradeBookingToExecutionListener.tradeOf {T : Type} (self : TradeBookingToExecutionListener)
    (e : ExecutionOrder T) : Trade T :=
  { product := e.product
    tradeId := e.orderId
    price := e.price
    book := marketVector.getD
      (((self.tradeBookCount + 1) % 18446744073709551616) % (marketVector.length : Int)).toNat []
    quantity := e.visibleQuantity + e.GetHiddenQuantity
    side := if e.side = PricingSide.BID then Side.SELL else Side.BUY }

/-- Feeding execution orders to `TradeBookingToExecutionListener::ProcessAdd` one after the
other: the listener and its service afterwards. -/
def TradeBookingToExecutionListener.processAll {T L : Type}
    (self : TradeBookingToExecutionListener) (service : TradeBookingService T L)
    (orders : List (ExecutionOrder T)) :
    TradeBookingToExecutionListener × TradeBookingService T L :=
  orders.foldl (fun st e => ((st.1.ProcessAdd st.2 e).1, (st.1.ProcessAdd st.2 e).2.1))
    (self, service)

/-- The member `PositionToTradeBookingListener<T>::ProcessAdd`, acting on the service it points
to. -/
def PositionToTradeBookingListener.ProcessAdd {T L : Type} [Product T] [Inhabited T]
    (service : PositionService T L) (_data : Trade T) :
    PositionService T L × List (L × Position T) :=
  service.AddTrade _data

/-- The listeners that `main` registers on the `TradeBookingService`: only
`BondPositionService.GetListener()`. -/
inductive TradeListener where
  | position
deriving DecidableEq, Repr

/-- The `ProcessAdd` calls made by a `TradeBookingService`, carried out in call order on the
`PositionService` behind the registered listener: that service afterwards and the `ProcessAdd`
calls it made in turn. -/
def deliverTrades {T L : Type} [Product T] [Inhabited T] (positions : PositionService T L)
    (calls : List (TradeListener × Trade T)) : PositionService T L × List (L × Position T) :=
  calls.foldl
    (fun st c =>
      ((PositionToTradeBookingListener.ProcessAdd st.1 c.2).1,
        st.2 ++ (PositionToTradeBookingListener.ProcessAdd st.1 c.2).2))
    (positions, [])

/-- An execution order of the given side for the bond 91282CJL6: 1,000,000 visible and 2,000,000
hidden at 100. -/
def sampleExecution (side : PricingSide) : ExecutionOrder Bond :=
  { product := sampleBond
    side := side
    orderId := "ORDER1".toList
    orderType := OrderType.MARKET
    price := 100
    visibleQuantity := 1000000
    hiddenQuantity := 2000000
    parentOrderId := "PARENT_ORDER_ID".toList
    isChildOrder := false }

/-- A trade booking service on which, as in `main`, the position listener is registered. -/
def sampleBooking : TradeBookingService Bond TradeListener :=
  (TradeBookingService.ctor : TradeBookingService Bond TradeListener).AddListener
    TradeListener.position

/-- A market data record for the bond 91282CJL6 with side BID. -/
def bidRecord : List Char := "91282CJL6,99-16+,1000000,BID".toList

/-- A market data record for the bond 91282CJL6 with side OFFER. -/
def offerRecord : List Char := "91282CJL6,99-170,1000000,OFFER".toList

/-- Forty-one records, alternately BID and OFFER (the shape `GenerateMarketData` writes). -/
def sampleRecords : List (List Char) :=
  (List.replicate 20 [bidRecord, offerRecord]).flatten ++ [bidRecord]

/-- Twenty records, all of side BID. -/
def oneSidedRecords : List (List Char) :=
  List.replicate 20 bidRecord

/-- Whether `Subscribe` can read a record and retrieve its instrument. -/
def wellFormedRecord (record : List Char) : Bool :=
  (recordProduct record).isSome

/-! ## Text fields of an execution order -/

/-- A number on six digits, with leading zeros. -/
def sixDigits (n : Nat) : List Char :=
  List.replicate (6 - (Nat.toDigits 10 n).length) '0' ++ Nat.toDigits 10 n

/-- The function `std::to_string(double)`, which prints as `%f`: a minus sign for a negative
value, the integer part, a point and six decimals, the value being rounded to a multiple of
10^-6 (a tie goes to the even neighbour). -/
def to_string_double (x : ℚ) : List Char :=
  let scaled : ℚ := |x| * 1000000
  let low : Nat := ⌊scaled⌋.toNat
  let rest : ℚ := scaled - (low : ℚ)
  let m : Nat := if 1 / 2 < rest ∨ (rest = 1 / 2 ∧ low % 2 = 1) then low + 1 else low
  (if x < 0 then ['-'] else []) ++ Nat.toDigits 10 (m / 1000000) ++ '.' :: sixDigits (m % 1000000)

/-- The member `ExecutionOrder<T>::ToStrings`.  In `s.substr(0, s.find(".") + 1)` a text without
a point gives `npos + 1`, which wraps around to `0` in `size_t`. -/
def ExecutionOrder.ToStrings {T : Type} [Product T] (o : ExecutionOrder T) :
    Option (List (List Char)) := do
  let _product := Product.GetProductId o.product
  let _side := if o.side = PricingSide.BID then "BID".toList else "OFFER".toList
  let _orderId := o.orderId
  let _orderType : List Char := []
  let _orderType := if o.orderType = OrderType.FOK then "FOK".toList else _orderType
  let _orderType := if o.orderType = OrderType.IOC then "IOC".toList else _orderType
  let _orderType := if o.orderType = OrderType.MARKET then "MARKET".toList else _orderType
  let _orderType := if o.orderType = OrderType.LIMIT then "LIMIT".toList else _orderType
  let _orderType := if o.orderType = OrderType.STOP then "STOP".toList else _orderType
  let _price := PriceToString o.price
  let _visibleQuantity := to_string o.visibleQuantity
  let _visibleQuantity ← substr _visibleQuantity 0
    (match find _visibleQuantity '.' with | some pos => pos + 1 | none => 0)
  let _hiddenQuantity := to_string_double o.hiddenQuantity
  let _hiddenQuantity ← substr _hiddenQuantity 0
    (match find _hiddenQuantity '.' with | some pos => pos + 1 | none => 0)
  let _parentOrderId := o.parentOrderId
  let _isChildOrder := if o.isChildOrder then "YES".toList else "NO".toList
  pure [_product, _side, _orderId, _orderType, _price, _visibleQuantity, _hiddenQuantity,
    _parentOrderId, _isChildOrder]

/-! ## The pricing connector -/

/-- The body of the loop of `PricingConnector<T>::Subscribe` up to the construction of the
price, for `T = Bond`.  An index past the end of `cells` and an exception of
`ConvertStringToPrice` or `RetrieveProduct` are `none`. -/
def PricingConnector.readLine (line : List Char) : Option (Price Bond) := do
  let cells := SplitLine line
  let _productId ← cells.get? 0
  let bid_price ← ConvertStringToPrice (← cells.get? 1)
  let offer_price ← ConvertStringToPrice (← cells.get? 2)
  let mid_price := (bid_price + offer_price) / 2
  let spread := offer_price - bid_price
  let _product ← RetrieveProduct _productId
  pure ⟨_product, mid_price, spread⟩

/-- One turn of the loop of `PricingConnector<T>::Subscribe`: the service and the `ProcessAdd`
calls made so far, after the line. -/
def PricingConnector.processLine {L : Type} (st : PricingService Bond L × List (L × Price Bond))
    (line : List Char) : Option (PricingService Bond L × List (L × Price Bond)) := do
  let _price ← PricingConnector.readLine line
  pure ((st.1.OnMessage _price).1, st.2 ++ (st.1.OnMessage _price).2)

/-- The member `PricingConnector<T>::Subscribe` for `T = Bond`, on the lines `getline` reads
from the stream: the service afterwards and the `ProcessAdd` calls made, in order. -/
def PricingConnector.Subscribe {L : Type} (service : PricingService Bond L)
    (_data : List (List Char)) : Option (PricingService Bond L × List (L × Price Bond)) :=
  _data.foldlM PricingConnector.processLine (service, [])

/-- The member `AlgoStreamingToPricingListener<T>::ProcessAdd`, acting on the service it points
to. -/
def AlgoStreamingToPricingListener.ProcessAdd {T L : Type} [Product T]
    (service : AlgoStreamingService T L) (_data : Price T) :
    AlgoStreamingService T L × List (L × AlgoStream T) :=
  service.AlgoPublishPrice _data

/-! ## Quotes and rejections of inquiries -/

/-- The member `Inquiry<T>::SetPrice`. -/
def Inquiry.SetPrice {T : Type} (self : Inquiry T) (_price : ℚ) : Inquiry T :=
  { self with price := _price }

/-- The member `InquiryService<T>::SendQuote`: the new service and the `ProcessAdd` calls made.
The inquiry is changed in place in the store. -/
def InquiryService.SendQuote {T L : Type} [Inhabited T] (s : InquiryService T L)
    (inquiryId : List Char) (price : ℚ) : InquiryService T L × List (L × Inquiry T) :=
  let r := s.inquiries.index inquiryId
  let inquiry := r.1.SetPrice price
  ({ s with inquiries := r.2.assign inquiryId inquiry },
    s.listeners.map (fun listener => (listener, inquiry)))

/-- The member `InquiryService<T>::RejectInquiry`. -/
def InquiryService.RejectInquiry {T L : Type} [Inhabited T] (s : InquiryService T L)
    (_inquiryId : List Char) : InquiryService T L :=
  let r := s.inquiries.index _inquiryId
  let _inquiry := r.1.SetState InquiryState.REJECTED
  { s with inquiries := r.2.assign _inquiryId _inquiry }

/-- A call of one of the three members of `InquiryService<T>` that act on inquiries. -/
inductive InquiryCall (T : Type) where
  | onMessage (inquiry : Inquiry T)
  | sendQuote (inquiryId : List Char) (price : ℚ)
  | rejectInquiry (inquiryId : List Char)

/-- Carrying out one call: the service afterwards and the `ProcessAdd` calls made. -/
def InquiryService.perform {T L : Type} [Inhabited T] (s : InquiryService T L) :
    InquiryCall T → InquiryService T L × List (L × Inquiry T)
  | InquiryCall.onMessage inquiry =>
    ((InquiryService.OnMessage s inquiry).service, (InquiryService.OnMessage s inquiry).calls)
  | InquiryCall.sendQuote inquiryId price => s.SendQuote inquiryId price
  | InquiryCall.rejectInquiry inquiryId => (s.RejectInquiry inquiryId, [])

/-- Carrying out a sequence of calls one after the other: the service afterwards and all the
`ProcessAdd` calls made, in order. -/
def InquiryService.performAll {T L : Type} [Inhabited T] (s : InquiryService T L)
    (ops : List (InquiryCall T)) : InquiryService T L × List (L × Inquiry T) :=
  ops.foldl (fun st op => ((st.1.perform op).1, st.2 ++ (st.1.perform op).2)) (s, [])

/-- A freshly constructed `InquiryService` on which the listeners `ls` have been registered in
turn. -/
def InquiryService.fresh {T L : Type} (ls : List L) : InquiryService T L :=
  ls.foldl InquiryService.AddListener InquiryService.ctor

/-! ## The GUI throttle over real time -/

/-- The function `GetTime` of `utilities.hpp` at the instant `realTime`, in milliseconds: the
milliseconds elapsed since the last full second. -/
def GetTime (realTime : Int) : Int :=
  realTime % 1000

/-- A run of `GUIConnector::Publish` calls, each with its price and the instant of the call in
milliseconds: the service afterwards and the instants of the calls that wrote a line, in
order. -/
def GUIConnector.publishAll {T L : Type} [Product T] (s : GUIService T L)
    (events : List (Price T × Int)) : GUIService T L × List Int :=
  events.foldl
    (fun st ev =>
      ((GUIConnector.Publish st.1 ev.1 (GetTime ev.2)).1,
        if (GUIConnector.Publish st.1 ev.1 (GetTime ev.2)).2.isSome then st.2 ++ [ev.2]
        else st.2))
    (s, [])

/-! ## Sample data for the last claims -/

/-- A line of the price feed for the bond 91282CJL6: bid 99-16+, offer 99-170. -/
def sampleLine : List Char := "91282CJL6,99-16+,99-170".toList

/-- A line of the price feed whose offer, 99-000, lies below its bid, 100-000. -/
def crossedLine : List Char := "91282CJL6,100-000,99-000".toList

/-- The sample inquiry under the id INQ2, in state RECEIVED. -/
def otherInquiry : Inquiry Bond :=
  { sampleInquiry InquiryState.RECEIVED with inquiryId := "INQ2".toList }

/-- A few calls none of which is an `OnMessage` with an inquiry INQ1 in state RECEIVED or
QUOTED. -/
def sampleCalls : List (InquiryCall Bond) :=
  [InquiryCall.sendQuote "INQ1".toList 101,
   InquiryCall.onMessage (sampleInquiry InquiryState.DONE),
   InquiryCall.rejectInquiry "INQ2".toList,
   InquiryCall.onMessage otherInquiry,
   InquiryCall.rejectInquiry "INQ1".toList]

/-- An instrument that is not in the reference tables. -/
def unknownBond : Bond :=
  { productId := "XXXXXXXXX".toList
    ticker := "US1Y".toList
    coupon := 1 / 20
    maturityDate := (2024, 11, 30) }

/-- A position of 5 in the unknown instrument, all in TRSY1. -/
def unknownPosition : Position Bond :=
  { product := unknownBond
    positions := [("TRSY1".toList, 5)] }

/-- Nine calls of `Publish` with the sample price, at the given instants in milliseconds. -/
def sampleEvents : List (Price Bond × Int) :=
  [(samplePrice, 100), (samplePrice, 350), (samplePrice, 600), (samplePrice, 900),
   (samplePrice, 1100), (samplePrice, 1250), (samplePrice, 5050), (samplePrice, 5100),
   (samplePrice, 5400)]

/-! # Theorems -/

/-! ### Decimal digits -/

theorem digitChar_isDigit : ∀ d, d < 10 → (Nat.digitChar d).isDigit = true := by decide

theorem digitChar_value : ∀ d, d < 10 → (Nat.digitChar d).toNat - 48 = d := by decide

theorem decimalValue_append_singleton (ds : List Char) (c : Char) :
    decimalValue (ds ++ [c]) = 10 * decimalValue ds + (c.toNat - 48) := by
  simp [decimalValue, List.foldl_append]

/-- Reading back the digits that `Nat.toDigitsCore 10` writes in front of `tail`: the decimal
fold over the result, started at 0, is the fold over `tail` started at the number written. -/
theorem foldl_toDigitsCore (fuel : Nat) : ∀ (n : Nat) (tail : List Char), n < fuel →
    (Nat.toDigitsCore 10 fuel n tail).foldl (fun a c => 10 * a + (c.toNat - 48)) 0 =
      tail.foldl (fun a c => 10 * a + (c.toNat - 48)) n := by
  induction fuel with
  | zero => intro n tail h; omega
  | succ fuel ih =>
    intro n tail h
    have hd := digitChar_value (n % 10) (Nat.mod_lt _ (by decide))
    by_cases h0 : n / 10 = 0
    · have hn : n % 10 = n := by omega
      simp only [Nat.toDigitsCore, h0, if_true, List.foldl_cons, hd, Nat.mul_zero, Nat.zero_add]
      rw [hn]
    · have hn : 10 * (n / 10) + n % 10 = n := by omega
      simp only [Nat.toDigitsCore, h0, if_false]
      rw [ih (n / 10) _ (by omega), List.foldl_cons, hd, hn]

/-- Every character `Nat.toDigitsCore 10` writes is a decimal digit. -/
theorem isDigit_toDigitsCore (fuel : Nat) : ∀ (n : Nat) (tail : List Char),
    (∀ c ∈ tail, c.isDigit = true) → ∀ c ∈ Nat.toDigitsCore 10 fuel n tail, c.isDigit = true := by
  induction fuel with
  | zero => intro n tail h; simpa [Nat.toDigitsCore] using h
  | succ fuel ih =>
    intro n tail h
    have hd := digitChar_isDigit (n % 10) (Nat.mod_lt _ (by decide))
    have htail : ∀ c ∈ Nat.digitChar (n % 10) :: tail, c.isDigit = true := by
      intro c hc
      rcases List.mem_cons.1 hc with hc | hc
      · rw [hc]; exact hd
      · exact h c hc
    by_cases h0 : n / 10 = 0
    · simpa [Nat.toDigitsCore, h0] using htail
    · simp only [Nat.toDigitsCore, h0, if_false]
      exact ih (n / 10) _ htail

/-- With fuel left, `Nat.toDigitsCore` writes at least one character. -/
theorem toDigitsCore_ne_nil (fuel : Nat) : ∀ (n : Nat) (tail : List Char),
    Nat.toDigitsCore 10 (fuel + 1) n tail ≠ [] := by
  induction fuel with
  | zero =>
    intro n tail
    by_cases h0 : n / 10 = 0 <;> simp [Nat.toDigitsCore, h0]
  | succ fuel ih =>
    intro n tail
    by_cases h0 : n / 10 = 0
    · simp [Nat.toDigitsCore, h0]
    · have := ih (n / 10) (Nat.digitChar (n % 10) :: tail)
      rw [Nat.toDigitsCore]
      simpa [h0] using this

theorem toDigits_spec (n : Nat) :
    Nat.toDigits 10 n ≠ [] ∧ (∀ c ∈ Nat.toDigits 10 n, c.isDigit = true) ∧
      decimalValue (Nat.toDigits 10 n) = n := by
  refine ⟨toDigitsCore_ne_nil n n [], isDigit_toDigitsCore (n + 1) n [] (by simp), ?_⟩
  have := foldl_toDigitsCore (n + 1) n [] (by omega)
  simpa [decimalValue, Nat.toDigits] using this

theorem isDigit_bounds (c : Char) (h : c.isDigit = true) : 48 ≤ c.toNat ∧ c.toNat ≤ 57 := by
  simp only [Char.isDigit, Bool.and_eq_true, decide_eq_true_eq] at h
  obtain ⟨h1, h2⟩ := h
  have h1' : (48 : UInt32).toNat ≤ c.val.toNat := h1
  have h2' : c.val.toNat ≤ (57 : UInt32).toNat := h2
  exact ⟨h1', h2'⟩

theorem isDigit_not_space (c : Char) (h : c.isDigit = true) : isspace c = false := by
  have hb := isDigit_bounds c h
  simp only [isspace, Bool.or_eq_false_iff, Bool.and_eq_false_iff, beq_eq_false_iff_ne,
    decide_eq_false_iff_not]
  omega

theorem isDigit_ne_of_toNat (c d : Char) (h : c.isDigit = true) (hd : d.toNat < 48) : c ≠ d := by
  intro hcd
  subst hcd
  have hb := isDigit_bounds c h
  omega

/-- On a non-empty run of digits whose value fits an `int`, `stoi` returns that value. -/
theorem stoi_digits (ds : List Char) (hne : ds ≠ []) (hd : ∀ c ∈ ds, c.isDigit = true)
    (hr : decimalValue ds ≤ 2147483647) : stoi ds = some (decimalValue ds : Int) := by
  obtain ⟨c, t, rfl⟩ := List.exists_cons_of_ne_nil hne
  have hc : c.isDigit = true := hd c (List.mem_cons_self _ _)
  have hsp : isspace c = false := isDigit_not_space c hc
  have hm : c ≠ '-' := isDigit_ne_of_toNat c '-' hc (by decide)
  have hp : c ≠ '+' := isDigit_ne_of_toNat c '+' hc (by decide)
  have htw : (c :: t).takeWhile Char.isDigit = c :: t := List.takeWhile_eq_self_iff.2 hd
  have hr' : (decimalValue (c :: t) : Int) ≤ 2147483647 := by exact_mod_cast hr
  have hr'' : (-2147483648 : Int) ≤ (decimalValue (c :: t) : Int) := by
    have : (0 : Int) ≤ (decimalValue (c :: t) : Int) := Int.natCast_nonneg _
    omega
  simp [stoi, List.dropWhile_cons, hsp, hm, hp, htw, hr', hr'']

theorem find_dash (ds rest : List Char) (hd : ∀ c ∈ ds, c.isDigit = true) :
    find (ds ++ '-' :: rest) '-' = some ds.length := by
  have hnot : '-' ∉ ds := by
    intro hmem
    exact isDigit_ne_of_toNat _ '-' (hd _ hmem) (by decide) rfl
  have hmem : '-' ∈ ds ++ '-' :: rest := by simp
  simp [find, hmem, List.indexOf_append_of_not_mem hnot]

/-- Decoding a text made of a digit run, a dash, two digits and one more character. -/
theorem ConvertStringToPrice_form (ds : List Char) (x y z : Char) (hne : ds ≠ [])
    (hd : ∀ c ∈ ds, c.isDigit = true) (hr : decimalValue ds ≤ 2147483647)
    (hx : x.isDigit = true) (hy : y.isDigit = true) :
    ConvertStringToPrice (ds ++ ['-', x, y, z]) =
      some ((decimalValue ds : ℚ) + (decimalValue [x, y] : ℚ) / 32 +
        (if z = '+' then 1 / 64 else (((z.toNat : Int) - 48 : Int) : ℚ) / 256)) := by
  have hfind : find (ds ++ ['-', x, y, z]) '-' = some ds.length := find_dash ds [x, y, z] hd
  have hxy : decimalValue [x, y] ≤ 2147483647 := by
    have h1 := isDigit_bounds x hx
    have h2 := isDigit_bounds y hy
    simp only [decimalValue, List.foldl_cons, List.foldl_nil]
    omega
  have hs1 : stoi ds = some (decimalValue ds : Int) := stoi_digits ds hne hd hr
  have hs2 : stoi [x, y] = some (decimalValue [x, y] : Int) :=
    stoi_digits [x, y] (by simp) (by simpa using ⟨hx, hy⟩) hxy
  have hlast : (ds ++ ['-', x, y, z]).getLast? = some z := by
    have : ds ++ ['-', x, y, z] = (ds ++ ['-', x, y]) ++ [z] := by simp
    rw [this, List.getLast?_concat]
  simp only [ConvertStringToPrice, hfind, Option.getD_some, substr, hlast]
  simp [hs1, hs2]
  split <;> simp

/-! ### Encoding a price on the 1/256 grid -/

theorem truncToInt_nat_add (m : Nat) (x : ℚ) (h0 : 0 ≤ x) (h1 : x < 1) :
    truncToInt ((m : ℚ) + x) = (m : Int) := by
  have hm : (0 : ℚ) ≤ (m : ℚ) := Nat.cast_nonneg m
  have hnn : (0 : ℚ) ≤ (m : ℚ) + x := add_nonneg hm h0
  rw [truncToInt, if_pos hnn, Int.floor_eq_iff]
  constructor
  · push_cast
    linarith
  · push_cast
    linarith

theorem to_string_natCast (m : Nat) : to_string (m : Int) = Nat.toDigits 10 m := by
  have : ¬ ((m : Int) < 0) := by omega
  simp [to_string, this]

theorem PriceToString_grid (n a e : Nat) (ha : a < 32) (he : e < 8) :
    PriceToString ((n : ℚ) + (a : ℚ) / 32 + (e : ℚ) / 256) = gridText n a e := by
  have ha' : (a : ℚ) ≤ 31 := by exact_mod_cast Nat.lt_succ_iff.1 ha
  have he' : (e : ℚ) ≤ 7 := by exact_mod_cast Nat.lt_succ_iff.1 he
  have ha0 : (0 : ℚ) ≤ (a : ℚ) := Nat.cast_nonneg a
  have he0 : (0 : ℚ) ≤ (e : ℚ) := Nat.cast_nonneg e
  have h1 : truncToInt ((n : ℚ) + (a : ℚ) / 32 + (e : ℚ) / 256) = (n : Int) := by
    have := truncToInt_nat_add n ((a : ℚ) / 32 + (e : ℚ) / 256) (by positivity) (by linarith)
    rw [← this]
    congr 1
    ring
  have h2 : truncToInt (((n : ℚ) + (a : ℚ) / 32 + (e : ℚ) / 256 - ((n : Int) : ℚ)) * 32) =
      (a : Int) := by
    have := truncToInt_nat_add a ((e : ℚ) / 8) (by positivity) (by linarith)
    rw [← this]
    congr 1
    push_cast
    ring
  have h3 : truncToInt ((((n : ℚ) + (a : ℚ) / 32 + (e : ℚ) / 256 - ((n : Int) : ℚ)) * 32 -
      ((a : Int) : ℚ)) * 8) = (e : Int) := by
    have := truncToInt_nat_add e 0 le_rfl (by norm_num)
    rw [← this]
    congr 1
    push_cast
    ring
  simp only [PriceToString, h1, h2, h3, to_string_natCast, gridText]
  have e1 : ((a : Int) < 10) ↔ a < 10 := by omega
  have e2 : ((e : Int) = 4) ↔ e = 4 := by omega
  simp only [e1, e2]
  split <;> split <;> simp

theorem twoDigits_text : ∀ a, a < 32 →
    (if a < 10 then ['0'] else []) ++ Nat.toDigits 10 a =
      [Nat.digitChar (a / 10), Nat.digitChar (a % 10)] := by decide

theorem twoDigits_value : ∀ a, a < 32 →
    decimalValue [Nat.digitChar (a / 10), Nat.digitChar (a % 10)] = a := by decide

theorem oneDigit_text : ∀ e, e < 10 → Nat.toDigits 10 e = [Nat.digitChar e] := by decide

theorem digitChar_ne_plus : ∀ e, e < 10 → Nat.digitChar e ≠ '+' := by decide

theorem digitChar_int_value (e : Nat) (he : e < 10) :
    ((Nat.digitChar e).toNat : Int) - 48 = (e : Int) := by
  have h1 := digitChar_value e he
  have h2 := isDigit_bounds _ (digitChar_isDigit e he)
  omega

theorem gridText_eq (n a e : Nat) (ha : a < 32) (he : e < 8) :
    gridText n a e = priceText n a (if e = 4 then '+' else Nat.digitChar e) := by
  have h1 := twoDigits_text a ha
  have h2 := oneDigit_text e (by omega)
  unfold gridText priceText
  rw [h1, h2]
  split <;> simp

/-- Decoding a well-formed price text whose integer part fits an `int`. -/
theorem ConvertStringToPrice_priceText (n a : Nat) (z : Char) (hn : n ≤ 2147483647)
    (ha : a < 32) :
    ConvertStringToPrice (priceText n a z) =
      some ((n : ℚ) + (a : ℚ) / 32 +
        (if z = '+' then 1 / 64 else (((z.toNat : Int) - 48 : Int) : ℚ) / 256)) := by
  obtain ⟨h1, h2, h3⟩ := toDigits_spec n
  have hx : (Nat.digitChar (a / 10)).isDigit = true := digitChar_isDigit _ (by omega)
  have hy : (Nat.digitChar (a % 10)).isDigit = true := digitChar_isDigit _ (by omega)
  have := ConvertStringToPrice_form (Nat.toDigits 10 n) _ _ z h1 h2 (by omega) hx hy
  rw [h3, twoDigits_value a ha] at this
  exact this

theorem ConvertStringToPrice_gridText (n a e : Nat) (hn : n ≤ 2147483647) (ha : a < 32)
    (he : e < 8) :
    ConvertStringToPrice (gridText n a e) = some ((n : ℚ) + (a : ℚ) / 32 + (e : ℚ) / 256) := by
  rw [gridText_eq n a e ha he, ConvertStringToPrice_priceText n a _ hn ha]
  by_cases h4 : e = 4
  · subst h4
    norm_num
  · have hne := digitChar_ne_plus e (by omega)
    have hv := digitChar_int_value e (by omega)
    simp only [h4, if_false, hne, hv]
    push_cast
    rfl

/-- Every non-negative multiple of 1/256 is `n + a/32 + e/256` with `a < 32` and `e < 8`. -/
theorem grid_decompose (k : Nat) :
    ((k : ℚ) / 256 = ((k / 256 : Nat) : ℚ) + ((k % 256 / 8 : Nat) : ℚ) / 32 +
      ((k % 8 : Nat) : ℚ) / 256) := by
  have h : k = 256 * (k / 256) + 8 * (k % 256 / 8) + k % 8 := by omega
  generalize k / 256 = n at h ⊢
  generalize k % 256 / 8 = a at h ⊢
  generalize k % 8 = e at h ⊢
  subst h
  push_cast
  ring

/-- The value of a run of digits given by their numeric values. -/
theorem decimalValue_map_digitChar (is : List Nat) (h : ∀ i ∈ is, i < 10) :
    decimalValue (is.map Nat.digitChar) = Nat.ofDigits 10 is.reverse := by
  induction is using List.reverseRecOn with
  | nil => simp [decimalValue]
  | append_singleton l i ih =>
    have hl : ∀ j ∈ l, j < 10 := fun j hj => h j (List.mem_append_left _ hj)
    have hi : i < 10 := h i (by simp)
    rw [List.map_append, List.map_singleton, decimalValue_append_singleton, ih hl,
      digitChar_value i hi, List.reverse_append, List.reverse_singleton, List.singleton_append,
      Nat.ofDigits_cons]
    omega

/-! ### The price notation: claims -/

/-- C1. Round trip on the grid: for every non-negative price `p` that is an integer multiple of
1/256 and whose integer part fits an `int`, decoding the encoded text gives back `p` exactly. -/
theorem ConvertStringToPrice_PriceToString (p : ℚ) (h0 : 0 ≤ p) (hgrid : ∃ k : Int, p = (k : ℚ) / 256)
    (hrange : truncToInt p ≤ 2147483647) :
    ConvertStringToPrice (PriceToString p) = some p := by
  obtain ⟨k, rfl⟩ := hgrid
  have hk : 0 ≤ k := by
    by_contra hneg
    have : (k : ℚ) < 0 := by exact_mod_cast not_le.1 hneg
    have : (k : ℚ) / 256 < 0 := div_neg_of_neg_of_pos this (by norm_num)
    linarith
  obtain ⟨K, rfl⟩ := Int.eq_ofNat_of_zero_le hk
  have hdec := grid_decompose K
  have ha : K % 256 / 8 < 32 := by omega
  have he : K % 8 < 8 := by omega
  simp only [Int.cast_natCast] at hrange ⊢
  rw [hdec] at hrange ⊢
  have htr : truncToInt (((K / 256 : Nat) : ℚ) + ((K % 256 / 8 : Nat) : ℚ) / 32 +
      ((K % 8 : Nat) : ℚ) / 256) = ((K / 256 : Nat) : Int) := by
    have hx0 : (0 : ℚ) ≤ ((K % 256 / 8 : Nat) : ℚ) / 32 + ((K % 8 : Nat) : ℚ) / 256 := by
      positivity
    have ha' : ((K % 256 / 8 : Nat) : ℚ) ≤ 31 := by exact_mod_cast Nat.lt_succ_iff.1 ha
    have he' : ((K % 8 : Nat) : ℚ) ≤ 7 := by exact_mod_cast Nat.lt_succ_iff.1 he
    have := truncToInt_nat_add (K / 256) _ hx0 (by linarith)
    rw [← this]
    congr 1
    ring
  rw [htr] at hrange
  have hn : K / 256 ≤ 2147483647 := by exact_mod_cast hrange
  rw [PriceToString_grid _ _ _ ha he, ConvertStringToPrice_gridText _ _ _ hn ha he]

/-- Witness for C1 at the price 100 + 1/64. -/
theorem ConvertStringToPrice_PriceToString_witness :
    (0 : ℚ) ≤ 6401 / 64 ∧ truncToInt (6401 / 64) ≤ 2147483647 ∧
      ConvertStringToPrice (PriceToString (6401 / 64)) = some (6401 / 64) :=
  ⟨by norm_num, by unfold truncToInt; norm_num,
    ConvertStringToPrice_PriceToString (6401 / 64) (by norm_num) ⟨25604, by norm_num⟩
      (by unfold truncToInt; norm_num)⟩

/-- C2, counterexample. The text `2147483648-000` has the form `I-XYz`, but its integer part
does not fit an `int`: `std::stoi` throws and no price is returned. -/
theorem ConvertStringToPrice_int_overflow :
    ConvertStringToPrice "2147483648-000".toList = none := by decide

/-- C2, amended. For a text `I-XYz` whose integer part `I` (any non-empty run of decimal digits)
is at most 2147483647, with `X`, `Y` decimal digits: the decoded price is `I + XY/32 + 1/64` when
`z` is `+`, and `I + XY/32 + z/256` when `z` is a decimal digit. -/
theorem ConvertStringToPrice_value (is : List Nat) (x y : Nat) (hne : is ≠ [])
    (his : ∀ i ∈ is, i < 10) (hr : Nat.ofDigits 10 is.reverse ≤ 2147483647)
    (hx : x < 10) (hy : y < 10) :
    ConvertStringToPrice (is.map Nat.digitChar ++ ['-', Nat.digitChar x, Nat.digitChar y, '+']) =
        some (((Nat.ofDigits 10 is.reverse : Nat) : ℚ) + ((10 * x + y : Nat) : ℚ) / 32 + 1 / 64) ∧
      ∀ z, z < 10 →
        ConvertStringToPrice
            (is.map Nat.digitChar ++ ['-', Nat.digitChar x, Nat.digitChar y, Nat.digitChar z]) =
          some (((Nat.ofDigits 10 is.reverse : Nat) : ℚ) + ((10 * x + y : Nat) : ℚ) / 32 + (z : ℚ) / 256) := by
  have hval := decimalValue_map_digitChar is his
  have hne' : is.map Nat.digitChar ≠ [] := by simpa using hne
  have hdig : ∀ c ∈ is.map Nat.digitChar, c.isDigit = true := by
    intro c hc
    obtain ⟨i, hi, rfl⟩ := List.mem_map.1 hc
    exact digitChar_isDigit i (his i hi)
  have hxy : decimalValue [Nat.digitChar x, Nat.digitChar y] = 10 * x + y := by
    simp only [decimalValue, List.foldl_cons, List.foldl_nil, digitChar_value x hx,
      digitChar_value y hy]
    omega
  have hform := fun z => ConvertStringToPrice_form (is.map Nat.digitChar) (Nat.digitChar x)
    (Nat.digitChar y) z hne' hdig (by omega) (digitChar_isDigit x hx) (digitChar_isDigit y hy)
  simp only [hval, hxy] at hform
  refine ⟨?_, ?_⟩
  · rw [hform '+']
    simp
  · intro z hz
    rw [hform (Nat.digitChar z)]
    simp only [digitChar_ne_plus z hz, if_false, digitChar_int_value z hz]
    push_cast
    rfl

/-- Witness for C2 at the texts `100-25+` and `100-25z`. -/
theorem ConvertStringToPrice_value_witness :
    ConvertStringToPrice ([1, 0, 0].map Nat.digitChar ++
          ['-', Nat.digitChar 2, Nat.digitChar 5, '+']) =
        some (((Nat.ofDigits 10 [1, 0, 0].reverse : Nat) : ℚ) + ((10 * 2 + 5 : Nat) : ℚ) / 32 + 1 / 64) ∧
      ∀ z, z < 10 →
        ConvertStringToPrice ([1, 0, 0].map Nat.digitChar ++
            ['-', Nat.digitChar 2, Nat.digitChar 5, Nat.digitChar z]) =
          some (((Nat.ofDigits 10 [1, 0, 0].reverse : Nat) : ℚ) + ((10 * 2 + 5 : Nat) : ℚ) / 32 +
            (z : ℚ) / 256) :=
  ConvertStringToPrice_value [1, 0, 0] 2 5 (by decide) (by decide) (by decide) (by decide)
    (by decide)

/-- C3, counterexample. The well-formed text `100-004` decodes to 100 + 1/64 and is re-encoded as
`100-00+`, not as itself; and the well-formed text `2147483648-000` is not decoded at all. -/
theorem reencoding_not_identity :
    (ConvertStringToPrice "100-004".toList).map PriceToString = some "100-00+".toList ∧
      "100-00+".toList ≠ "100-004".toList ∧
      (ConvertStringToPrice "2147483648-000".toList).map PriceToString = none := by
  refine ⟨?_, by decide, ?_⟩
  · have h1 : "100-004".toList = priceText 100 0 '4' := by decide
    have h2 : "100-00+".toList = gridText 100 0 4 := by decide
    rw [h1, h2, ConvertStringToPrice_priceText 100 0 '4' (by decide) (by decide),
      ← PriceToString_grid 100 0 4 (by decide) (by decide)]
    simp only [Option.map_some']
    congr 2
  · have : ConvertStringToPrice "2147483648-000".toList = none := by decide
    rw [this]
    rfl

/-- C3, amended. For every well-formed price text whose integer part is at most 2147483647
(written without leading zeros), whose 32nds field is 00 to 31 and whose final character is `+`
or an eighths digit 0 to 7 other than 4, encoding the decoded price gives back the text. -/
theorem PriceToString_ConvertStringToPrice (n a e : Nat) (hn : n ≤ 2147483647) (ha : a < 32)
    (he : e < 8) (h4 : e ≠ 4) :
    (ConvertStringToPrice (priceText n a '+')).map PriceToString = some (priceText n a '+') ∧
      (ConvertStringToPrice (priceText n a (Nat.digitChar e))).map PriceToString =
        some (priceText n a (Nat.digitChar e)) := by
  constructor
  · rw [ConvertStringToPrice_priceText n a '+' hn ha]
    have hg := PriceToString_grid n a 4 ha (by decide)
    rw [gridText_eq n a 4 ha (by decide)] at hg
    simp only [if_true, Option.map_some'] at hg ⊢
    rw [← hg]
    congr 2
    norm_num
  · rw [ConvertStringToPrice_priceText n a _ hn ha]
    have hg := PriceToString_grid n a e ha he
    rw [gridText_eq n a e ha he] at hg
    simp only [h4, if_false, digitChar_ne_plus e (by omega), digitChar_int_value e (by omega),
      Option.map_some'] at hg ⊢
    rw [← hg]
    congr 2

/-- Witness for C3 at the texts `99-31+` and `99-317`. -/
theorem PriceToString_ConvertStringToPrice_witness :
    (ConvertStringToPrice (priceText 99 31 '+')).map PriceToString = some (priceText 99 31 '+') ∧
      (ConvertStringToPrice (priceText 99 31 (Nat.digitChar 7))).map PriceToString =
        some (priceText 99 31 (Nat.digitChar 7)) :=
  PriceToString_ConvertStringToPrice 99 31 7 (by decide) (by decide) (by decide) (by decide)

/-! ### Best bid and offer -/

/-- One scan of `GetBidOffer` for an arbitrary strict comparison `better`: if the running choice is
the first best order of the part already scanned, it is so after scanning more. -/
theorem scan_first_best (better : ℚ → ℚ → Prop) [DecidableRel better]
    (hirr : ∀ a, ¬ better a a) (htr : ∀ a b c, better a b → better b c → better a c) :
    ∀ (l pre : List Order) (st : Order × ℚ),
      st.2 = st.1.price → (∀ b ∈ pre, ¬ better b.price st.1.price) →
      pre.find? (fun b => decide (b.price = st.1.price)) = some st.1 →
      let fin := l.foldl (fun st b => if better b.price st.2 then (b, b.price) else st) st
      fin.2 = fin.1.price ∧ (∀ b ∈ pre ++ l, ¬ better b.price fin.1.price) ∧
        (pre ++ l).find? (fun b => decide (b.price = fin.1.price)) = some fin.1 := by
  intro l
  induction l with
  | nil =>
    intro pre st h1 h2 h3
    simpa using ⟨h1, h2, h3⟩
  | cons b l ih =>
    intro pre st h1 h2 h3
    simp only [List.foldl_cons]
    have key : ∀ st1 : Order × ℚ, st1 = (if better b.price st.2 then (b, b.price) else st) →
        st1.2 = st1.1.price ∧ (∀ c ∈ pre ++ [b], ¬ better c.price st1.1.price) ∧
        (pre ++ [b]).find? (fun c => decide (c.price = st1.1.price)) = some st1.1 := by
      intro st1 hst1
      by_cases hb : better b.price st.2
      · rw [if_pos hb] at hst1
        subst hst1
        rw [h1] at hb
        refine ⟨rfl, ?_, ?_⟩
        · intro c hc
          rcases List.mem_append.1 hc with hc | hc
          · intro hcb
            exact h2 c hc (htr _ _ _ hcb hb)
          · simp only [List.mem_singleton] at hc
            subst hc
            exact hirr _
        · have hnone : pre.find? (fun c => decide (c.price = b.price)) = none := by
            rw [List.find?_eq_none]
            intro c hc hcb
            simp only [decide_eq_true_eq] at hcb
            apply h2 c hc
            rw [hcb]
            exact hb
          simp [List.find?_append, hnone]
      · rw [if_neg hb] at hst1
        subst hst1
        rw [h1] at hb
        refine ⟨h1, ?_, ?_⟩
        · intro c hc
          rcases List.mem_append.1 hc with hc | hc
          · exact h2 c hc
          · simp only [List.mem_singleton] at hc
            subst hc
            exact hb
        · simp [List.find?_append, h3]
    obtain ⟨k1, k2, k3⟩ := key _ rfl
    have := ih (pre ++ [b]) _ k1 k2 k3
    simpa using this

theorem scanBids_spec (h : Order) (t : List Order) :
    let r := (scanBids (h :: t) (h, h.price)).1
    (∀ b ∈ h :: t, b.price ≤ r.price) ∧
      (h :: t).find? (fun b => decide (b.price = r.price)) = some r := by
  have hstep : scanBids (h :: t) (h, h.price) = scanBids t (h, h.price) := by
    simp [scanBids]
  have := scan_first_best (fun a b => a > b) (fun a => lt_irrefl a)
    (fun a b c hab hbc => lt_trans hbc hab) t [h] (h, h.price) rfl (by simp) (by simp)
  simp only [List.singleton_append] at this
  intro r
  have hr : r = (scanBids t (h, h.price)).1 := by rw [← hstep]
  rw [hr]
  unfold scanBids
  exact ⟨fun b hb => not_lt.1 (this.2.1 b hb), this.2.2⟩

theorem scanOffers_spec (h : Order) (t : List Order) :
    let r := (scanOffers (h :: t) (h, h.price)).1
    (∀ o ∈ h :: t, r.price ≤ o.price) ∧
      (h :: t).find? (fun o => decide (o.price = r.price)) = some r := by
  have hstep : scanOffers (h :: t) (h, h.price) = scanOffers t (h, h.price) := by
    simp [scanOffers]
  have := scan_first_best (fun a b => a < b) (fun a => lt_irrefl a)
    (fun a b c hab hbc => lt_trans hab hbc) t [h] (h, h.price) rfl (by simp) (by simp)
  simp only [List.singleton_append] at this
  intro r
  have hr : r = (scanOffers t (h, h.price)).1 := by rw [← hstep]
  rw [hr]
  unfold scanOffers
  exact ⟨fun b hb => not_lt.1 (this.2.1 b hb), this.2.2⟩

/-- What `GetBidOffer` returns on a book with non-empty stacks. -/
theorem GetBidOffer_eq {T : Type} (book : OrderBook T) (b : Order) (bs : List Order) (o : Order)
    (os : List Order) (hb : book.bidStack = b :: bs) (ho : book.offerStack = o :: os) :
    book.GetBidOffer =
      some ⟨(scanBids (b :: bs) (b, b.price)).1, (scanOffers (o :: os) (o, o.price)).1⟩ := by
  simp [OrderBook.GetBidOffer, hb, ho]

/-- C4. On a book whose bid and offer stacks are both non-empty, `GetBidOffer` returns as bid the
first order of the bid stack whose price is the maximum over the bid stack, and as offer the first
order of the offer stack whose price is the minimum over the offer stack. -/
theorem GetBidOffer_best {T : Type} (book : OrderBook T) (hb : book.bidStack ≠ [])
    (ho : book.offerStack ≠ []) :
    ∃ r : BidOffer, book.GetBidOffer = some r ∧
      (∀ b ∈ book.bidStack, b.price ≤ r.bidOrder.price) ∧
      book.bidStack.find? (fun b => decide (b.price = r.bidOrder.price)) = some r.bidOrder ∧
      (∀ o ∈ book.offerStack, r.offerOrder.price ≤ o.price) ∧
      book.offerStack.find? (fun o => decide (o.price = r.offerOrder.price)) =
        some r.offerOrder := by
  obtain ⟨b, bs, hbs⟩ := List.exists_cons_of_ne_nil hb
  obtain ⟨o, os, hos⟩ := List.exists_cons_of_ne_nil ho
  refine ⟨_, GetBidOffer_eq book b bs o os hbs hos, ?_⟩
  have h1 := scanBids_spec b bs
  have h2 := scanOffers_spec o os
  rw [hbs, hos]
  exact ⟨h1.1, h1.2, h2.1, h2.2⟩

/-- Witness for C4 at the specification's example book. -/
theorem GetBidOffer_best_witness :
    ∃ r : BidOffer, sampleBook.GetBidOffer = some r ∧
      (∀ b ∈ sampleBook.bidStack, b.price ≤ r.bidOrder.price) ∧
      sampleBook.bidStack.find? (fun b => decide (b.price = r.bidOrder.price)) =
        some r.bidOrder ∧
      (∀ o ∈ sampleBook.offerStack, r.offerOrder.price ≤ o.price) ∧
      sampleBook.offerStack.find? (fun o => decide (o.price = r.offerOrder.price)) =
        some r.offerOrder :=
  GetBidOffer_best sampleBook (by simp [sampleBook]) (by simp [sampleBook])

/-- The example of the specification: best bid 100.5 (quantity 3), best offer 100.75
(quantity 4). -/
theorem GetBidOffer_sampleBook :
    sampleBook.GetBidOffer =
      some ⟨⟨201 / 2, 3, PricingSide.BID⟩, ⟨403 / 4, 4, PricingSide.OFFER⟩⟩ := by
  rw [GetBidOffer_eq sampleBook _ _ _ _ rfl rfl]
  norm_num [scanBids, scanOffers]

/-! ### Depth aggregation -/

/-- The example of the specification: two bids at 100.0 with quantities 5 and 3 give the single
row (100.0, 8). -/
theorem AggregateDepth_sampleService :
    (sampleService.AggregateDepth id "91282CJL6".toList).2.bidStack =
      [⟨100, 8, PricingSide.BID⟩] := by
  simp [MarketDataService.AggregateDepth, sampleService, twoBidsBook, StdMap.index,
    StdMap.assign, aggregate, addQuantity]

/-! ### Numeric conversions -/

theorem truncToInt_intCast (k : Int) : truncToInt (k : ℚ) = k := by
  unfold truncToInt
  split
  · exact Int.floor_intCast k
  · exact Int.ceil_intCast k

theorem range_twelve : List.range 12 = [0, 1, 2, 3, 4, 5, 6, 7, 8, 9, 10, 11] := by decide

/-- A `long` of magnitude at most 2^53 = 9007199254740992 is converted to `double` exactly. -/
theorem roundLong53_of_le (n : Int) (h : n.natAbs ≤ 9007199254740992) : roundLong53 n = n := by
  rcases Nat.lt_or_ge n.natAbs 9007199254740992 with hlt | hge
  · have hfind : (List.range 12).find? (fun sh => decide (n.natAbs < 2 ^ (53 + sh))) = some 0 := by
      rw [range_twelve, List.find?_cons]
      have : decide (n.natAbs < 2 ^ (53 + 0)) = true := by
        simp only [decide_eq_true_eq]
        exact hlt
      rw [this]
    simp only [roundLong53, hfind, pow_zero, Nat.mod_one, Nat.div_one, Nat.mul_one]
    have hno : ¬ (2 ^ (0 - 1) < 0 ∨ (0 = 2 ^ (0 - 1) ∧ n.natAbs % 2 = 1)) := by
      simp
    rw [if_neg hno]
    exact Int.sign_mul_natAbs n
  · have heq : n.natAbs = 9007199254740992 := le_antisymm h hge
    rcases Int.natAbs_eq n with hn | hn
    · rw [heq] at hn
      rw [hn]
      decide
    · rw [heq] at hn
      rw [hn]
      decide

theorem longToDouble_roundtrip (n : Int) (h : n.natAbs ≤ 9007199254740992) :
    truncToInt (longToDouble n) = n := by
  rw [longToDouble, roundLong53_of_le n h, truncToInt_intCast]

theorem longToDouble_zero : longToDouble 0 = 0 := by
  have : roundLong53 0 = 0 := by decide
  simp [longToDouble, this]

/-! ### Algorithmic execution -/

theorem AlgoOrderExecution_pass {T L : Type} [Product T] (s : AlgoExecutionService T L)
    (book : OrderBook T) (orderId : List Char) (r : BidOffer) (hr : book.GetBidOffer = some r)
    (hq : r.offerOrder.price - r.bidOrder.price ≤ s.SPREAD_LIMIT) :
    s.AlgoOrderExecution book orderId =
      some ({ s with executionCount := s.executionCount + 1
                     algoExecutions := s.algoExecutions.assign (Product.GetProductId book.product)
                       (builtExecution s.executionCount book.product r orderId) },
        s.listeners.map (fun l => (l, builtExecution s.executionCount book.product r orderId))) := by
  simp only [AlgoExecutionService.AlgoOrderExecution, hr, Option.bind_eq_bind, Option.some_bind,
    if_pos hq, Option.pure_def, builtExecution]

theorem AlgoOrderExecution_skip {T L : Type} [Product T] (s : AlgoExecutionService T L)
    (book : OrderBook T) (orderId : List Char) (r : BidOffer) (hr : book.GetBidOffer = some r)
    (hq : ¬ r.offerOrder.price - r.bidOrder.price ≤ s.SPREAD_LIMIT) :
    s.AlgoOrderExecution book orderId = some (s, []) := by
  simp only [AlgoExecutionService.AlgoOrderExecution, hr, Option.bind_eq_bind, Option.some_bind,
    if_neg hq, Option.pure_def]

theorem GetBidOffer_isSome {T : Type} (book : OrderBook T) (hb : book.bidStack ≠ [])
    (ho : book.offerStack ≠ []) : ∃ r, book.GetBidOffer = some r := by
  obtain ⟨b, bs, hbs⟩ := List.exists_cons_of_ne_nil hb
  obtain ⟨o, os, hos⟩ := List.exists_cons_of_ne_nil ho
  exact ⟨_, GetBidOffer_eq book b bs o os hbs hos⟩

/-- The spread limit is the constructor's 1/128 and no member function changes it. -/
theorem SPREAD_LIMIT_kept {T L : Type} [Product T] (s : AlgoExecutionService T L) :
    (AlgoExecutionService.ctor : AlgoExecutionService T L).SPREAD_LIMIT = 1 / 128 ∧
      (∀ l, (s.AddListener l).SPREAD_LIMIT = s.SPREAD_LIMIT) ∧
      (∀ key, (s.GetData key).2.SPREAD_LIMIT = s.SPREAD_LIMIT) ∧
      (∀ data s1, s.OnMessage data = some s1 → s1.SPREAD_LIMIT = s.SPREAD_LIMIT) ∧
      (∀ book orderId r, s.AlgoOrderExecution book orderId = some r →
        r.1.SPREAD_LIMIT = s.SPREAD_LIMIT) := by
  refine ⟨rfl, fun _ => rfl, fun _ => rfl, ?_, ?_⟩
  · intro data s1 h
    cases hd : data.executionOrder with
    | none => simp [AlgoExecutionService.OnMessage, hd] at h
    | some o =>
      simp only [AlgoExecutionService.OnMessage, hd, Option.bind_eq_bind, Option.some_bind,
        Option.pure_def, Option.some.injEq] at h
      rw [← h]
  · intro book orderId r h
    cases hb : book.GetBidOffer with
    | none => simp [AlgoExecutionService.AlgoOrderExecution, hb] at h
    | some bo =>
      by_cases hq : bo.offerOrder.price - bo.bidOrder.price ≤ s.SPREAD_LIMIT
      · rw [AlgoOrderExecution_pass s book orderId bo hb hq] at h
        rw [← Option.some.inj h]
      · rw [AlgoOrderExecution_skip s book orderId bo hb hq] at h
        rw [← Option.some.inj h]

/-- C6. On a snapshot with non-empty stacks, a service whose spread limit is the constructor's
1/128 stores an execution under the product id, notifies every listener with it and advances the
counter when best offer minus best bid is at most 1/128; otherwise the service (counter, stored
decisions, listener list) is unchanged and no listener is notified.  So an execution is emitted
iff the spread is at most 1/128. -/
theorem AlgoOrderExecution_gate {T L : Type} [Product T] (s : AlgoExecutionService T L)
    (hlimit : s.SPREAD_LIMIT = 1 / 128) (book : OrderBook T) (orderId : List Char)
    (hb : book.bidStack ≠ []) (ho : book.offerStack ≠ []) :
    ∃ (r : BidOffer) (s1 : AlgoExecutionService T L) (calls : List (L × AlgoExecution T)),
      book.GetBidOffer = some r ∧ s.AlgoOrderExecution book orderId = some (s1, calls) ∧
      (r.offerOrder.price - r.bidOrder.price ≤ 1 / 128 →
        ∃ e : AlgoExecution T, e.executionOrder ≠ none ∧
          s1.algoExecutions (Product.GetProductId book.product) = some e ∧
          calls = s.listeners.map (fun l => (l, e)) ∧
          s1.executionCount = s.executionCount + 1 ∧ s1.listeners = s.listeners) ∧
      (¬ r.offerOrder.price - r.bidOrder.price ≤ 1 / 128 → s1 = s ∧ calls = []) ∧
      (s1.executionCount = s.executionCount + 1 ↔
        r.offerOrder.price - r.bidOrder.price ≤ 1 / 128) := by
  obtain ⟨r, hr⟩ := GetBidOffer_isSome book hb ho
  by_cases hq : r.offerOrder.price - r.bidOrder.price ≤ 1 / 128
  · have hq' : r.offerOrder.price - r.bidOrder.price ≤ s.SPREAD_LIMIT := by rw [hlimit]; exact hq
    refine ⟨r, _, _, hr, AlgoOrderExecution_pass s book orderId r hr hq', ?_, ?_, ?_⟩
    · intro _
      refine ⟨builtExecution s.executionCount book.product r orderId, ?_, ?_, rfl, rfl, rfl⟩
      · simp [builtExecution, AlgoExecution.ctor]
      · simp [StdMap.assign]
    · intro h
      exact absurd hq h
    · exact ⟨fun _ => hq, fun _ => rfl⟩
  · have hq' : ¬ r.offerOrder.price - r.bidOrder.price ≤ s.SPREAD_LIMIT := by rw [hlimit]; exact hq
    refine ⟨r, s, [], hr, AlgoOrderExecution_skip s book orderId r hr hq', ?_, ?_, ?_⟩
    · intro h
      exact absurd h hq
    · intro _
      exact ⟨rfl, rfl⟩
    · constructor
      · intro h
        omega
      · intro h
        exact absurd h hq

/-- Witness for C6 at a fresh service and a snapshot with spread 1/128. -/
theorem AlgoOrderExecution_gate_witness :
    ∃ (r : BidOffer) (s1 : AlgoExecutionService Bond Nat) (calls : List (Nat × AlgoExecution Bond)),
      tightBook.GetBidOffer = some r ∧
      (AlgoExecutionService.ctor.AddListener 7).AlgoOrderExecution tightBook "ORDER1".toList =
        some (s1, calls) ∧
      (r.offerOrder.price - r.bidOrder.price ≤ 1 / 128 →
        ∃ e : AlgoExecution Bond, e.executionOrder ≠ none ∧
          s1.algoExecutions (Product.GetProductId tightBook.product) = some e ∧
          calls = (AlgoExecutionService.ctor.AddListener 7 :
            AlgoExecutionService Bond Nat).listeners.map (fun l => (l, e)) ∧
          s1.executionCount =
            (AlgoExecutionService.ctor.AddListener 7 :
              AlgoExecutionService Bond Nat).executionCount + 1 ∧
          s1.listeners =
            (AlgoExecutionService.ctor.AddListener 7 : AlgoExecutionService Bond Nat).listeners) ∧
      (¬ r.offerOrder.price - r.bidOrder.price ≤ 1 / 128 →
        s1 = AlgoExecutionService.ctor.AddListener 7 ∧ calls = []) ∧
      (s1.executionCount =
          (AlgoExecutionService.ctor.AddListener 7 :
            AlgoExecutionService Bond Nat).executionCount + 1 ↔
        r.offerOrder.price - r.bidOrder.price ≤ 1 / 128) :=
  AlgoOrderExecution_gate (AlgoExecutionService.ctor.AddListener 7) rfl tightBook
    "ORDER1".toList (by simp [tightBook]) (by simp [tightBook])

theorem algoExecution_foldl_AddListener {T L : Type} (ls : List L) :
    ∀ s : AlgoExecutionService T L,
      (ls.foldl AlgoExecutionService.AddListener s).listeners = s.listeners ++ ls ∧
      (ls.foldl AlgoExecutionService.AddListener s).SPREAD_LIMIT = s.SPREAD_LIMIT ∧
      (ls.foldl AlgoExecutionService.AddListener s).executionCount = s.executionCount ∧
      (ls.foldl AlgoExecutionService.AddListener s).algoExecutions = s.algoExecutions := by
  induction ls with
  | nil => intro s; simp
  | cons l ls ih =>
    intro s
    obtain ⟨h1, h2, h3, h4⟩ := ih (s.AddListener l)
    simp only [List.foldl_cons]
    refine ⟨?_, ?_, ?_, ?_⟩
    · rw [h1]; simp [AlgoExecutionService.AddListener]
    · rw [h2]; rfl
    · rw [h3]; rfl
    · rw [h4]; rfl

theorem algoExecution_fresh_fields {T L : Type} (ls : List L) :
    (AlgoExecutionService.fresh ls : AlgoExecutionService T L).listeners = ls ∧
      (AlgoExecutionService.fresh ls : AlgoExecutionService T L).SPREAD_LIMIT = 1 / 128 ∧
      (AlgoExecutionService.fresh ls : AlgoExecutionService T L).executionCount = 0 := by
  obtain ⟨h1, h2, h3, _⟩ :=
    algoExecution_foldl_AddListener ls (AlgoExecutionService.ctor : AlgoExecutionService T L)
  exact ⟨by rw [AlgoExecutionService.fresh, h1]; rfl, by rw [AlgoExecutionService.fresh, h2]; rfl,
    by rw [AlgoExecutionService.fresh, h3]; rfl⟩

theorem qualifies_iff {T : Type} (limit : ℚ) (book : OrderBook T) (r : BidOffer)
    (hr : book.GetBidOffer = some r) :
    qualifies limit book = true ↔ r.offerOrder.price - r.bidOrder.price ≤ limit := by
  simp [qualifies, hr]

/-- Feeding snapshots with non-empty stacks never fails, keeps the limit and the listeners, and
advances the counter by the number of snapshots that pass the spread test. -/
theorem processAll_spec {T L : Type} [Product T] (pre : List (OrderBook T × List Char)) :
    ∀ s : AlgoExecutionService T L,
      (∀ b ∈ pre, b.1.bidStack ≠ [] ∧ b.1.offerStack ≠ []) →
      ∃ s1, s.processAll pre = some s1 ∧ s1.SPREAD_LIMIT = s.SPREAD_LIMIT ∧
        s1.listeners = s.listeners ∧
        s1.executionCount =
          s.executionCount + ((pre.filter (fun b => qualifies s.SPREAD_LIMIT b.1)).length : Int) := by
  induction pre with
  | nil =>
    intro s _
    exact ⟨s, rfl, rfl, rfl, by simp⟩
  | cons b pre ih =>
    intro s hne
    obtain ⟨book, orderId⟩ := b
    have hb := hne (book, orderId) (List.mem_cons_self _ _)
    have hrest : ∀ b ∈ pre, b.1.bidStack ≠ [] ∧ b.1.offerStack ≠ [] :=
      fun b hb => hne b (List.mem_cons_of_mem _ hb)
    obtain ⟨r, hr⟩ := GetBidOffer_isSome book hb.1 hb.2
    by_cases hq : r.offerOrder.price - r.bidOrder.price ≤ s.SPREAD_LIMIT
    · have hqual : qualifies s.SPREAD_LIMIT book = true := (qualifies_iff _ _ r hr).2 hq
      obtain ⟨s1, h1, h2, h3, h4⟩ := ih _ hrest
      refine ⟨s1, ?_, ?_, ?_, ?_⟩
      · simp only [AlgoExecutionService.processAll, AlgoOrderExecution_pass s book orderId r hr hq,
          Option.some_bind]
        exact h1
      · rw [h2]
      · rw [h3]
      · rw [h4]
        simp only [List.filter_cons, hqual, if_true, List.length_cons]
        push_cast
        ring
    · have hqual : qualifies s.SPREAD_LIMIT book = false := by
        rw [← Bool.not_eq_true, qualifies_iff _ _ r hr]
        exact hq
      obtain ⟨s1, h1, h2, h3, h4⟩ := ih s hrest
      refine ⟨s1, ?_, h2, h3, ?_⟩
      · simp only [AlgoExecutionService.processAll, AlgoOrderExecution_skip s book orderId r hr hq,
          Option.some_bind]
        exact h1
      · rw [h4]
        simp [List.filter_cons, hqual]

theorem GetBidOffer_mem {T : Type} (book : OrderBook T) (r : BidOffer)
    (hr : book.GetBidOffer = some r) :
    r.bidOrder ∈ book.bidStack ∧ r.offerOrder ∈ book.offerStack := by
  have hb : book.bidStack ≠ [] := by
    intro h
    simp [OrderBook.GetBidOffer, h] at hr
  have ho : book.offerStack ≠ [] := by
    intro h
    simp [OrderBook.GetBidOffer, h] at hr
  obtain ⟨b, bs, hbs⟩ := List.exists_cons_of_ne_nil hb
  obtain ⟨o, os, hos⟩ := List.exists_cons_of_ne_nil ho
  have heq := GetBidOffer_eq book b bs o os hbs hos
  rw [hr] at heq
  have hr' := Option.some.inj heq
  have h1 := (scanBids_spec b bs).2
  have h2 := (scanOffers_spec o os).2
  rw [hr', hbs, hos]
  exact ⟨List.mem_of_find?_eq_some h1, List.mem_of_find?_eq_some h2⟩

theorem builtExecution_even {T : Type} (k : Nat) (hk : k % 2 = 0) (product : T) (r : BidOffer)
    (orderId : List Char) :
    builtExecution (k : Int) product r orderId =
      AlgoExecution.ctor product PricingSide.OFFER orderId OrderType.MARKET r.offerOrder.price
        r.offerOrder.quantity 0 "PARENT_ORDER_ID".toList false := by
  have : (k : Int).tmod 2 = 0 := by
    rw [show (2 : Int) = ((2 : Nat) : Int) from rfl, ← Int.ofNat_tmod, hk]
    rfl
  simp [builtExecution, this]

theorem builtExecution_odd {T : Type} (k : Nat) (hk : k % 2 = 1) (product : T) (r : BidOffer)
    (orderId : List Char) :
    builtExecution (k : Int) product r orderId =
      AlgoExecution.ctor product PricingSide.BID orderId OrderType.MARKET r.bidOrder.price
        r.bidOrder.quantity 0 "PARENT_ORDER_ID".toList false := by
  have : (k : Int).tmod 2 = 1 := by
    rw [show (2 : Int) = ((2 : Nat) : Int) from rfl, ← Int.ofNat_tmod, hk]
    rfl
  simp [builtExecution, this]

/-- C7, counterexample. On a fresh service the first qualifying snapshot `largeBook` (spread 0)
has best offer quantity 9007199254740993 = 2^53 + 1, but the OFFER execution emitted for it
carries the quantity 9007199254740992: the quantity passes through a `double`.  And on a
snapshot with an empty stack `GetBidOffer` reads `front()` of an empty vector, which is
undefined: no execution is described at all. -/
theorem AlgoOrderExecution_rounds_quantity :
    largeBook.GetBidOffer =
        some ⟨⟨100, 1000000, PricingSide.BID⟩, ⟨100, 9007199254740993, PricingSide.OFFER⟩⟩ ∧
      ∃ (s1 : AlgoExecutionService Bond Nat) (calls : List (Nat × AlgoExecution Bond))
        (o : ExecutionOrder Bond),
        (AlgoExecutionService.fresh []).AlgoOrderExecution largeBook "ORDER1".toList =
          some (s1, calls) ∧
        s1.algoExecutions (Product.GetProductId largeBook.product) = some ⟨some o⟩ ∧
        o.side = PricingSide.OFFER ∧ o.visibleQuantity = 9007199254740992 ∧
        (AlgoExecutionService.fresh [] : AlgoExecutionService Bond Nat).AlgoOrderExecution
          oneSidedBook "ORDER1".toList = none := by
  have hr : largeBook.GetBidOffer =
      some ⟨⟨100, 1000000, PricingSide.BID⟩, ⟨100, 9007199254740993, PricingSide.OFFER⟩⟩ := by
    rw [GetBidOffer_eq largeBook _ _ _ _ rfl rfl]
    norm_num [scanBids, scanOffers]
  refine ⟨hr, ?_⟩
  have hq : (⟨⟨100, 1000000, PricingSide.BID⟩, ⟨100, 9007199254740993, PricingSide.OFFER⟩⟩ :
      BidOffer).offerOrder.price - (⟨⟨100, 1000000, PricingSide.BID⟩,
        ⟨100, 9007199254740993, PricingSide.OFFER⟩⟩ : BidOffer).bidOrder.price ≤
      (AlgoExecutionService.fresh [] : AlgoExecutionService Bond Nat).SPREAD_LIMIT := by
    rw [(algoExecution_fresh_fields []).2.1]
    norm_num
  have hpass := AlgoOrderExecution_pass (AlgoExecutionService.fresh [] : AlgoExecutionService Bond Nat)
    largeBook "ORDER1".toList _ hr hq
  have hround : roundLong53 9007199254740993 = 9007199254740992 := by decide
  have hbe := fun (r : BidOffer) =>
    builtExecution_even 0 rfl largeBook.product r "ORDER1".toList
  simp only [Nat.cast_zero] at hbe
  rw [(algoExecution_fresh_fields []).2.2, hbe] at hpass
  refine ⟨_, _, ExecutionOrder.ctor largeBook.product PricingSide.OFFER "ORDER1".toList
    OrderType.MARKET 100 (longToDouble 9007199254740993) (longToDouble 0)
    "PARENT_ORDER_ID".toList false, hpass, ?_, rfl, ?_, ?_⟩
  · simp only [StdMap.assign, if_true]
    rfl
  · simp only [ExecutionOrder.ctor, longToDouble, hround]
    exact truncToInt_intCast _
  · simp [AlgoExecutionService.AlgoOrderExecution, OrderBook.GetBidOffer, oneSidedBook]

/-- C7, amended. Start from a freshly constructed service with any listeners registered and feed
it any sequence `pre` of snapshots with non-empty stacks, of which `k` pass the spread test; let
`book` be the next snapshot, with non-empty stacks and orders of any size.  Then the counter is
`k`; if `book` passes the test, its execution is stored and sent to every listener, it is on the
OFFER side at the best offer's price when `k` is even and on the BID side at the best bid's price
when `k` is odd, it carries the chosen order's quantity whenever that one quantity has magnitude
at most 2^53 = 9007199254740992, and the counter becomes `k + 1`; if `book` fails the test
nothing changes. -/
theorem AlgoOrderExecution_alternates {T L : Type} [Product T] (ls : List L)
    (pre : List (OrderBook T × List Char)) (book : OrderBook T) (orderId : List Char)
    (hpre : ∀ b ∈ pre, b.1.bidStack ≠ [] ∧ b.1.offerStack ≠ [])
    (hb : book.bidStack ≠ []) (ho : book.offerStack ≠ []) :
    ∃ (s : AlgoExecutionService T L) (r : BidOffer),
      (AlgoExecutionService.fresh ls).processAll pre = some s ∧
      s.executionCount = ((pre.filter (fun b => qualifies (1 / 128) b.1)).length : Int) ∧
      book.GetBidOffer = some r ∧
      (qualifies (1 / 128) book = true →
        ∃ (s1 : AlgoExecutionService T L) (o : ExecutionOrder T),
          s.AlgoOrderExecution book orderId = some (s1, ls.map (fun l => (l, ⟨some o⟩))) ∧
          s1.algoExecutions (Product.GetProductId book.product) = some ⟨some o⟩ ∧
          s1.executionCount =
            ((pre.filter (fun b => qualifies (1 / 128) b.1)).length : Int) + 1 ∧
          ((pre.filter (fun b => qualifies (1 / 128) b.1)).length % 2 = 0 →
            o.side = PricingSide.OFFER ∧ o.price = r.offerOrder.price ∧
              (r.offerOrder.quantity.natAbs ≤ 9007199254740992 →
                o.visibleQuantity = r.offerOrder.quantity)) ∧
          ((pre.filter (fun b => qualifies (1 / 128) b.1)).length % 2 = 1 →
            o.side = PricingSide.BID ∧ o.price = r.bidOrder.price ∧
              (r.bidOrder.quantity.natAbs ≤ 9007199254740992 →
                o.visibleQuantity = r.bidOrder.quantity))) ∧
      (qualifies (1 / 128) book = false → s.AlgoOrderExecution book orderId = some (s, [])) := by
  obtain ⟨hl, hlim, hcount⟩ := algoExecution_fresh_fields (T := T) ls
  obtain ⟨s, h1, h2, h3, h4⟩ := processAll_spec pre (AlgoExecutionService.fresh ls) hpre
  rw [hlim] at h2 h4
  rw [hl] at h3
  rw [hcount, zero_add] at h4
  obtain ⟨r, hr⟩ := GetBidOffer_isSome book hb ho
  refine ⟨s, r, h1, h4, hr, ?_, ?_⟩
  · intro hqual
    have hq : r.offerOrder.price - r.bidOrder.price ≤ s.SPREAD_LIMIT := by
      rw [h2]
      exact (qualifies_iff _ _ r hr).1 hqual
    have hpass := AlgoOrderExecution_pass s book orderId r hr hq
    rw [h3, h4] at hpass
    rcases Nat.mod_two_eq_zero_or_one (pre.filter (fun b => qualifies (1 / 128) b.1)).length
      with hk | hk
    · rw [builtExecution_even _ hk] at hpass
      refine ⟨_, _, hpass, ?_, ?_, ?_, ?_⟩
      · simp [StdMap.assign, AlgoExecution.ctor]
      · rfl
      · intro _
        exact ⟨rfl, rfl, fun hso => longToDouble_roundtrip _ hso⟩
      · intro h
        omega
    · rw [builtExecution_odd _ hk] at hpass
      refine ⟨_, _, hpass, ?_, ?_, ?_, ?_⟩
      · simp [StdMap.assign, AlgoExecution.ctor]
      · rfl
      · intro h
        omega
      · intro _
        exact ⟨rfl, rfl, fun hsb => longToDouble_roundtrip _ hsb⟩
  · intro hqual
    have hq : ¬ r.offerOrder.price - r.bidOrder.price ≤ s.SPREAD_LIMIT := by
      rw [h2, ← qualifies_iff _ _ r hr, hqual]
      simp
    exact AlgoOrderExecution_skip s book orderId r hr hq

/-- Witness for C7: one listener, one earlier snapshot, then the snapshot `tightBook`. -/
theorem AlgoOrderExecution_alternates_witness :
    ∃ (s : AlgoExecutionService Bond Nat) (r : BidOffer),
      (AlgoExecutionService.fresh [7]).processAll [(tightBook, "ORDER1".toList)] = some s ∧
      s.executionCount =
        (([(tightBook, "ORDER1".toList)].filter (fun b => qualifies (1 / 128) b.1)).length : Int) ∧
      tightBook.GetBidOffer = some r ∧
      (qualifies (1 / 128) tightBook = true →
        ∃ (s1 : AlgoExecutionService Bond Nat) (o : ExecutionOrder Bond),
          s.AlgoOrderExecution tightBook "ORDER2".toList =
            some (s1, [7].map (fun l => (l, ⟨some o⟩))) ∧
          s1.algoExecutions (Product.GetProductId tightBook.product) = some ⟨some o⟩ ∧
          s1.executionCount =
            (([(tightBook, "ORDER1".toList)].filter
              (fun b => qualifies (1 / 128) b.1)).length : Int) + 1 ∧
          (([(tightBook, "ORDER1".toList)].filter (fun b => qualifies (1 / 128) b.1)).length % 2 = 0 →
            o.side = PricingSide.OFFER ∧ o.price = r.offerOrder.price ∧
              (r.offerOrder.quantity.natAbs ≤ 9007199254740992 →
                o.visibleQuantity = r.offerOrder.quantity)) ∧
          (([(tightBook, "ORDER1".toList)].filter (fun b => qualifies (1 / 128) b.1)).length % 2 = 1 →
            o.side = PricingSide.BID ∧ o.price = r.bidOrder.price ∧
              (r.bidOrder.quantity.natAbs ≤ 9007199254740992 →
                o.visibleQuantity = r.bidOrder.quantity))) ∧
      (qualifies (1 / 128) tightBook = false →
        s.AlgoOrderExecution tightBook "ORDER2".toList = some (s, [])) :=
  AlgoOrderExecution_alternates [7] [(tightBook, "ORDER1".toList)] tightBook "ORDER2".toList
    (by simp [tightBook]) (by simp [tightBook]) (by simp [tightBook])

/-- C8. Whenever `AlgoOrderExecution` emits (non-empty stacks, spread within the limit), the
execution order has type MARKET, hidden quantity 0, parent order id `PARENT_ORDER_ID`,
`isChildOrder = false`, the snapshot's product and the generated order id; `GetData` on the
product id then returns it, and the `ProcessAdd` calls are exactly one per registered listener,
in registration order, each with this execution. -/
theorem AlgoOrderExecution_emits {T L : Type} [Product T] (s : AlgoExecutionService T L)
    (book : OrderBook T) (orderId : List Char) (r : BidOffer) (hr : book.GetBidOffer = some r)
    (hq : r.offerOrder.price - r.bidOrder.price ≤ s.SPREAD_LIMIT) :
    ∃ (s1 : AlgoExecutionService T L) (o : ExecutionOrder T),
      s.AlgoOrderExecution book orderId = some (s1, s.listeners.map (fun l => (l, ⟨some o⟩))) ∧
      o.orderType = OrderType.MARKET ∧ o.hiddenQuantity = 0 ∧ o.GetHiddenQuantity = 0 ∧
      o.parentOrderId = "PARENT_ORDER_ID".toList ∧ o.isChildOrder = false ∧
      o.product = book.product ∧ o.orderId = orderId ∧
      (s1.GetData (Product.GetProductId book.product)).1 = ⟨some o⟩ ∧
      s1.listeners = s.listeners := by
  have hpass := AlgoOrderExecution_pass s book orderId r hr hq
  have hz : truncToInt (longToDouble 0) = 0 := by
    rw [longToDouble_zero]
    exact truncToInt_intCast 0
  have hhid : longToDouble (truncToInt (longToDouble 0)) = 0 := by
    rw [hz, longToDouble_zero]
  refine ⟨_, _, hpass, rfl, ?_, ?_, rfl, rfl, rfl, rfl, ?_, rfl⟩
  · exact hhid
  · simp only [ExecutionOrder.GetHiddenQuantity, ExecutionOrder.ctor, hhid]
    exact truncToInt_intCast 0
  · simp [AlgoExecutionService.GetData, StdMap.index, StdMap.assign, builtExecution,
      AlgoExecution.ctor]

/-- Witness for C8 at a fresh service with two listeners and the snapshot `tightBook`. -/
theorem AlgoOrderExecution_emits_witness :
    ∃ (s1 : AlgoExecutionService Bond Nat) (o : ExecutionOrder Bond),
      (AlgoExecutionService.fresh [7, 8]).AlgoOrderExecution tightBook "ORDER1".toList =
        some (s1, (AlgoExecutionService.fresh [7, 8] :
          AlgoExecutionService Bond Nat).listeners.map (fun l => (l, ⟨some o⟩))) ∧
      o.orderType = OrderType.MARKET ∧ o.hiddenQuantity = 0 ∧ o.GetHiddenQuantity = 0 ∧
      o.parentOrderId = "PARENT_ORDER_ID".toList ∧ o.isChildOrder = false ∧
      o.product = tightBook.product ∧ o.orderId = "ORDER1".toList ∧
      (s1.GetData (Product.GetProductId tightBook.product)).1 = ⟨some o⟩ ∧
      s1.listeners = (AlgoExecutionService.fresh [7, 8] : AlgoExecutionService Bond Nat).listeners :=
  AlgoOrderExecution_emits (AlgoExecutionService.fresh [7, 8]) tightBook "ORDER1".toList
    ⟨⟨100, 1000000, PricingSide.BID⟩, ⟨12801 / 128, 2000000, PricingSide.OFFER⟩⟩
    (by rw [GetBidOffer_eq tightBook _ _ _ _ rfl rfl]; norm_num [scanBids, scanOffers])
    (by rw [(algoExecution_fresh_fields [7, 8]).2.1]; norm_num)

/-! ### Algorithmic streaming -/

theorem algoStreaming_foldl_AddListener {T L : Type} (ls : List L) :
    ∀ s : AlgoStreamingService T L,
      (ls.foldl AlgoStreamingService.AddListener s).listeners = s.listeners ++ ls ∧
      (ls.foldl AlgoStreamingService.AddListener s).pricePublishCount = s.pricePublishCount := by
  induction ls with
  | nil => intro s; simp
  | cons l ls ih =>
    intro s
    obtain ⟨h1, h2⟩ := ih (s.AddListener l)
    simp only [List.foldl_cons]
    refine ⟨?_, ?_⟩
    · rw [h1]; simp [AlgoStreamingService.AddListener]
    · rw [h2]; rfl

theorem algoStreaming_fresh_fields {T L : Type} (ls : List L) :
    (AlgoStreamingService.fresh ls : AlgoStreamingService T L).listeners = ls ∧
      (AlgoStreamingService.fresh ls : AlgoStreamingService T L).pricePublishCount = 0 := by
  obtain ⟨h1, h2⟩ :=
    algoStreaming_foldl_AddListener ls (AlgoStreamingService.ctor : AlgoStreamingService T L)
  exact ⟨by rw [AlgoStreamingService.fresh, h1]; rfl, by rw [AlgoStreamingService.fresh, h2]; rfl⟩

/-- Each publish advances the counter by one and leaves the listeners alone. -/
theorem publishAll_spec {T L : Type} [Product T] (prices : List (Price T)) :
    ∀ s : AlgoStreamingService T L,
      (s.publishAll prices).pricePublishCount = s.pricePublishCount + (prices.length : Int) ∧
      (s.publishAll prices).listeners = s.listeners := by
  induction prices with
  | nil => intro s; simp [AlgoStreamingService.publishAll]
  | cons p prices ih =>
    intro s
    obtain ⟨h1, h2⟩ := ih (s.AlgoPublishPrice p).1
    simp only [AlgoStreamingService.publishAll, List.foldl_cons] at h1 h2 ⊢
    refine ⟨?_, ?_⟩
    · rw [h1]
      simp only [AlgoStreamingService.AlgoPublishPrice, List.length_cons]
      push_cast
      ring
    · rw [h2]
      rfl

/-- The stream emitted by one publish, in terms of the counter before it. -/
theorem AlgoPublishPrice_eq {T L : Type} [Product T] (s : AlgoStreamingService T L)
    (price : Price T) :
    s.AlgoPublishPrice price =
      ({ s with pricePublishCount := s.pricePublishCount + 1
                algoStreams := s.algoStreams.assign (Product.GetProductId price.product)
                  ⟨some ⟨price.product,
                    ⟨price.mid - price.bidOfferSpread / 2,
                      calculateVisibleQuantity (longToInt s.pricePublishCount),
                      calculateVisibleQuantity (longToInt s.pricePublishCount) * 2,
                      PricingSide.BID⟩,
                    ⟨price.mid + price.bidOfferSpread / 2,
                      calculateVisibleQuantity (longToInt s.pricePublishCount),
                      calculateVisibleQuantity (longToInt s.pricePublishCount) * 2,
                      PricingSide.OFFER⟩⟩⟩ },
        s.listeners.map (fun l => (l,
          ⟨some ⟨price.product,
            ⟨price.mid - price.bidOfferSpread / 2,
              calculateVisibleQuantity (longToInt s.pricePublishCount),
              calculateVisibleQuantity (longToInt s.pricePublishCount) * 2,
              PricingSide.BID⟩,
            ⟨price.mid + price.bidOfferSpread / 2,
              calculateVisibleQuantity (longToInt s.pricePublishCount),
              calculateVisibleQuantity (longToInt s.pricePublishCount) * 2,
              PricingSide.OFFER⟩⟩⟩))) := by
  rfl

theorem calculateVisibleQuantity_small (n : Nat) (hn : n < 2147483648) :
    calculateVisibleQuantity (longToInt (n : Int)) = if n % 2 = 0 then 1000000 else 2000000 := by
  have h1 : longToInt (n : Int) = (n : Int) := by
    unfold longToInt
    omega
  have h2 : (n : Int).tmod 2 = ((n % 2 : Nat) : Int) := by
    rw [show (2 : Int) = ((2 : Nat) : Int) from rfl, ← Int.ofNat_tmod]
  rw [h1, calculateVisibleQuantity, h2, MILLION]
  rcases Nat.mod_two_eq_zero_or_one n with h | h
  · rw [h]
    simp
  · rw [h]
    simp

/-- Below 2^31 publishes the sizes alternate as documented: publish number `n` (from 0) of a
fresh service carries the visible quantity 1,000,000 when `n` is even and 2,000,000 when `n` is
odd on both sides, and twice that as hidden quantity. -/
theorem AlgoPublishPrice_sizes {T L : Type} [Product T] (ls : List L) (prices : List (Price T))
    (price : Price T) (hn : prices.length < 2147483648) :
    ∃ (s1 : AlgoStreamingService T L) (st : PriceStream T),
      ((AlgoStreamingService.fresh ls).publishAll prices).AlgoPublishPrice price =
        (s1, ls.map (fun l => (l, ⟨some st⟩))) ∧
      s1.algoStreams (Product.GetProductId price.product) = some ⟨some st⟩ ∧
      st.bidOrder.visibleQuantity = (if prices.length % 2 = 0 then 1000000 else 2000000) ∧
      st.offerOrder.visibleQuantity = st.bidOrder.visibleQuantity ∧
      st.bidOrder.hiddenQuantity = 2 * st.bidOrder.visibleQuantity ∧
      st.offerOrder.hiddenQuantity = 2 * st.bidOrder.visibleQuantity := by
  obtain ⟨hl, hc⟩ := algoStreaming_fresh_fields (T := T) ls
  obtain ⟨h1, h2⟩ := publishAll_spec prices (AlgoStreamingService.fresh ls : AlgoStreamingService T L)
  rw [hc, zero_add] at h1
  rw [hl] at h2
  have heq := AlgoPublishPrice_eq ((AlgoStreamingService.fresh ls).publishAll prices) price
  rw [h1, h2] at heq
  refine ⟨_, _, heq, ?_, ?_, rfl, ?_, ?_⟩
  · simp [StdMap.assign]
  · exact calculateVisibleQuantity_small _ hn
  · show calculateVisibleQuantity _ * 2 = 2 * calculateVisibleQuantity _
    ring
  · show calculateVisibleQuantity _ * 2 = 2 * calculateVisibleQuantity _
    ring

/-- C9, the failing input evaluated. After 2147483649 = 2^31 + 1 publishes on a fresh service,
the next publish (number 2147483649 counted from 0, an odd number) emits a stream whose two
orders carry visible quantity 0 and hidden quantity 0 instead of 2,000,000 and 4,000,000: the
`long` counter is narrowed to the `int` parameter of `calculateVisibleQuantity`, where it is
negative and odd, and the C++ remainder is then -1. -/
theorem AlgoPublishPrice_counter_narrowed :
    ∃ (s1 : AlgoStreamingService Bond Nat) (st : PriceStream Bond),
      ((AlgoStreamingService.fresh []).publishAll
          (List.replicate 2147483649 samplePrice)).AlgoPublishPrice samplePrice = (s1, []) ∧
      s1.algoStreams (Product.GetProductId samplePrice.product) = some ⟨some st⟩ ∧
      st.bidOrder.visibleQuantity = 0 ∧ st.offerOrder.visibleQuantity = 0 ∧
      st.bidOrder.hiddenQuantity = 0 ∧ st.offerOrder.hiddenQuantity = 0 := by
  obtain ⟨hl, hc⟩ := algoStreaming_fresh_fields (T := Bond) ([] : List Nat)
  obtain ⟨h1, h2⟩ := publishAll_spec (List.replicate 2147483649 samplePrice)
    (AlgoStreamingService.fresh [] : AlgoStreamingService Bond Nat)
  rw [hc, zero_add, List.length_replicate] at h1
  rw [hl] at h2
  have heq := AlgoPublishPrice_eq ((AlgoStreamingService.fresh [] :
    AlgoStreamingService Bond Nat).publishAll (List.replicate 2147483649 samplePrice)) samplePrice
  rw [h1, h2] at heq
  have hv : calculateVisibleQuantity (longToInt ((2147483649 : Nat) : Int)) = 0 := by decide
  rw [hv] at heq
  simp only [List.map_nil] at heq
  refine ⟨_, ⟨samplePrice.product,
    ⟨samplePrice.mid - samplePrice.bidOfferSpread / 2, 0, 0 * 2, PricingSide.BID⟩,
    ⟨samplePrice.mid + samplePrice.bidOfferSpread / 2, 0, 0 * 2, PricingSide.OFFER⟩⟩,
    heq, ?_, rfl, rfl, ?_, ?_⟩
  · simp [StdMap.assign]
  · exact Int.zero_mul 2
  · exact Int.zero_mul 2

theorem lookup_ne_none_iff_mem_keys (m : List (List Char × Int)) (key : List Char) :
    key ∈ m.map Prod.fst ↔ ∃ v, m.lookup key = some v := by
  induction m with
  | nil => simp [List.lookup]
  | cons e rest ih =>
    obtain ⟨k, v⟩ := e
    by_cases hk : key = k
    · subst hk
      simp [List.lookup]
    · have hk' : (key == k) = false := by simpa using hk
      have hk2 : ¬ k = key := fun h => hk h.symm
      simp only [List.map_cons, List.mem_cons, hk, false_or, List.lookup, hk']
      exact ih

theorem lookup_updateEntry (m : List (List Char × Int)) (key : List Char) (delta : Int)
    (k1 : List Char) :
    (updateEntry m key delta).lookup k1 =
      if k1 = key then (m.lookup key).map (fun v => v + delta) else m.lookup k1 := by
  induction m with
  | nil => simp [updateEntry, List.lookup]
  | cons e rest ih =>
    obtain ⟨k, v⟩ := e
    by_cases hk : k = key
    · subst hk
      by_cases h1 : k1 = k
      · subst h1
        simp [updateEntry, List.lookup]
      · have h1' : (k1 == k) = false := by simpa using h1
        simp [updateEntry, List.lookup, h1, h1']
    · by_cases h1 : k1 = key
      · subst h1
        have hk' : (k1 == k) = false := by simpa using fun h => hk h.symm
        simp [updateEntry, List.lookup, hk, hk', ih]
      · by_cases h2 : k1 = k
        · subst h2
          simp [updateEntry, List.lookup, hk, h1]
        · have h2' : (k1 == k) = false := by simpa using h2
          simp [updateEntry, List.lookup, hk, h2', ih, h1]

theorem lookup_insertEntry (m : List (List Char × Int)) (key : List Char) (value : Int)
    (k1 : List Char) (hnew : key ∉ m.map Prod.fst) :
    (insertEntry m key value).lookup k1 = if k1 = key then some value else m.lookup k1 := by
  induction m with
  | nil =>
    by_cases h1 : k1 = key
    · subst h1
      simp [insertEntry, List.lookup]
    · have h1' : (k1 == key) = false := by simpa using h1
      simp [insertEntry, List.lookup, h1, h1']
  | cons e rest ih =>
    obtain ⟨k, v⟩ := e
    simp only [List.map_cons, List.mem_cons, not_or] at hnew
    obtain ⟨hne, hrest⟩ := hnew
    by_cases hlt : key < k
    · by_cases h1 : k1 = key
      · subst h1
        simp [insertEntry, hlt, List.lookup]
      · have h1' : (k1 == key) = false := by simpa using h1
        simp [insertEntry, hlt, List.lookup, h1, h1']
    · by_cases h1 : k1 = key
      · subst h1
        have hk' : (k1 == k) = false := by simpa using hne
        simp [insertEntry, hlt, List.lookup, hk', ih hrest]
      · by_cases h2 : k1 = k
        · subst h2
          simp [insertEntry, hlt, List.lookup, h1]
        · have h2' : (k1 == k) = false := by simpa using h2
          simp [insertEntry, hlt, List.lookup, h2', ih hrest, h1]

/-- Looking up after `m[key] += delta`. -/
theorem lookup_addAt (m : List (List Char × Int)) (key : List Char) (delta : Int)
    (k1 : List Char) :
    (addAt m key delta).lookup k1 =
      if k1 = key then some ((m.lookup key).getD 0 + delta) else m.lookup k1 := by
  unfold addAt
  by_cases hmem : key ∈ m.map Prod.fst
  · obtain ⟨v, hv⟩ := (lookup_ne_none_iff_mem_keys m key).1 hmem
    rw [if_pos hmem, lookup_updateEntry, hv]
    rfl
  · have hnone : m.lookup key = none := by
      cases h : m.lookup key with
      | none => rfl
      | some v => exact absurd ((lookup_ne_none_iff_mem_keys m key).2 ⟨v, h⟩) hmem
    rw [if_neg hmem, lookup_insertEntry m key _ k1 hmem, hnone]
    rfl

theorem keys_updateEntry (m : List (List Char × Int)) (key : List Char) (delta : Int) :
    (updateEntry m key delta).map Prod.fst = m.map Prod.fst := by
  induction m with
  | nil => rfl
  | cons e rest ih =>
    obtain ⟨k, v⟩ := e
    by_cases hk : k = key
    · simp [updateEntry, hk]
    · simp [updateEntry, hk, ih]

theorem keys_insertEntry (m : List (List Char × Int)) (key : List Char) (value : Int) :
    ((insertEntry m key value).map Prod.fst).Perm (key :: m.map Prod.fst) := by
  induction m with
  | nil => simp [insertEntry]
  | cons e rest ih =>
    obtain ⟨k, v⟩ := e
    by_cases hlt : key < k
    · simp [insertEntry, hlt]
    · simp only [insertEntry, hlt, if_false, List.map_cons]
      exact (List.Perm.cons k ih).trans (List.Perm.swap key k _)

theorem nodup_keys_addAt (m : List (List Char × Int)) (key : List Char) (delta : Int)
    (h : (m.map Prod.fst).Nodup) : ((addAt m key delta).map Prod.fst).Nodup := by
  unfold addAt
  by_cases hmem : key ∈ m.map Prod.fst
  · rw [if_pos hmem, keys_updateEntry]
    exact h
  · rw [if_neg hmem, (keys_insertEntry m key _).nodup_iff]
    exact List.nodup_cons.2 ⟨hmem, h⟩

theorem sum_updateEntry (m : List (List Char × Int)) (key : List Char) (delta : Int)
    (hmem : key ∈ m.map Prod.fst) :
    ((updateEntry m key delta).map Prod.snd).sum = (m.map Prod.snd).sum + delta := by
  induction m with
  | nil => simp at hmem
  | cons e rest ih =>
    obtain ⟨k, v⟩ := e
    by_cases hk : k = key
    · simp only [updateEntry, hk, if_true, List.map_cons, List.sum_cons]
      ring
    · have hrest : key ∈ rest.map Prod.fst := by
        simp only [List.map_cons, List.mem_cons] at hmem
        rcases hmem with h | h
        · exact absurd h.symm hk
        · exact h
      simp only [updateEntry, hk, if_false, List.map_cons, List.sum_cons, ih hrest]
      ring

theorem sum_insertEntry (m : List (List Char × Int)) (key : List Char) (value : Int) :
    ((insertEntry m key value).map Prod.snd).sum = (m.map Prod.snd).sum + value := by
  induction m with
  | nil => simp [insertEntry]
  | cons e rest ih =>
    obtain ⟨k, v⟩ := e
    by_cases hlt : key < k
    · simp only [insertEntry, hlt, if_true, List.map_cons, List.sum_cons]
      ring
    · simp only [insertEntry, hlt, if_false, List.map_cons, List.sum_cons, ih]
      ring

/-- The sum of the values after `m[key] += delta`. -/
theorem sum_addAt (m : List (List Char × Int)) (key : List Char) (delta : Int) :
    ((addAt m key delta).map Prod.snd).sum = (m.map Prod.snd).sum + delta := by
  unfold addAt
  by_cases hmem : key ∈ m.map Prod.fst
  · rw [if_pos hmem, sum_updateEntry m key delta hmem]
  · rw [if_neg hmem, sum_insertEntry, zero_add]

/-- Folding the entries of `l` into `start`, as the loop of `AddTrade` does: the keys stay
pairwise distinct, an entry of `l` is added to what `start` holds for its key, and the values add
up. -/
theorem merge_spec (l : List (List Char × Int)) :
    ∀ start : List (List Char × Int), (l.map Prod.fst).Nodup → (start.map Prod.fst).Nodup →
      ((l.foldl (fun m p => addAt m p.1 p.2) start).map Prod.fst).Nodup ∧
      (∀ k, (l.foldl (fun m p => addAt m p.1 p.2) start).lookup k =
        match l.lookup k with
        | some v => some ((start.lookup k).getD 0 + v)
        | none => start.lookup k) := by
  induction l with
  | nil =>
    intro start _ hs
    exact ⟨hs, fun k => by simp [List.lookup]⟩
  | cons e rest ih =>
    intro start hl hs
    obtain ⟨key, v⟩ := e
    simp only [List.map_cons, List.nodup_cons] at hl
    obtain ⟨hnot, hrest⟩ := hl
    obtain ⟨h1, h2⟩ := ih (addAt start key v) hrest (nodup_keys_addAt start key v hs)
    refine ⟨h1, ?_⟩
    intro k
    simp only [List.foldl_cons]
    rw [h2 k, lookup_addAt]
    by_cases hk : k = key
    · subst hk
      have hnone : rest.lookup k = none := by
        cases h : rest.lookup k with
        | none => rfl
        | some w => exact absurd ((lookup_ne_none_iff_mem_keys rest k).2 ⟨w, h⟩) hnot
      simp [hnone, List.lookup]
    · have hk' : (k == key) = false := by simpa using hk
      simp only [hk, if_false, List.lookup, hk']

theorem sum_merge (l : List (List Char × Int)) :
    ∀ start : List (List Char × Int),
      ((l.foldl (fun m p => addAt m p.1 p.2) start).map Prod.snd).sum =
        (start.map Prod.snd).sum + (l.map Prod.snd).sum := by
  induction l with
  | nil => intro start; simp
  | cons e rest ih =>
    intro start
    simp only [List.foldl_cons, ih, sum_addAt, List.map_cons, List.sum_cons]
    ring

/-! ### Trade booking -/

/-- C11. For every execution order received by `TradeBookingToExecutionListener::ProcessAdd`,
the trade that is booked (stored under its id, and the argument of every `ProcessAdd` call made)
has side SELL if the execution side is BID and BUY if it is OFFER, quantity equal to visible
quantity plus hidden quantity, trade id equal to the execution order id, and the execution's
product and price. -/
theorem ProcessAdd_books_trade {T L : Type} (self : TradeBookingToExecutionListener)
    (service : TradeBookingService T L) (executionData : ExecutionOrder T) :
    ∃ trade : Trade T,
      (self.ProcessAdd service executionData).2.1.trades executionData.orderId = some trade ∧
      (∀ c ∈ (self.ProcessAdd service executionData).2.2, c.2 = trade) ∧
      trade.side =
        (match executionData.side with
          | PricingSide.BID => Side.SELL
          | PricingSide.OFFER => Side.BUY) ∧
      trade.quantity = executionData.visibleQuantity + executionData.GetHiddenQuantity ∧
      trade.tradeId = executionData.orderId ∧
      trade.product = executionData.product ∧
      trade.price = executionData.price := by
  refine ⟨⟨executionData.product, executionData.orderId, executionData.price,
    marketVector.getD (((self.tradeBookCount + 1) % 18446744073709551616) %
      (marketVector.length : Int)).toNat [],
    executionData.visibleQuantity + executionData.GetHiddenQuantity,
    if executionData.side = PricingSide.BID then Side.SELL else Side.BUY⟩,
    ?_, ?_, ?_, rfl, rfl, rfl, rfl⟩
  · simp only [TradeBookingToExecutionListener.ProcessAdd, TradeBookingService.OnMessage,
      StdMap.assign, if_true]
  · intro c hc
    simp only [TradeBookingToExecutionListener.ProcessAdd, TradeBookingService.OnMessage,
      TradeBookingService.BookTrade, List.mem_append, List.mem_map] at hc
    rcases hc with ⟨l, _, rfl⟩ | ⟨l, _, rfl⟩ <;> rfl
  · cases executionData.side <;> rfl

/-! ### Positions -/

theorem foldl_AddPosition {T : Type} (l : List (List Char × Int)) :
    ∀ p : Position T,
      l.foldl (fun merged e => merged.AddPosition e.1 e.2) p =
        ⟨p.product, l.foldl (fun m e => addAt m e.1 e.2) p.positions⟩ := by
  induction l with
  | nil => intro p; rfl
  | cons e rest ih =>
    intro p
    rw [List.foldl_cons, ih, List.foldl_cons]
    rfl

theorem assign_assign {V : Type} (m : StdMap V) (key : List Char) (a b : V) :
    (m.assign key a).assign key b = m.assign key b := by
  funext k
  by_cases hk : k = key <;> simp [StdMap.assign, hk]

theorem booksOf_eq {T L : Type} [Inhabited T] (s : PositionService T L) (productId : List Char) :
    s.booksOf productId =
      match s.positions productId with
      | some p => p.positions
      | none => [] := by
  unfold PositionService.booksOf PositionService.GetData StdMap.index Position.GetPositions
  cases h : s.positions productId <;> rfl

theorem positionOf_eq {T L : Type} [Inhabited T] (s : PositionService T L)
    (productId book : List Char) :
    s.positionOf productId book = ((s.booksOf productId).lookup book).getD 0 := by
  rw [booksOf_eq]
  unfold PositionService.positionOf PositionService.GetData StdMap.index Position.GetPosition
  cases h : s.positions productId with
  | none => simp [List.lookup, default]
  | some p =>
    simp only
    cases h2 : p.positions.lookup book <;> simp

theorem foldl_add_eq_sum (l : List (List Char × Int)) :
    ∀ a : Int, l.foldl (fun acc e => acc + e.2) a = a + (l.map Prod.snd).sum := by
  induction l with
  | nil => intro a; simp
  | cons e rest ih =>
    intro a
    simp only [List.foldl_cons, ih, List.map_cons, List.sum_cons]
    ring

theorem GetAggregatePosition_eq_sum {T : Type} (p : Position T) :
    p.GetAggregatePosition = (p.positions.map Prod.snd).sum := by
  rw [Position.GetAggregatePosition, foldl_add_eq_sum, zero_add]

theorem aggregateOf_eq {T L : Type} [Inhabited T] (s : PositionService T L)
    (productId : List Char) :
    s.aggregateOf productId = ((s.booksOf productId).map Prod.snd).sum := by
  rw [booksOf_eq]
  unfold PositionService.aggregateOf PositionService.GetData StdMap.index
  cases h : s.positions productId with
  | none => simp [GetAggregatePosition_eq_sum, default]
  | some p => simp [GetAggregatePosition_eq_sum]

/-- What `AddTrade` stores and sends. -/
theorem AddTrade_eq {T L : Type} [Product T] [Inhabited T] (s : PositionService T L)
    (t : Trade T) :
    s.AddTrade t =
      ({ s with positions := s.positions.assign (Product.GetProductId t.product) (s.merged t) },
        s.listeners.map (fun l => (l, s.merged t))) := by
  have hto : (if t.side = Side.BUY then (Position.ctor t.product).AddPosition t.book t.quantity
      else (Position.ctor t.product).AddPosition t.book (-t.quantity)) =
      (⟨t.product, addAt [] t.book (signedQuantity t)⟩ : Position T) := by
    unfold signedQuantity
    split <;> rfl
  unfold PositionService.merged
  rw [booksOf_eq]
  unfold PositionService.AddTrade
  simp only [hto, foldl_AddPosition, Position.GetPositions, StdMap.index]
  cases h : s.positions (Product.GetProductId t.product) with
  | none => simp [assign_assign, default]
  | some p => simp

theorem positionService_foldl_AddListener {T L : Type} (ls : List L) :
    ∀ s : PositionService T L,
      (ls.foldl PositionService.AddListener s).listeners = s.listeners ++ ls ∧
      (ls.foldl PositionService.AddListener s).positions = s.positions := by
  induction ls with
  | nil => intro s; simp
  | cons l ls ih =>
    intro s
    obtain ⟨h1, h2⟩ := ih (s.AddListener l)
    simp only [List.foldl_cons]
    refine ⟨?_, ?_⟩
    · rw [h1]; simp [PositionService.AddListener]
    · rw [h2]; rfl

theorem positionService_fresh_fields {T L : Type} (ls : List L) :
    (PositionService.fresh ls : PositionService T L).listeners = ls ∧
      (PositionService.fresh ls : PositionService T L).positions = StdMap.empty := by
  obtain ⟨h1, h2⟩ :=
    positionService_foldl_AddListener ls (PositionService.ctor : PositionService T L)
  exact ⟨by rw [PositionService.fresh, h1]; rfl, by rw [PositionService.fresh, h2]; rfl⟩

theorem booksOf_AddTrade {T L : Type} [Product T] [Inhabited T] (s : PositionService T L)
    (t : Trade T) (i : List Char) :
    (s.AddTrade t).1.booksOf i =
      if i = Product.GetProductId t.product then (s.merged t).positions else s.booksOf i := by
  rw [AddTrade_eq, booksOf_eq, booksOf_eq]
  by_cases hi : i = Product.GetProductId t.product
  · simp [StdMap.assign, hi]
  · simp [StdMap.assign, hi]

/-- The per-book map of the position built by `AddTrade`, book by book. -/
theorem lookup_merged {T L : Type} [Product T] [Inhabited T] (s : PositionService T L)
    (t : Trade T) (hwf : ((s.booksOf (Product.GetProductId t.product)).map Prod.fst).Nodup)
    (b : List Char) :
    (s.merged t).positions.lookup b =
      if b = t.book then
        some (s.positionOf (Product.GetProductId t.product) t.book + signedQuantity t)
      else (s.booksOf (Product.GetProductId t.product)).lookup b := by
  have hstart : ((addAt [] t.book (signedQuantity t)).map Prod.fst).Nodup :=
    nodup_keys_addAt [] t.book _ (by simp)
  have hm := (merge_spec (s.booksOf (Product.GetProductId t.product))
    (addAt [] t.book (signedQuantity t)) hwf hstart).2 b
  have hs : (addAt [] t.book (signedQuantity t)).lookup b =
      if b = t.book then some (0 + signedQuantity t) else none := by
    rw [lookup_addAt]
    simp [List.lookup]
  rw [positionOf_eq]
  unfold PositionService.merged
  simp only []
  rw [hm, hs]
  by_cases hb : b = t.book
  · subst hb
    cases hold : (s.booksOf (Product.GetProductId t.product)).lookup t.book with
    | none => simp
    | some v => simp; ring
  · cases hold : (s.booksOf (Product.GetProductId t.product)).lookup b with
    | none => simp [hb]
    | some v => simp [hb]

theorem nodup_merged {T L : Type} [Product T] [Inhabited T] (s : PositionService T L)
    (t : Trade T) (hwf : ((s.booksOf (Product.GetProductId t.product)).map Prod.fst).Nodup) :
    ((s.merged t).positions.map Prod.fst).Nodup :=
  (merge_spec (s.booksOf (Product.GetProductId t.product)) (addAt [] t.book (signedQuantity t))
    hwf (nodup_keys_addAt [] t.book _ (by simp))).1

/-- One `AddTrade` moves the position of the trade's instrument in the trade's book by the
signed quantity and no other position. -/
theorem positionOf_AddTrade {T L : Type} [Product T] [Inhabited T] (s : PositionService T L)
    (t : Trade T) (hwf : ∀ i, ((s.booksOf i).map Prod.fst).Nodup) (i b : List Char) :
    (s.AddTrade t).1.positionOf i b =
      s.positionOf i b +
        (if Product.GetProductId t.product = i ∧ t.book = b then signedQuantity t else 0) := by
  rw [positionOf_eq, booksOf_AddTrade]
  by_cases hi : i = Product.GetProductId t.product
  · subst hi
    rw [if_pos rfl, lookup_merged s t (hwf _)]
    by_cases hb : b = t.book
    · subst hb
      simp
    · have hb' : ¬ t.book = b := fun h => hb h.symm
      simp [hb, hb', positionOf_eq]
  · have hi' : ¬ Product.GetProductId t.product = i := fun h => hi h.symm
    simp [hi, hi', positionOf_eq]

theorem wellFormed_AddTrade {T L : Type} [Product T] [Inhabited T] (s : PositionService T L)
    (t : Trade T) (hwf : ∀ i, ((s.booksOf i).map Prod.fst).Nodup) :
    ∀ i, (((s.AddTrade t).1.booksOf i).map Prod.fst).Nodup := by
  intro i
  rw [booksOf_AddTrade]
  split
  · exact nodup_merged s t (hwf _)
  · exact hwf i

theorem wellFormed_fresh {T L : Type} [Inhabited T] (ls : List L) :
    ∀ i, (((PositionService.fresh ls : PositionService T L).booksOf i).map Prod.fst).Nodup := by
  intro i
  rw [booksOf_eq, (positionService_fresh_fields ls).2]
  simp [StdMap.empty]

theorem positionOf_fresh {T L : Type} [Inhabited T] (ls : List L) (i b : List Char) :
    (PositionService.fresh ls : PositionService T L).positionOf i b = 0 := by
  rw [positionOf_eq, booksOf_eq, (positionService_fresh_fields ls).2]
  simp [StdMap.empty, List.lookup]

theorem addTrades_spec {T L : Type} [Product T] [Inhabited T] (ts : List (Trade T)) :
    ∀ s : PositionService T L, (∀ i, ((s.booksOf i).map Prod.fst).Nodup) →
      (∀ i, (((s.addTrades ts).booksOf i).map Prod.fst).Nodup) ∧
      ∀ i b, (s.addTrades ts).positionOf i b =
        s.positionOf i b +
          ((ts.filter (fun t => decide (Product.GetProductId t.product = i ∧ t.book = b))).map
            signedQuantity).sum := by
  induction ts with
  | nil =>
    intro s hwf
    exact ⟨hwf, fun i b => by simp [PositionService.addTrades]⟩
  | cons t ts ih =>
    intro s hwf
    obtain ⟨h1, h2⟩ := ih (s.AddTrade t).1 (wellFormed_AddTrade s t hwf)
    refine ⟨h1, ?_⟩
    intro i b
    have hstep := positionOf_AddTrade s t hwf i b
    have h2' := h2 i b
    simp only [PositionService.addTrades, List.foldl_cons] at h2' ⊢
    rw [h2', hstep]
    by_cases hc : Product.GetProductId t.product = i ∧ t.book = b
    · simp only [hc, and_self, if_true, List.filter_cons, decide_True, List.map_cons,
        List.sum_cons]
      ring
    · simp only [hc, if_false, List.filter_cons, decide_False, add_zero]
      simp

/-- C12. After applying any finite sequence of trades to a fresh `PositionService` with
`AddTrade`, for every instrument `i` and book `b` the position of `i` in `b` is the sum, over the
trades of instrument `i` in book `b`, of `+quantity` for BUY and `-quantity` for SELL. -/
theorem positionOf_addTrades {T L : Type} [Product T] [Inhabited T] (ls : List L)
    (ts : List (Trade T)) (i b : List Char) :
    ((PositionService.fresh ls : PositionService T L).addTrades ts).positionOf i b =
      ((ts.filter (fun t => decide (Product.GetProductId t.product = i ∧ t.book = b))).map
        signedQuantity).sum := by
  rw [(addTrades_spec ts (PositionService.fresh ls) (wellFormed_fresh ls)).2 i b,
    positionOf_fresh, zero_add]

/-- The example of the specification: BUY 1,000,000 then SELL 400,000 in TRSY1 gives 600,000 in
TRSY1 (aggregate 600,000); a further BUY 200,000 in TRSY2 leaves TRSY1 at 600,000, puts TRSY2 at
200,000 and the aggregate at 800,000. -/
theorem positions_sampleTrades :
    ((PositionService.fresh [] : PositionService Bond Nat).addTrades
        (sampleTrades.take 2)).positionOf "91282CJL6".toList "TRSY1".toList = 600000 ∧
      ((PositionService.fresh [] : PositionService Bond Nat).addTrades
        (sampleTrades.take 2)).aggregateOf "91282CJL6".toList = 600000 ∧
      ((PositionService.fresh [] : PositionService Bond Nat).addTrades
        sampleTrades).positionOf "91282CJL6".toList "TRSY1".toList = 600000 ∧
      ((PositionService.fresh [] : PositionService Bond Nat).addTrades
        sampleTrades).positionOf "91282CJL6".toList "TRSY2".toList = 200000 ∧
      ((PositionService.fresh [] : PositionService Bond Nat).addTrades
        sampleTrades).aggregateOf "91282CJL6".toList = 800000 := by
  decide

/-- C13. A single `AddTrade(trade)` merges rather than replaces.  Provided the per-book map on
file for the trade's instrument has pairwise distinct books (as every `std::map` has), the
position stored afterwards for that instrument carries the trade's product and the map before
with the trade's book mapped to (previous quantity, or 0 if absent) plus the signed quantity and
every other book unchanged; the positions of all other instruments are unchanged; and the
`ProcessAdd` calls are exactly one per registered listener, each with the merged position. -/
theorem AddTrade_merges {T L : Type} [Product T] [Inhabited T] (s : PositionService T L)
    (t : Trade T) (hwf : ((s.booksOf (Product.GetProductId t.product)).map Prod.fst).Nodup) :
    ∃ merged : Position T,
      (s.AddTrade t).1.positions (Product.GetProductId t.product) = some merged ∧
      merged.product = t.product ∧
      (∀ b, merged.positions.lookup b =
        if b = t.book then
          some (s.positionOf (Product.GetProductId t.product) t.book + signedQuantity t)
        else (s.booksOf (Product.GetProductId t.product)).lookup b) ∧
      (merged.positions.map Prod.fst).Nodup ∧
      (∀ i, i ≠ Product.GetProductId t.product →
        (s.AddTrade t).1.positions i = s.positions i) ∧
      (s.AddTrade t).2 = s.listeners.map (fun l => (l, merged)) ∧
      (s.AddTrade t).1.listeners = s.listeners := by
  refine ⟨s.merged t, ?_, rfl, lookup_merged s t hwf, nodup_merged s t hwf, ?_, ?_, ?_⟩
  · rw [AddTrade_eq]
    simp [StdMap.assign]
  · intro i hi
    rw [AddTrade_eq]
    simp [StdMap.assign, hi]
  · rw [AddTrade_eq]
  · rw [AddTrade_eq]

/-- Witness for C13: a service with two listeners that holds 1,000,000 in TRSY1 receives the
SELL of 400,000 in TRSY1. -/
theorem AddTrade_merges_witness :
    ∃ merged : Position Bond,
      (((PositionService.fresh [1, 2] : PositionService Bond Nat).addTrades
          (sampleTrades.take 1)).AddTrade
            ⟨sampleBond, "TRADE2".toList, 100, "TRSY1".toList, 400000, Side.SELL⟩).1.positions
        (Product.GetProductId sampleBond) = some merged ∧
      merged.product = sampleBond ∧
      (∀ b, merged.positions.lookup b =
        if b = "TRSY1".toList then
          some (((PositionService.fresh [1, 2] : PositionService Bond Nat).addTrades
              (sampleTrades.take 1)).positionOf (Product.GetProductId sampleBond) "TRSY1".toList +
            signedQuantity
              (⟨sampleBond, "TRADE2".toList, 100, "TRSY1".toList, 400000, Side.SELL⟩ : Trade Bond))
        else (((PositionService.fresh [1, 2] : PositionService Bond Nat).addTrades
          (sampleTrades.take 1)).booksOf (Product.GetProductId sampleBond)).lookup b) ∧
      (merged.positions.map Prod.fst).Nodup ∧
      (∀ i, i ≠ Product.GetProductId sampleBond →
        (((PositionService.fresh [1, 2] : PositionService Bond Nat).addTrades
          (sampleTrades.take 1)).AddTrade
            ⟨sampleBond, "TRADE2".toList, 100, "TRSY1".toList, 400000, Side.SELL⟩).1.positions i =
          ((PositionService.fresh [1, 2] : PositionService Bond Nat).addTrades
            (sampleTrades.take 1)).positions i) ∧
      (((PositionService.fresh [1, 2] : PositionService Bond Nat).addTrades
          (sampleTrades.take 1)).AddTrade
            ⟨sampleBond, "TRADE2".toList, 100, "TRSY1".toList, 400000, Side.SELL⟩).2 =
        ((PositionService.fresh [1, 2] : PositionService Bond Nat).addTrades
          (sampleTrades.take 1)).listeners.map (fun l => (l, merged)) ∧
      (((PositionService.fresh [1, 2] : PositionService Bond Nat).addTrades
          (sampleTrades.take 1)).AddTrade
            ⟨sampleBond, "TRADE2".toList, 100, "TRSY1".toList, 400000, Side.SELL⟩).1.listeners =
        ((PositionService.fresh [1, 2] : PositionService Bond Nat).addTrades
          (sampleTrades.take 1)).listeners :=
  AddTrade_merges ((PositionService.fresh [1, 2] : PositionService Bond Nat).addTrades
      (sampleTrades.take 1))
    ⟨sampleBond, "TRADE2".toList, 100, "TRSY1".toList, 400000, Side.SELL⟩ (by decide)

theorem aggregateOf_AddTrade {T L : Type} [Product T] [Inhabited T] (s : PositionService T L)
    (t : Trade T) (i : List Char) :
    (s.AddTrade t).1.aggregateOf i =
      s.aggregateOf i + (if Product.GetProductId t.product = i then signedQuantity t else 0) := by
  rw [aggregateOf_eq, aggregateOf_eq, booksOf_AddTrade]
  by_cases hi : i = Product.GetProductId t.product
  · subst hi
    rw [if_pos rfl, if_pos rfl]
    unfold PositionService.merged
    simp only []
    rw [sum_merge, sum_addAt]
    simp only [List.map_nil, List.sum_nil, zero_add]
    ring
  · have hi' : ¬ Product.GetProductId t.product = i := fun h => hi h.symm
    rw [if_neg hi, if_neg hi', add_zero]

theorem aggregateOf_addTrades_from {T L : Type} [Product T] [Inhabited T] (ts : List (Trade T)) :
    ∀ (s : PositionService T L) (i : List Char),
      (s.addTrades ts).aggregateOf i =
        s.aggregateOf i +
          ((ts.filter (fun t => decide (Product.GetProductId t.product = i))).map
            signedQuantity).sum := by
  induction ts with
  | nil => intro s i; simp [PositionService.addTrades]
  | cons t ts ih =>
    intro s i
    have h := ih (s.AddTrade t).1 i
    simp only [PositionService.addTrades, List.foldl_cons] at h ⊢
    rw [h, aggregateOf_AddTrade]
    by_cases hc : Product.GetProductId t.product = i
    · simp only [hc, if_true, List.filter_cons, decide_True, List.map_cons, List.sum_cons]
      ring
    · simp only [hc, if_false, List.filter_cons, decide_False, add_zero]
      simp

/-- C14. `GetAggregatePosition` of a position is the sum of its per-book quantities; after any
sequence of `AddTrade` calls on a fresh `PositionService` the aggregate position of an instrument
is the sum of the signed quantities of all its trades over all books; and each `AddTrade` changes
the aggregate of the trade's instrument by exactly the trade's signed quantity (and the aggregate
of no other instrument). -/
theorem aggregate_is_sum {T L : Type} [Product T] [Inhabited T] :
    (∀ p : Position T, p.GetAggregatePosition = (p.positions.map Prod.snd).sum) ∧
      (∀ (ls : List L) (ts : List (Trade T)) (i : List Char),
        ((PositionService.fresh ls : PositionService T L).addTrades ts).aggregateOf i =
          ((ts.filter (fun t => decide (Product.GetProductId t.product = i))).map
            signedQuantity).sum) ∧
      (∀ (s : PositionService T L) (t : Trade T) (i : List Char),
        (s.AddTrade t).1.aggregateOf i =
          s.aggregateOf i +
            (if Product.GetProductId t.product = i then signedQuantity t else 0)) := by
  refine ⟨GetAggregatePosition_eq_sum, ?_, aggregateOf_AddTrade⟩
  intro ls ts i
  rw [aggregateOf_addTrades_from ts (PositionService.fresh ls) i, aggregateOf_eq, booksOf_eq,
    (positionService_fresh_fields ls).2]
  simp [StdMap.empty]

/-! ### Risk -/

/-- C15, counterexample. A position of aggregate 2 in the bond 91282CJL6 is added to a fresh
risk service: `GetData(id).GetPV01()` is then the reference sensitivity 0.01967211 itself, not
0.01967211 x 2. -/
theorem AddPosition_stores_unit_pv01 :
    samplePosition.GetAggregatePosition = 2 ∧
      GetPV01 "91282CJL6".toList = 1967211 / 100000000 ∧
      (((RiskService.ctor : RiskService Bond Nat).AddPosition samplePosition).1.GetData
        "91282CJL6".toList).1.pv01 = 1967211 / 100000000 ∧
      (((RiskService.ctor : RiskService Bond Nat).AddPosition samplePosition).1.GetData
        "91282CJL6".toList).1.pv01 ≠
        GetPV01 "91282CJL6".toList * (samplePosition.GetAggregatePosition : ℚ) := by
  have h1 : samplePosition.GetAggregatePosition = 2 := by decide
  have h2 : GetPV01 "91282CJL6".toList = 1967211 / 100000000 := by
    simp [GetPV01, PV01Map, List.lookup]
  have h3 : (((RiskService.ctor : RiskService Bond Nat).AddPosition samplePosition).1.GetData
      "91282CJL6".toList).1.pv01 = GetPV01 "91282CJL6".toList := by
    simp [RiskService.AddPosition, RiskService.GetData, StdMap.index, StdMap.assign,
      samplePosition, sampleBond, Product.GetProductId]
  refine ⟨h1, h2, by rw [h3, h2], ?_⟩
  rw [h3, h2, h1]
  norm_num

/-- C15, amended. After `RiskService::AddPosition(position)` for an instrument with identifier
`id`, the record on file for `id` carries the position's product, `GetPV01()` equal to the
reference sensitivity `GetPV01(id)` (per unit, not multiplied), and `GetQuantity()` equal to the
position's aggregate quantity; so the product of the two is the sensitivity multiplied by the
aggregate quantity.  Every listener receives this record once. -/
theorem AddPosition_record {T L : Type} [Product T] [Inhabited T] (s : RiskService T L)
    (position : Position T) :
    ((s.AddPosition position).1.GetData (Product.GetProductId position.product)).1 =
        ⟨position.product, GetPV01 (Product.GetProductId position.product),
          position.GetAggregatePosition⟩ ∧
      (s.AddPosition position).1.pv01Of (Product.GetProductId position.product) =
        GetPV01 (Product.GetProductId position.product) ∧
      (s.AddPosition position).1.quantityOf (Product.GetProductId position.product) =
        position.GetAggregatePosition ∧
      (s.AddPosition position).1.pv01Of (Product.GetProductId position.product) *
          ((s.AddPosition position).1.quantityOf (Product.GetProductId position.product) : ℚ) =
        GetPV01 (Product.GetProductId position.product) *
          (position.GetAggregatePosition : ℚ) ∧
      (s.AddPosition position).2 =
        s.listeners.map (fun l => (l, (⟨position.product,
          GetPV01 (Product.GetProductId position.product),
          position.GetAggregatePosition⟩ : PV01 T))) := by
  have h : ((s.AddPosition position).1.GetData (Product.GetProductId position.product)).1 =
      ⟨position.product, GetPV01 (Product.GetProductId position.product),
        position.GetAggregatePosition⟩ := by
    simp [RiskService.AddPosition, RiskService.GetData, StdMap.index, StdMap.assign]
  refine ⟨h, ?_, ?_, ?_, rfl⟩
  · rw [RiskService.pv01Of, h]
  · rw [RiskService.quantityOf, h]
  · rw [RiskService.pv01Of, RiskService.quantityOf, h]

theorem index_value {V : Type} [Inhabited V] (m : StdMap V) (key : List Char) :
    (m.index key).1 = (m key).getD default := by
  unfold StdMap.index
  cases h : m key <;> rfl

theorem index_keeps_values {V : Type} [Inhabited V] (m : StdMap V) (key k : List Char) :
    ((m.index key).2 k).getD default = (m k).getD default := by
  unfold StdMap.index
  cases h : m key with
  | some v => rfl
  | none =>
    by_cases hk : k = key
    · subst hk
      simp [StdMap.assign, h]
    · simp [StdMap.assign, hk]

/-- One turn of the loop of `GetBucketedRisk` in terms of the values on file. -/
theorem bucketStep_spec {T : Type} [Product T] [Inhabited T] (st : StdMap (PV01 T) × ℚ) (p : T) :
    (bucketStep st p).2 =
        st.2 + ((st.1 (Product.GetProductId p)).getD default).pv01 *
          longToDouble ((st.1 (Product.GetProductId p)).getD default).quantity ∧
      ∀ k, ((bucketStep st p).1 k).getD default = (st.1 k).getD default := by
  constructor
  · simp only [bucketStep, index_value, index_keeps_values]
  · intro k
    simp only [bucketStep, index_keeps_values]

theorem bucketFold_spec {T : Type} [Product T] [Inhabited T] (products : List T) :
    ∀ (m0 : StdMap (PV01 T)) (st : StdMap (PV01 T) × ℚ),
      (∀ k, (st.1 k).getD default = (m0 k).getD default) →
      (products.foldl bucketStep st).2 =
        st.2 + (products.map (fun p => ((m0 (Product.GetProductId p)).getD default).pv01 *
          longToDouble ((m0 (Product.GetProductId p)).getD default).quantity)).sum := by
  induction products with
  | nil => intro m0 st _; simp
  | cons p rest ih =>
    intro m0 st hst
    obtain ⟨h1, h2⟩ := bucketStep_spec st p
    have hnext : ∀ k, ((bucketStep st p).1 k).getD default = (m0 k).getD default := by
      intro k
      rw [h2 k, hst k]
    rw [List.foldl_cons, ih m0 (bucketStep st p) hnext, h1, hst]
    simp only [List.map_cons, List.sum_cons]
    ring

/-- The value `GetBucketedRisk` computes: the sum over the sector's products, in list order, of
the PV01 value on file times the quantity on file converted to `double`. -/
theorem GetBucketedRisk_eq {T L : Type} [Product T] [Inhabited T] (s : RiskService T L)
    (sector : BucketedSector T) :
    (s.GetBucketedRisk sector).2 =
      ⟨sector, (sector.products.map (fun p => s.pv01Of (Product.GetProductId p) *
        longToDouble (s.quantityOf (Product.GetProductId p)))).sum, 1⟩ := by
  have h := bucketFold_spec sector.products s.pv01s (s.pv01s, 0) (fun _ => rfl)
  simp only [RiskService.GetBucketedRisk, h, zero_add, RiskService.pv01Of,
    RiskService.quantityOf, RiskService.GetData, index_value]

/-- The example of the specification: the bucket PV01 is 0.02 x 1,000,000 + 0.03 x 2,000,000 =
80,000. -/
theorem GetBucketedRisk_sample : (sampleRisk.GetBucketedRisk sampleSector).2.pv01 = 80000 := by
  have h1 : sampleRisk.pv01Of "91282CJL6".toList = 1 / 50 := by
    simp [sampleRisk, RiskService.pv01Of, RiskService.GetData, RiskService.OnMessage,
      RiskService.ctor, StdMap.index, StdMap.assign, sampleBond, sampleBond3Y,
      Product.GetProductId]
  have h2 : sampleRisk.quantityOf "91282CJL6".toList = 1000000 := by
    simp [sampleRisk, RiskService.quantityOf, RiskService.GetData, RiskService.OnMessage,
      RiskService.ctor, StdMap.index, StdMap.assign, sampleBond, sampleBond3Y,
      Product.GetProductId]
  have h3 : sampleRisk.pv01Of "91282CHY0".toList = 3 / 100 := by
    simp [sampleRisk, RiskService.pv01Of, RiskService.GetData, RiskService.OnMessage,
      RiskService.ctor, StdMap.index, StdMap.assign, sampleBond, sampleBond3Y,
      Product.GetProductId]
  have h4 : sampleRisk.quantityOf "91282CHY0".toList = 2000000 := by
    simp [sampleRisk, RiskService.quantityOf, RiskService.GetData, RiskService.OnMessage,
      RiskService.ctor, StdMap.index, StdMap.assign, sampleBond, sampleBond3Y,
      Product.GetProductId]
  have hid1 : Product.GetProductId sampleBond = "91282CJL6".toList := rfl
  have hid2 : Product.GetProductId sampleBond3Y = "91282CHY0".toList := rfl
  have hr1 : roundLong53 1000000 = 1000000 := by decide
  have hr2 : roundLong53 2000000 = 2000000 := by decide
  rw [GetBucketedRisk_eq]
  simp only [sampleSector, List.map_cons, List.map_nil, List.sum_cons, List.sum_nil, hid1, hid2,
    h1, h2, h3, h4, longToDouble, hr1, hr2]
  norm_num

/-! ### Inquiries -/

/-- `OnMessage` on an inquiry in state QUOTED: no connector call, the inquiry becomes DONE, is
stored and sent to the listeners. -/
theorem OnMessage_quoted {T L : Type} (s : InquiryService T L) (inquiry : Inquiry T)
    (h : inquiry.state = InquiryState.QUOTED) :
    InquiryService.OnMessage s inquiry =
      ⟨{ s with
          inquiries := s.inquiries.assign inquiry.inquiryId (inquiry.SetState InquiryState.DONE) },
        inquiry.SetState InquiryState.DONE,
        s.listeners.map (fun listener => (listener, inquiry.SetState InquiryState.DONE)),
        []⟩ := by
  rw [InquiryService.OnMessage]
  simp [h, Inquiry.SetState]

/-- `Publish` on an inquiry in state RECEIVED hands the QUOTED copy to `OnMessage`. -/
theorem Publish_received {T L : Type} (s : InquiryService T L) (inquiry : Inquiry T)
    (h : inquiry.state = InquiryState.RECEIVED) :
    InquiryConnector.Publish s inquiry =
      InquiryService.OnMessage s (inquiry.SetState InquiryState.QUOTED) := by
  rw [InquiryConnector.Publish]
  simp only [h, dite_true]
  rw [InquiryConnector.Subscribe]

/-- `OnMessage` on an inquiry in state RECEIVED: store, then the connector. -/
theorem OnMessage_received {T L : Type} (s : InquiryService T L) (inquiry : Inquiry T)
    (h : inquiry.state = InquiryState.RECEIVED) :
    InquiryService.OnMessage s inquiry =
      { InquiryConnector.Publish
          { s with inquiries := s.inquiries.assign inquiry.inquiryId inquiry } inquiry with
        published := inquiry :: (InquiryConnector.Publish
          { s with inquiries := s.inquiries.assign inquiry.inquiryId inquiry }
          inquiry).published } := by
  rw [InquiryService.OnMessage]
  simp [h]

/-- `OnMessage` on an inquiry that is neither RECEIVED nor QUOTED does nothing. -/
theorem OnMessage_other {T L : Type} (s : InquiryService T L) (inquiry : Inquiry T)
    (h1 : inquiry.state ≠ InquiryState.RECEIVED) (h2 : inquiry.state ≠ InquiryState.QUOTED) :
    InquiryService.OnMessage s inquiry = ⟨s, inquiry, [], []⟩ := by
  rw [InquiryService.OnMessage]
  simp [h1, h2]

/-- The whole effect of `OnMessage` on an inquiry in state RECEIVED. -/
theorem OnMessage_received_eq {T L : Type} (s : InquiryService T L) (inquiry : Inquiry T)
    (h : inquiry.state = InquiryState.RECEIVED) :
    InquiryService.OnMessage s inquiry =
      ⟨{ s with
          inquiries := s.inquiries.assign inquiry.inquiryId (inquiry.SetState InquiryState.DONE) },
        inquiry.SetState InquiryState.DONE,
        s.listeners.map (fun listener => (listener, inquiry.SetState InquiryState.DONE)),
        [inquiry]⟩ := by
  have hq : (inquiry.SetState InquiryState.QUOTED).state = InquiryState.QUOTED := rfl
  rw [OnMessage_received s inquiry h, Publish_received _ inquiry h, OnMessage_quoted _ _ hq]
  simp only [Inquiry.SetState, assign_assign]

/-- C17. For an inquiry submitted in state RECEIVED, one call of `OnMessage` stores it, hands it
once to `Publish` (which passes the QUOTED copy back to `OnMessage`), and on return the inquiry
on file under its id is the submitted one with state DONE (id, product, side, quantity and price
as submitted), no other key of the store has changed, and every registered listener has been
called exactly once, with the inquiry in state DONE. -/
theorem OnMessage_round_trip {T L : Type} (s : InquiryService T L) (inquiry : Inquiry T)
    (h : inquiry.state = InquiryState.RECEIVED) :
    (InquiryService.OnMessage s inquiry).published = [inquiry] ∧
      InquiryConnector.Publish
          { s with inquiries := s.inquiries.assign inquiry.inquiryId inquiry } inquiry =
        InquiryService.OnMessage
          { s with inquiries := s.inquiries.assign inquiry.inquiryId inquiry }
          (inquiry.SetState InquiryState.QUOTED) ∧
      (InquiryService.OnMessage s inquiry).service.inquiries =
        s.inquiries.assign inquiry.inquiryId (inquiry.SetState InquiryState.DONE) ∧
      (InquiryService.OnMessage s inquiry).service.inquiries inquiry.inquiryId =
        some ⟨inquiry.inquiryId, inquiry.product, inquiry.side, inquiry.quantity, inquiry.price,
          InquiryState.DONE⟩ ∧
      (InquiryService.OnMessage s inquiry).service.listeners = s.listeners ∧
      (InquiryService.OnMessage s inquiry).calls =
        s.listeners.map (fun listener => (listener, inquiry.SetState InquiryState.DONE)) ∧
      (InquiryService.OnMessage s inquiry).inquiry = inquiry.SetState InquiryState.DONE := by
  rw [OnMessage_received_eq s inquiry h]
  refine ⟨rfl, Publish_received _ inquiry h, rfl, ?_, rfl, rfl, rfl⟩
  simp [StdMap.assign, Inquiry.SetState]

/-- Witness for C17: the sample inquiry in state RECEIVED, two listeners. -/
theorem OnMessage_round_trip_witness :
    (sampleInquiry InquiryState.RECEIVED).state = InquiryState.RECEIVED ∧
      (InquiryService.OnMessage sampleInquiryService
        (sampleInquiry InquiryState.RECEIVED)).service.inquiries "INQ1".toList =
        some (sampleInquiry InquiryState.DONE) ∧
      (InquiryService.OnMessage sampleInquiryService
        (sampleInquiry InquiryState.RECEIVED)).calls =
        [(1, sampleInquiry InquiryState.DONE), (2, sampleInquiry InquiryState.DONE)] :=
  ⟨rfl,
    (OnMessage_round_trip sampleInquiryService (sampleInquiry InquiryState.RECEIVED) rfl).2.2.2.1,
    (OnMessage_round_trip sampleInquiryService
      (sampleInquiry InquiryState.RECEIVED) rfl).2.2.2.2.2.1⟩

/-- C18. For an inquiry received by `OnMessage` in state QUOTED, the inquiry is set to DONE,
stored under its inquiry id in state DONE (no other key changes), and every registered listener
is called exactly once with it; `Publish` is not called. -/
theorem OnMessage_quoted_to_done {T L : Type} (s : InquiryService T L) (inquiry : Inquiry T)
    (h : inquiry.state = InquiryState.QUOTED) :
    (InquiryService.OnMessage s inquiry).inquiry = inquiry.SetState InquiryState.DONE ∧
      (inquiry.SetState InquiryState.DONE).state = InquiryState.DONE ∧
      (InquiryService.OnMessage s inquiry).service.inquiries =
        s.inquiries.assign inquiry.inquiryId (inquiry.SetState InquiryState.DONE) ∧
      (InquiryService.OnMessage s inquiry).service.inquiries inquiry.inquiryId =
        some (inquiry.SetState InquiryState.DONE) ∧
      (InquiryService.OnMessage s inquiry).service.listeners = s.listeners ∧
      (InquiryService.OnMessage s inquiry).calls =
        s.listeners.map (fun listener => (listener, inquiry.SetState InquiryState.DONE)) ∧
      (InquiryService.OnMessage s inquiry).published = [] := by
  rw [OnMessage_quoted s inquiry h]
  refine ⟨rfl, rfl, rfl, ?_, rfl, rfl, rfl⟩
  simp [StdMap.assign]

/-- Witness for C18: the sample inquiry in state QUOTED, two listeners. -/
theorem OnMessage_quoted_to_done_witness :
    (sampleInquiry InquiryState.QUOTED).state = InquiryState.QUOTED ∧
      (InquiryService.OnMessage sampleInquiryService
        (sampleInquiry InquiryState.QUOTED)).service.inquiries "INQ1".toList =
        some (sampleInquiry InquiryState.DONE) ∧
      (InquiryService.OnMessage sampleInquiryService
        (sampleInquiry InquiryState.QUOTED)).calls =
        [(1, sampleInquiry InquiryState.DONE), (2, sampleInquiry InquiryState.DONE)] ∧
      (InquiryService.OnMessage sampleInquiryService
        (sampleInquiry InquiryState.QUOTED)).published = [] :=
  ⟨rfl,
    (OnMessage_quoted_to_done sampleInquiryService
      (sampleInquiry InquiryState.QUOTED) rfl).2.2.2.1,
    (OnMessage_quoted_to_done sampleInquiryService
      (sampleInquiry InquiryState.QUOTED) rfl).2.2.2.2.2.1,
    (OnMessage_quoted_to_done sampleInquiryService
      (sampleInquiry InquiryState.QUOTED) rfl).2.2.2.2.2.2⟩

/-- C19. For an inquiry received by `OnMessage` in state DONE, REJECTED or CUSTOMER_REJECTED,
the service (store and listeners) is unchanged, the inquiry is unchanged, no listener is called
and `Publish` is not called. -/
theorem OnMessage_terminal {T L : Type} (s : InquiryService T L) (inquiry : Inquiry T)
    (h : inquiry.state = InquiryState.DONE ∨ inquiry.state = InquiryState.REJECTED ∨
      inquiry.state = InquiryState.CUSTOMER_REJECTED) :
    (InquiryService.OnMessage s inquiry).service = s ∧
      (InquiryService.OnMessage s inquiry).inquiry = inquiry ∧
      (InquiryService.OnMessage s inquiry).calls = [] ∧
      (InquiryService.OnMessage s inquiry).published = [] := by
  have h1 : inquiry.state ≠ InquiryState.RECEIVED := by
    rcases h with h | h | h <;> rw [h] <;> decide
  have h2 : inquiry.state ≠ InquiryState.QUOTED := by
    rcases h with h | h | h <;> rw [h] <;> decide
  rw [OnMessage_other s inquiry h1 h2]
  exact ⟨rfl, rfl, rfl, rfl⟩

/-- Witness for C19: the sample inquiry in state REJECTED, two listeners. -/
theorem OnMessage_terminal_witness :
    (InquiryService.OnMessage sampleInquiryService
        (sampleInquiry InquiryState.REJECTED)).service = sampleInquiryService ∧
      (InquiryService.OnMessage sampleInquiryService
        (sampleInquiry InquiryState.REJECTED)).inquiry = sampleInquiry InquiryState.REJECTED ∧
      (InquiryService.OnMessage sampleInquiryService
        (sampleInquiry InquiryState.REJECTED)).calls = [] ∧
      (InquiryService.OnMessage sampleInquiryService
        (sampleInquiry InquiryState.REJECTED)).published = [] :=
  OnMessage_terminal sampleInquiryService (sampleInquiry InquiryState.REJECTED)
    (Or.inr (Or.inl rfl))

/-! ### Keyed stores -/

theorem index_assign {V : Type} [Inhabited V] (m : StdMap V) (key : List Char) (r : V) :
    (m.assign key r).index key = (r, m.assign key r) := by
  simp [StdMap.index, StdMap.assign]

/-- C20, counterexample. `InquiryService::OnMessage` with an inquiry in state DONE on an empty
service stores nothing: no inquiry is on file under its id afterwards, and `GetData` of that id
returns an inquiry which is not the one sent (a fresh one, with an empty id). -/
theorem InquiryService_OnMessage_not_upsert :
    (InquiryService.OnMessage (InquiryService.ctor : InquiryService Bond Nat)
        (sampleInquiry InquiryState.DONE)).service.inquiries "INQ1".toList = none ∧
      (InquiryService.OnMessage (InquiryService.ctor : InquiryService Bond Nat)
        (sampleInquiry InquiryState.DONE)).service.inquiries ≠
        (InquiryService.ctor : InquiryService Bond Nat).inquiries.assign "INQ1".toList
          (sampleInquiry InquiryState.DONE) ∧
      (((InquiryService.OnMessage (InquiryService.ctor : InquiryService Bond Nat)
        (sampleInquiry InquiryState.DONE)).service.GetData "INQ1".toList).1).inquiryId = [] ∧
      ((InquiryService.OnMessage (InquiryService.ctor : InquiryService Bond Nat)
        (sampleInquiry InquiryState.DONE)).service.GetData "INQ1".toList).1 ≠
        sampleInquiry InquiryState.DONE := by
  have h : InquiryService.OnMessage (InquiryService.ctor : InquiryService Bond Nat)
      (sampleInquiry InquiryState.DONE) =
      ⟨InquiryService.ctor, sampleInquiry InquiryState.DONE, [], []⟩ :=
    OnMessage_other _ _ (by decide) (by decide)
  rw [h]
  refine ⟨rfl, ?_, rfl, ?_⟩
  · intro hEq
    have := congrFun hEq "INQ1".toList
    simp [InquiryService.ctor, StdMap.empty, StdMap.assign] at this
  · intro hEq
    have := congrArg Inquiry.inquiryId hEq
    simp [InquiryService.GetData, InquiryService.ctor, StdMap.index, StdMap.empty, default,
      sampleInquiry] at this

/-- C20, amended. `OnMessage` is an overwrite-in-place upsert for the stores of PricingService,
MarketDataService, TradeBookingService, PositionService, RiskService, ExecutionService,
StreamingService, HistoricalDataService and GUIService, and for those of AlgoExecutionService
and AlgoStreamingService when the record points to an order or a stream: the store after
`OnMessage(r)` is the store before with the key of `r` mapped to `r` and every other key
unchanged.  The store of InquiryService is not among them. -/
theorem OnMessage_upserts {T L V : Type} [Product T] [Archived V]
    (pricing : PricingService T L) (price : Price T)
    (market : MarketDataService T L) (book : OrderBook T)
    (booking : TradeBookingService T L) (trade : Trade T)
    (positions : PositionService T L) (position : Position T)
    (risk : RiskService T L) (pv01 : PV01 T)
    (execution : ExecutionService T L) (order : ExecutionOrder T)
    (streaming : StreamingService T L) (stream : PriceStream T)
    (historical : HistoricalDataService V L) (record : V)
    (gui : GUIService T L) (clock : Int)
    (algoExecution : AlgoExecutionService T L) (algoStreaming : AlgoStreamingService T L) :
    (pricing.OnMessage price).1.prices =
        pricing.prices.assign (Product.GetProductId price.product) price ∧
      (market.OnMessage book).1.orderBooks =
        market.orderBooks.assign (Product.GetProductId book.product) book ∧
      (booking.OnMessage trade).1.trades = booking.trades.assign trade.tradeId trade ∧
      (positions.OnMessage position).positions =
        positions.positions.assign (Product.GetProductId position.product) position ∧
      (risk.OnMessage pv01).pv01s = risk.pv01s.assign (Product.GetProductId pv01.product) pv01 ∧
      (execution.OnMessage order).executionOrders =
        execution.executionOrders.assign (Product.GetProductId order.product) order ∧
      (streaming.OnMessage stream).priceStreams =
        streaming.priceStreams.assign (Product.GetProductId stream.product) stream ∧
      (historical.OnMessage record).historicalDatas =
        historical.historicalDatas.assign (Archived.productId record) record ∧
      (gui.OnMessage price clock).1.GUIs =
        gui.GUIs.assign (Product.GetProductId price.product) price ∧
      (algoExecution.OnMessage ⟨some order⟩).map (fun s => s.algoExecutions) =
        some (algoExecution.algoExecutions.assign (Product.GetProductId order.product)
          ⟨some order⟩) ∧
      (algoStreaming.OnMessage ⟨some stream⟩).map (fun s => s.algoStreams) =
        some (algoStreaming.algoStreams.assign (Product.GetProductId stream.product)
          ⟨some stream⟩) ∧
      (∀ (W : Type) (m : StdMap W) (key : List Char) (r : W) (k : List Char),
        (m.assign key r) k = if k = key then some r else m k) := by
  refine ⟨rfl, rfl, rfl, rfl, rfl, rfl, rfl, rfl, ?_, rfl, rfl, ?_⟩
  · simp only [GUIService.OnMessage, GUIConnector.Publish]
    split <;> rfl
  · intro W m key r k
    rfl

/-- What follows from C20 for the same stores: after `OnMessage(r)`, `GetData` of the key of
`r` returns `r`, and a second `OnMessage(r)` leaves the store as the first one left it. -/
theorem OnMessage_then_GetData {T L V : Type} [Product T] [Inhabited T] [Archived V]
    [Inhabited V]
    (pricing : PricingService T L) (price : Price T)
    (market : MarketDataService T L) (book : OrderBook T)
    (booking : TradeBookingService T L) (trade : Trade T)
    (positions : PositionService T L) (position : Position T)
    (risk : RiskService T L) (pv01 : PV01 T)
    (execution : ExecutionService T L) (order : ExecutionOrder T)
    (streaming : StreamingService T L) (stream : PriceStream T)
    (historical : HistoricalDataService V L) (record : V)
    (gui : GUIService T L) (clock clock2 : Int) :
    (((pricing.OnMessage price).1.GetData (Product.GetProductId price.product)).1 = price ∧
        ((pricing.OnMessage price).1.OnMessage price).1 = (pricing.OnMessage price).1) ∧
      (((market.OnMessage book).1.GetData (Product.GetProductId book.product)).1 = book ∧
        ((market.OnMessage book).1.OnMessage book).1 = (market.OnMessage book).1) ∧
      (((booking.OnMessage trade).1.GetData trade.tradeId).1 = trade ∧
        ((booking.OnMessage trade).1.OnMessage trade).1 = (booking.OnMessage trade).1) ∧
      (((positions.OnMessage position).GetData (Product.GetProductId position.product)).1 =
          position ∧
        (positions.OnMessage position).OnMessage position = positions.OnMessage position) ∧
      (((risk.OnMessage pv01).GetData (Product.GetProductId pv01.product)).1 = pv01 ∧
        (risk.OnMessage pv01).OnMessage pv01 = risk.OnMessage pv01) ∧
      (((execution.OnMessage order).GetData (Product.GetProductId order.product)).1 = order ∧
        (execution.OnMessage order).OnMessage order = execution.OnMessage order) ∧
      (((streaming.OnMessage stream).GetData (Product.GetProductId stream.product)).1 = stream ∧
        (streaming.OnMessage stream).OnMessage stream = streaming.OnMessage stream) ∧
      (((historical.OnMessage record).GetData (Archived.productId record)).1 = record ∧
        (historical.OnMessage record).OnMessage record = historical.OnMessage record) ∧
      (((gui.OnMessage price clock).1.GetData (Product.GetProductId price.product)).1 = price ∧
        ((gui.OnMessage price clock).1.OnMessage price clock2).1.GUIs =
          (gui.OnMessage price clock).1.GUIs) := by
  have hgui : ∀ (g : GUIService T L) (c : Int), (g.OnMessage price c).1.GUIs =
      g.GUIs.assign (Product.GetProductId price.product) price := by
    intro g c
    simp only [GUIService.OnMessage, GUIConnector.Publish]
    split <;> rfl
  refine ⟨⟨?_, ?_⟩, ⟨?_, ?_⟩, ⟨?_, ?_⟩, ⟨?_, ?_⟩, ⟨?_, ?_⟩, ⟨?_, ?_⟩, ⟨?_, ?_⟩, ⟨?_, ?_⟩,
    ⟨?_, ?_⟩⟩
  · simp [PricingService.OnMessage, PricingService.GetData, index_assign]
  · simp [PricingService.OnMessage, assign_assign]
  · simp [MarketDataService.OnMessage, MarketDataService.GetData, index_assign]
  · simp [MarketDataService.OnMessage, assign_assign]
  · simp [TradeBookingService.OnMessage, TradeBookingService.GetData, index_assign]
  · simp [TradeBookingService.OnMessage, assign_assign]
  · simp [PositionService.OnMessage, PositionService.GetData, index_assign]
  · simp [PositionService.OnMessage, assign_assign]
  · simp [RiskService.OnMessage, RiskService.GetData, index_assign]
  · simp [RiskService.OnMessage, assign_assign]
  · simp [ExecutionService.OnMessage, ExecutionService.GetData, index_assign]
  · simp [ExecutionService.OnMessage, assign_assign]
  · simp [StreamingService.OnMessage, StreamingService.GetData, index_assign]
  · simp [StreamingService.OnMessage, assign_assign]
  · simp [HistoricalDataService.OnMessage, HistoricalDataService.GetData, index_assign]
  · simp [HistoricalDataService.OnMessage, assign_assign]
  · simp [GUIService.GetData, hgui, index_assign]
  · rw [hgui, hgui, assign_assign]

/-! ### Listener lists and keyed reads -/

/-- C21. `AddListener` appends the listener at the end of the listener list and leaves the
earlier entries and the store unchanged (`GetListeners` afterwards is the previous list followed
by the new listener); `PricingService::OnMessage` and `MarketDataService::OnMessage` upsert the
record and call `ProcessAdd` with that record once per entry of the listener list, in list
order, so that after registering `ls` on a new service the calls are those of `ls` in
registration order. -/
theorem OnMessage_notifies_in_order {T L : Type} [Product T] (pricing : PricingService T L)
    (market : MarketDataService T L) (l : L) (ls : List L) (price : Price T)
    (book : OrderBook T) :
    ((pricing.AddListener l).GetListeners = pricing.GetListeners ++ [l] ∧
        (pricing.AddListener l).prices = pricing.prices) ∧
      ((market.AddListener l).GetListeners = market.GetListeners ++ [l] ∧
        (market.AddListener l).orderBooks = market.orderBooks ∧
        (market.AddListener l).bookDepth = market.bookDepth) ∧
      ((pricing.OnMessage price).1.prices =
          pricing.prices.assign (Product.GetProductId price.product) price ∧
        (pricing.OnMessage price).1.GetListeners = pricing.GetListeners ∧
        (pricing.OnMessage price).2 =
          pricing.GetListeners.map (fun listener => (listener, price))) ∧
      ((market.OnMessage book).1.orderBooks =
          market.orderBooks.assign (Product.GetProductId book.product) book ∧
        (market.OnMessage book).1.GetListeners = market.GetListeners ∧
        (market.OnMessage book).2 =
          market.GetListeners.map (fun listener => (listener, book))) ∧
      ((ls.foldl PricingService.AddListener (PricingService.ctor : PricingService T L)).OnMessage
          price).2 = ls.map (fun listener => (listener, price)) ∧
      ((ls.foldl MarketDataService.AddListener
          (MarketDataService.ctor : MarketDataService T L)).OnMessage book).2 =
        ls.map (fun listener => (listener, book)) := by
  have hp : ∀ (xs : List L) (s : PricingService T L),
      (xs.foldl PricingService.AddListener s).listeners = s.listeners ++ xs := by
    intro xs
    induction xs with
    | nil => intro s; simp
    | cons x rest ih =>
      intro s
      rw [List.foldl_cons, ih]
      simp [PricingService.AddListener]
  have hm : ∀ (xs : List L) (s : MarketDataService T L),
      (xs.foldl MarketDataService.AddListener s).listeners = s.listeners ++ xs := by
    intro xs
    induction xs with
    | nil => intro s; simp
    | cons x rest ih =>
      intro s
      rw [List.foldl_cons, ih]
      simp [MarketDataService.AddListener]
  refine ⟨⟨rfl, rfl⟩, ⟨rfl, rfl, rfl⟩, ⟨rfl, rfl, rfl⟩, ⟨rfl, rfl, rfl⟩, ?_, ?_⟩
  · simp only [PricingService.OnMessage, hp]
    simp [PricingService.ctor]
  · simp only [MarketDataService.OnMessage, hm]
    simp [MarketDataService.ctor]

/-- C22. `OnMessage` of `AlgoExecutionService`, `AlgoStreamingService` and `PositionService`
only stores the record under its product id: the listener list and the counters
(`executionCount`, `pricePublishCount`) and `SPREAD_LIMIT` are as before, and the call yields no
`ProcessAdd` call.  (An `AlgoExecution` or `AlgoStream` that points to no order or stream cannot
be read: no result.) -/
theorem OnMessage_only_upserts {T L : Type} [Product T] (algoExecution : AlgoExecutionService T L)
    (execution : AlgoExecution T) (algoStreaming : AlgoStreamingService T L)
    (stream : AlgoStream T) (positions : PositionService T L) (position : Position T) :
    algoExecution.OnMessage execution =
        execution.executionOrder.map (fun order =>
          ({ algoExecutions :=
              algoExecution.algoExecutions.assign (Product.GetProductId order.product) execution
             listeners := algoExecution.listeners
             SPREAD_LIMIT := algoExecution.SPREAD_LIMIT
             executionCount := algoExecution.executionCount } : AlgoExecutionService T L)) ∧
      algoStreaming.OnMessage stream =
        stream.priceStream.map (fun priceStream =>
          ({ algoStreams :=
              algoStreaming.algoStreams.assign (Product.GetProductId priceStream.product) stream
             listeners := algoStreaming.listeners
             pricePublishCount := algoStreaming.pricePublishCount } :
            AlgoStreamingService T L)) ∧
      positions.OnMessage position =
        ({ positions :=
            positions.positions.assign (Product.GetProductId position.product) position
           listeners := positions.listeners } : PositionService T L) := by
  refine ⟨?_, ?_, rfl⟩
  · cases h : execution.executionOrder <;> simp [AlgoExecutionService.OnMessage, h]
  · cases h : stream.priceStream <;> simp [AlgoStreamingService.OnMessage, h]

/-- C23. `GetData(k)` on a key that was never written returns a record built by the default
constructor (for a price: mid 0 and spread 0; for a position: no book) and leaves `k` in the
store mapped to that record; `GetData` on a key that is present returns the record on file
and leaves the store unchanged.  Shown for `PricingService` and `PositionService`. -/
theorem GetData_absent_key {T L : Type} [Inhabited T] (pricing : PricingService T L)
    (positions : PositionService T L) (k : List Char) :
    (pricing.prices k = none →
        pricing.GetData k = (⟨default, 0, 0⟩, { pricing with
          prices := pricing.prices.assign k ⟨default, 0, 0⟩ }) ∧
        (pricing.GetData k).2.prices k = some ⟨default, 0, 0⟩) ∧
      (∀ price, pricing.prices k = some price → pricing.GetData k = (price, pricing)) ∧
      (positions.positions k = none →
        positions.GetData k = (⟨default, []⟩, { positions with
          positions := positions.positions.assign k ⟨default, []⟩ }) ∧
        (positions.GetData k).2.positions k = some ⟨default, []⟩) ∧
      (∀ position, positions.positions k = some position →
        positions.GetData k = (position, positions)) := by
  refine ⟨?_, ?_, ?_, ?_⟩
  · intro h
    simp [PricingService.GetData, StdMap.index, h, StdMap.assign, default]
  · intro price h
    simp [PricingService.GetData, StdMap.index, h]
  · intro h
    simp [PositionService.GetData, StdMap.index, h, StdMap.assign, default]
  · intro position h
    simp [PositionService.GetData, StdMap.index, h]

/-! ### Reference data -/

theorem mem_of_lookup_eq_some {α β : Type} [BEq α] [LawfulBEq α] (l : List (α × β)) (a : α)
    (b : β) (h : l.lookup a = some b) : (a, b) ∈ l := by
  induction l with
  | nil => simp [List.lookup] at h
  | cons e rest ih =>
    obtain ⟨k, v⟩ := e
    by_cases hk : a = k
    · subst hk
      simp [List.lookup] at h
      simp [h]
    · have hk' : (a == k) = false := by simpa using hk
      simp only [List.lookup, hk'] at h
      exact List.mem_cons_of_mem _ (ih h)

/-- The identifiers for which `RetrieveProduct` finds a bond are those of `bondIdMatMap`. -/
theorem RetrieveProduct_isSome_iff (id : List Char) :
    (RetrieveProduct id).isSome = true ↔ id ∈ bondIdMatMap.map Prod.fst := by
  constructor
  · intro h
    rw [lookup_ne_none_iff_mem_keys]
    cases hl : bondIdMatMap.lookup id with
    | none => simp [RetrieveProduct, hl] at h
    | some mat => exact ⟨mat, rfl⟩
  · intro h
    simp only [bondIdMatMap, List.map_cons, List.map_nil, List.mem_cons, List.mem_singleton,
      List.not_mem_nil, or_false] at h
    rcases h with rfl | rfl | rfl | rfl | rfl | rfl | rfl <;> decide

/-- C24. `RetrieveProduct(id)` succeeds exactly for the seven identifiers of `bondIdMatMap`: for
each of them it returns a bond whose product id is `id` (the maturity found for `id` leads back
to `id` through `FetchCusipId`, and conversely, and a coupon is on file), the seven identifiers
are pairwise distinct and so are their maturities, and for every other identifier the lookup
throws (no result). -/
theorem RetrieveProduct_reference :
    (∀ id, (RetrieveProduct id).isSome = true ↔ id ∈ bondIdMatMap.map Prod.fst) ∧
      (∀ id, id ∉ bondIdMatMap.map Prod.fst → RetrieveProduct id = none) ∧
      (∀ id ∈ bondIdMatMap.map Prod.fst,
        (RetrieveProduct id).map Product.GetProductId = some id ∧
        (bondIdCouponMap.lookup id).isSome = true) ∧
      (∀ id mat, bondIdMatMap.lookup id = some mat ↔ FetchCusipId mat = some id) ∧
      bondIdMatMap.length = 7 ∧
      (bondIdMatMap.map Prod.fst).Nodup ∧
      (bondIdMatMap.map Prod.snd).Nodup := by
  refine ⟨RetrieveProduct_isSome_iff, ?_, ?_, ?_, rfl, by decide, by decide⟩
  · intro id h
    have hn : ¬ (RetrieveProduct id).isSome = true := fun hs =>
      h ((RetrieveProduct_isSome_iff id).1 hs)
    cases hr : RetrieveProduct id with
    | none => rfl
    | some b => simp [hr] at hn
  · intro id h
    simp only [bondIdMatMap, List.map_cons, List.map_nil, List.mem_cons, List.mem_singleton,
      List.not_mem_nil, or_false] at h
    rcases h with rfl | rfl | rfl | rfl | rfl | rfl | rfl <;> exact ⟨by decide, by decide⟩
  · intro id mat
    constructor
    · intro h
      have hm := mem_of_lookup_eq_some _ _ _ h
      simp only [bondIdMatMap, List.mem_cons, List.mem_singleton, List.not_mem_nil, or_false,
        Prod.mk.injEq] at hm
      rcases hm with ⟨rfl, rfl⟩ | ⟨rfl, rfl⟩ | ⟨rfl, rfl⟩ | ⟨rfl, rfl⟩ | ⟨rfl, rfl⟩ |
        ⟨rfl, rfl⟩ | ⟨rfl, rfl⟩ <;> decide
    · intro h
      cases hl : bondMap.lookup mat with
      | none => simp [FetchCusipId, hl] at h
      | some entry =>
        have hm := mem_of_lookup_eq_some _ _ _ hl
        have he : entry.1 = id := by simpa [FetchCusipId, hl] using h
        subst he
        simp only [bondMap, List.mem_cons, List.mem_singleton, List.not_mem_nil, or_false,
          Prod.mk.injEq] at hm
        rcases hm with ⟨rfl, rfl⟩ | ⟨rfl, rfl⟩ | ⟨rfl, rfl⟩ | ⟨rfl, rfl⟩ | ⟨rfl, rfl⟩ |
          ⟨rfl, rfl⟩ | ⟨rfl, rfl⟩ <;> decide

/-- The bond `RetrieveProduct` builds for 91282CJL6. -/
theorem RetrieveProduct_sampleBond : RetrieveProduct "91282CJL6".toList = some sampleBond := by
  rfl

/-! ### Booking executions -/

/-- The effect of `TradeBookingToExecutionListener::ProcessAdd`, with the trade it builds. -/
theorem ProcessAdd_eq {T L : Type} (self : TradeBookingToExecutionListener)
    (service : TradeBookingService T L) (e : ExecutionOrder T) :
    self.ProcessAdd service e =
      (⟨self.tradeBookCount + 1⟩,
        { service with trades := service.trades.assign e.orderId (self.tradeOf e) },
        service.listeners.map (fun l => (l, self.tradeOf e)) ++
          service.listeners.map (fun l => (l, self.tradeOf e))) := by
  rfl

/-- The booking counter after a run of execution orders. -/
theorem processAll_count {T L : Type} (orders : List (ExecutionOrder T)) :
    ∀ (self : TradeBookingToExecutionListener) (service : TradeBookingService T L),
      (self.processAll service orders).1.tradeBookCount =
        self.tradeBookCount + (orders.length : Int) := by
  induction orders with
  | nil => intro self service; simp [TradeBookingToExecutionListener.processAll]
  | cons e rest ih =>
    intro self service
    have h := ih (self.ProcessAdd service e).1 (self.ProcessAdd service e).2.1
    simp only [TradeBookingToExecutionListener.processAll, List.foldl_cons] at h ⊢
    rw [h, ProcessAdd_eq]
    simp only [List.length_cons, Nat.cast_add, Nat.cast_one]
    ring

/-- The book of the trade built when the counter stands at `n - 1`, for `n` in the range of a
`long`. -/
theorem book_of_count (n : Nat) (hn : n ≤ 9223372036854775807) :
    marketVector.getD ((((n : Int)) % 18446744073709551616) %
      (marketVector.length : Int)).toNat [] = marketVector.getD (n % 3) [] := by
  have h : ((((n : Int)) % 18446744073709551616) % (marketVector.length : Int)).toNat = n % 3 := by
    have hl : (marketVector.length : Int) = 3 := rfl
    have hm : (n : Int) % 18446744073709551616 = (n : Int) :=
      Int.emod_eq_of_lt (by omega) (by omega)
    rw [hl, hm]
    omega
  rw [h]

/-- The trade on file after the order number `earlier.length + 1` has been processed. -/
theorem book_after {T L : Type} (service : TradeBookingService T L)
    (earlier : List (ExecutionOrder T)) (e : ExecutionOrder T)
    (hn : earlier.length + 1 ≤ 9223372036854775807) :
    ((TradeBookingToExecutionListener.ctor.processAll service earlier).1.ProcessAdd
        (TradeBookingToExecutionListener.ctor.processAll service earlier).2 e).2.1.trades
        e.orderId =
      some ⟨e.product, e.orderId, e.price, marketVector.getD ((earlier.length + 1) % 3) [],
        e.visibleQuantity + e.GetHiddenQuantity,
        if e.side = PricingSide.BID then Side.SELL else Side.BUY⟩ := by
  have hc : (TradeBookingToExecutionListener.ctor.processAll service earlier).1.tradeBookCount +
      1 = ((earlier.length + 1 : Nat) : Int) := by
    rw [processAll_count]
    simp [TradeBookingToExecutionListener.ctor]
  rw [ProcessAdd_eq]
  simp only [StdMap.assign, if_true, TradeBookingToExecutionListener.tradeOf, hc,
    book_of_count _ hn]

theorem processAll_append {T L : Type} (self : TradeBookingToExecutionListener)
    (service : TradeBookingService T L) (earlier : List (ExecutionOrder T))
    (e : ExecutionOrder T) :
    self.processAll service (earlier ++ [e]) =
      (((self.processAll service earlier).1.ProcessAdd (self.processAll service earlier).2 e).1,
        ((self.processAll service earlier).1.ProcessAdd
          (self.processAll service earlier).2 e).2.1) := by
  simp [TradeBookingToExecutionListener.processAll, List.foldl_append]

theorem books_distinct (n : Nat) :
    marketVector.getD ((n + 1) % 3) [] ≠ marketVector.getD ((n + 2) % 3) [] ∧
      marketVector.getD ((n + 2) % 3) [] ≠ marketVector.getD ((n + 3) % 3) [] ∧
      marketVector.getD ((n + 1) % 3) [] ≠ marketVector.getD ((n + 3) % 3) [] := by
  have h : n % 3 = 0 ∨ n % 3 = 1 ∨ n % 3 = 2 := by omega
  rcases h with h | h | h
  · have h1 : (n + 1) % 3 = 1 := by omega
    have h2 : (n + 2) % 3 = 2 := by omega
    have h3 : (n + 3) % 3 = 0 := by omega
    rw [h1, h2, h3]
    decide
  · have h1 : (n + 1) % 3 = 2 := by omega
    have h2 : (n + 2) % 3 = 0 := by omega
    have h3 : (n + 3) % 3 = 1 := by omega
    rw [h1, h2, h3]
    decide
  · have h1 : (n + 1) % 3 = 0 := by omega
    have h2 : (n + 2) % 3 = 1 := by omega
    have h3 : (n + 3) % 3 = 2 := by omega
    rw [h1, h2, h3]
    decide

/-- C26. Starting from a new `TradeBookingToExecutionListener`, the execution order number `n`
(`n = earlier.length + 1`, counted from 1, within the range of the `long` counter) is booked to
the book at index `n mod 3` of `[TRSY1, TRSY2, TRSY3]`, and the three orders number `n`, `n + 1`
and `n + 2` go to three distinct books. -/
theorem ProcessAdd_rotates_books {T L : Type} (service : TradeBookingService T L)
    (earlier : List (ExecutionOrder T)) (e1 e2 e3 : ExecutionOrder T)
    (hrange : earlier.length + 3 ≤ 9223372036854775807) :
    ∃ t1 t2 t3 : Trade T,
      ((TradeBookingToExecutionListener.ctor.processAll service earlier).1.ProcessAdd
        (TradeBookingToExecutionListener.ctor.processAll service earlier).2 e1).2.1.trades
        e1.orderId = some t1 ∧
      ((TradeBookingToExecutionListener.ctor.processAll service (earlier ++ [e1])).1.ProcessAdd
        (TradeBookingToExecutionListener.ctor.processAll service (earlier ++ [e1])).2
        e2).2.1.trades e2.orderId = some t2 ∧
      ((TradeBookingToExecutionListener.ctor.processAll service
        (earlier ++ [e1] ++ [e2])).1.ProcessAdd
        (TradeBookingToExecutionListener.ctor.processAll service (earlier ++ [e1] ++ [e2])).2
        e3).2.1.trades e3.orderId = some t3 ∧
      t1.book = marketVector.getD ((earlier.length + 1) % 3) [] ∧
      t2.book = marketVector.getD ((earlier.length + 2) % 3) [] ∧
      t3.book = marketVector.getD ((earlier.length + 3) % 3) [] ∧
      t1.book ≠ t2.book ∧ t2.book ≠ t3.book ∧ t1.book ≠ t3.book ∧
      (earlier = [] → t1.book = "TRSY2".toList ∧ t2.book = "TRSY3".toList ∧
        t3.book = "TRSY1".toList) := by
  have h1 := book_after service earlier e1 (by omega)
  have h2 := book_after service (earlier ++ [e1]) e2 (by simp; omega)
  have h3 := book_after service (earlier ++ [e1] ++ [e2]) e3 (by simp; omega)
  have l2 : (earlier ++ [e1]).length + 1 = earlier.length + 2 := by simp
  have l3 : (earlier ++ [e1] ++ [e2]).length + 1 = earlier.length + 3 := by simp
  rw [l2] at h2
  rw [l3] at h3
  obtain ⟨d1, d2, d3⟩ := books_distinct earlier.length
  refine ⟨_, _, _, h1, h2, h3, rfl, rfl, rfl, d1, d2, d3, ?_⟩
  intro hnil
  subst hnil
  exact ⟨by simp [marketVector], by simp [marketVector], by simp [marketVector]⟩

/-- Witness for C26: the first three orders processed by a new listener. -/
theorem ProcessAdd_rotates_books_witness :
    ∃ t1 t2 t3 : Trade Bond,
      ((TradeBookingToExecutionListener.ctor.processAll sampleBooking []).1.ProcessAdd
        (TradeBookingToExecutionListener.ctor.processAll sampleBooking []).2
        (sampleExecution PricingSide.OFFER)).2.1.trades
        (sampleExecution PricingSide.OFFER).orderId = some t1 ∧
      ((TradeBookingToExecutionListener.ctor.processAll sampleBooking
        ([] ++ [sampleExecution PricingSide.OFFER])).1.ProcessAdd
        (TradeBookingToExecutionListener.ctor.processAll sampleBooking
          ([] ++ [sampleExecution PricingSide.OFFER])).2
        (sampleExecution PricingSide.BID)).2.1.trades
        (sampleExecution PricingSide.BID).orderId = some t2 ∧
      ((TradeBookingToExecutionListener.ctor.processAll sampleBooking
        ([] ++ [sampleExecution PricingSide.OFFER] ++ [sampleExecution PricingSide.BID])).1.ProcessAdd
        (TradeBookingToExecutionListener.ctor.processAll sampleBooking
          ([] ++ [sampleExecution PricingSide.OFFER] ++ [sampleExecution PricingSide.BID])).2
        (sampleExecution PricingSide.OFFER)).2.1.trades
        (sampleExecution PricingSide.OFFER).orderId = some t3 ∧
      t1.book = marketVector.getD ((([] : List (ExecutionOrder Bond)).length + 1) % 3) [] ∧
      t2.book = marketVector.getD ((([] : List (ExecutionOrder Bond)).length + 2) % 3) [] ∧
      t3.book = marketVector.getD ((([] : List (ExecutionOrder Bond)).length + 3) % 3) [] ∧
      t1.book ≠ t2.book ∧ t2.book ≠ t3.book ∧ t1.book ≠ t3.book ∧
      (([] : List (ExecutionOrder Bond)) = [] → t1.book = "TRSY2".toList ∧
        t2.book = "TRSY3".toList ∧ t3.book = "TRSY1".toList) :=
  ProcessAdd_rotates_books sampleBooking [] (sampleExecution PricingSide.OFFER)
    (sampleExecution PricingSide.BID) (sampleExecution PricingSide.OFFER) (by decide)

/-- C27. For every execution order processed by `TradeBookingToExecutionListener::ProcessAdd`,
the trade built is stored once under its trade id (the order id) and every registered listener
of the `TradeBookingService` receives `ProcessAdd` with that trade twice per entry of the
listener list: the calls are those of `OnMessage` followed by those of `BookTrade`. -/
theorem ProcessAdd_notifies_twice {T L : Type} [DecidableEq L]
    (self : TradeBookingToExecutionListener) (service : TradeBookingService T L)
    (e : ExecutionOrder T) :
    ∃ trade : Trade T,
      trade.tradeId = e.orderId ∧
      (self.ProcessAdd service e).2.1.trades = service.trades.assign trade.tradeId trade ∧
      (self.ProcessAdd service e).2.1.listeners = service.listeners ∧
      (self.ProcessAdd service e).2.2 =
        (service.OnMessage trade).2 ++ (service.OnMessage trade).1.BookTrade trade ∧
      (service.OnMessage trade).2 = service.listeners.map (fun l => (l, trade)) ∧
      (service.OnMessage trade).1.BookTrade trade = service.listeners.map (fun l => (l, trade)) ∧
      (∀ c ∈ (self.ProcessAdd service e).2.2, c.2 = trade) ∧
      (∀ l, ((self.ProcessAdd service e).2.2.map Prod.fst).count l =
        2 * service.listeners.count l) := by
  refine ⟨self.tradeOf e, rfl, rfl, rfl, rfl, rfl, rfl, ?_, ?_⟩
  · intro c hc
    rw [ProcessAdd_eq] at hc
    simp only [List.mem_append, List.mem_map] at hc
    rcases hc with ⟨l, _, rfl⟩ | ⟨l, _, rfl⟩ <;> rfl
  · intro l
    rw [ProcessAdd_eq]
    simp only [List.map_append, List.map_map, List.count_append]
    have hid : (Prod.fst ∘ fun l => (l, self.tradeOf e)) = (id : L → L) := rfl
    rw [hid, List.map_id]
    omega

/-- The `ProcessAdd` calls of one booking carried out on the position service: `AddTrade`
twice. -/
theorem deliverTrades_pair {T L : Type} [Product T] [Inhabited T] (positions : PositionService T L)
    (trade : Trade T) :
    deliverTrades positions [(TradeListener.position, trade), (TradeListener.position, trade)] =
      (((positions.AddTrade trade).1.AddTrade trade).1,
        (positions.AddTrade trade).2 ++ ((positions.AddTrade trade).1.AddTrade trade).2) := by
  simp [deliverTrades, PositionToTradeBookingListener.ProcessAdd]

/-- The listeners of a position service are not changed by `AddTrade`. -/
theorem listeners_AddTrade {T L : Type} [Product T] [Inhabited T] (s : PositionService T L)
    (t : Trade T) : (s.AddTrade t).1.listeners = s.listeners := by
  rw [AddTrade_eq]

/-- C28. With the position listener registered on the `TradeBookingService` as in `main` (it is
the only listener), and the per-book maps on file having distinct books (as every `std::map`
has), processing one execution order through `TradeBookingToExecutionListener::ProcessAdd`
changes the position of the assigned book for that instrument by twice the booked quantity,
`+2 x (visible + hidden)` for an OFFER-side execution and `-2 x (visible + hidden)` for a
BID-side one, changes no other position, and each listener of the position service is called
twice, first with the position after one `AddTrade`, then with the position after both. -/
theorem booking_counts_twice {T L : Type} [Product T] [Inhabited T]
    (self : TradeBookingToExecutionListener) (booking : TradeBookingService T TradeListener)
    (positions : PositionService T L) (e : ExecutionOrder T)
    (hmain : booking.listeners = [TradeListener.position])
    (hwf : ∀ i, ((positions.booksOf i).map Prod.fst).Nodup) :
    ∃ (trade : Trade T) (first second : Position T),
      (self.ProcessAdd booking e).2.1.trades e.orderId = some trade ∧
      trade.product = e.product ∧
      trade.quantity = e.visibleQuantity + e.GetHiddenQuantity ∧
      (self.ProcessAdd booking e).2.2 =
        [(TradeListener.position, trade), (TradeListener.position, trade)] ∧
      (deliverTrades positions (self.ProcessAdd booking e).2.2).1.positionOf
          (Product.GetProductId e.product) trade.book =
        positions.positionOf (Product.GetProductId e.product) trade.book +
          (match e.side with
            | PricingSide.OFFER => 2 * (e.visibleQuantity + e.GetHiddenQuantity)
            | PricingSide.BID => -(2 * (e.visibleQuantity + e.GetHiddenQuantity))) ∧
      (∀ i b, ¬ (i = Product.GetProductId e.product ∧ b = trade.book) →
        (deliverTrades positions (self.ProcessAdd booking e).2.2).1.positionOf i b =
          positions.positionOf i b) ∧
      (deliverTrades positions (self.ProcessAdd booking e).2.2).2 =
        positions.listeners.map (fun l => (l, first)) ++
          positions.listeners.map (fun l => (l, second)) ∧
      (positions.AddTrade trade).1.positions (Product.GetProductId e.product) = some first ∧
      (deliverTrades positions (self.ProcessAdd booking e).2.2).1.positions
        (Product.GetProductId e.product) = some second := by
  have hcalls : (self.ProcessAdd booking e).2.2 =
      [(TradeListener.position, self.tradeOf e), (TradeListener.position, self.tradeOf e)] := by
    rw [ProcessAdd_eq, hmain]
    rfl
  have hwf1 := wellFormed_AddTrade positions (self.tradeOf e) hwf
  have hsigned : signedQuantity (self.tradeOf e) =
      (match e.side with
        | PricingSide.OFFER => e.visibleQuantity + e.GetHiddenQuantity
        | PricingSide.BID => -(e.visibleQuantity + e.GetHiddenQuantity)) := by
    simp only [signedQuantity, TradeBookingToExecutionListener.tradeOf]
    cases e.side <;> simp
  have hpid : Product.GetProductId (self.tradeOf e).product = Product.GetProductId e.product :=
    rfl
  refine ⟨self.tradeOf e, positions.merged (self.tradeOf e),
    (positions.AddTrade (self.tradeOf e)).1.merged (self.tradeOf e), ?_, rfl, rfl, hcalls,
    ?_, ?_, ?_, ?_, ?_⟩
  · rw [ProcessAdd_eq]
    simp [StdMap.assign]
  · rw [hcalls, deliverTrades_pair, positionOf_AddTrade _ _ hwf1, positionOf_AddTrade _ _ hwf,
      hpid, if_pos ⟨rfl, rfl⟩, hsigned]
    cases e.side <;> simp only <;> ring
  · intro i b hne
    have hne2 : ¬ (Product.GetProductId (self.tradeOf e).product = i ∧
        (self.tradeOf e).book = b) := by
      rintro ⟨h1, h2⟩
      exact hne ⟨h1.symm.trans hpid, h2.symm⟩
    rw [hcalls, deliverTrades_pair, positionOf_AddTrade _ _ hwf1, positionOf_AddTrade _ _ hwf,
      if_neg hne2]
    simp
  · rw [hcalls, deliverTrades_pair, AddTrade_eq, AddTrade_eq]
  · rw [AddTrade_eq]
    simp [StdMap.assign, hpid]
  · rw [hcalls, deliverTrades_pair, AddTrade_eq]
    simp [StdMap.assign, hpid]

/-- Witness for C28: a position service with two listeners that holds 1,000,000 of 91282CJL6 in
TRSY1 receives the booking of an OFFER-side execution of 1,000,000 visible and 2,000,000
hidden. -/
theorem booking_counts_twice_witness :
    ∃ (trade : Trade Bond) (first second : Position Bond),
      (TradeBookingToExecutionListener.ctor.ProcessAdd sampleBooking
        (sampleExecution PricingSide.OFFER)).2.1.trades
        (sampleExecution PricingSide.OFFER).orderId = some trade ∧
      trade.product = (sampleExecution PricingSide.OFFER).product ∧
      trade.quantity = (sampleExecution PricingSide.OFFER).visibleQuantity +
        (sampleExecution PricingSide.OFFER).GetHiddenQuantity ∧
      (TradeBookingToExecutionListener.ctor.ProcessAdd sampleBooking
        (sampleExecution PricingSide.OFFER)).2.2 =
        [(TradeListener.position, trade), (TradeListener.position, trade)] ∧
      (deliverTrades ((PositionService.fresh [1, 2] : PositionService Bond Nat).addTrades
          (sampleTrades.take 1))
        (TradeBookingToExecutionListener.ctor.ProcessAdd sampleBooking
          (sampleExecution PricingSide.OFFER)).2.2).1.positionOf
          (Product.GetProductId (sampleExecution PricingSide.OFFER).product) trade.book =
        ((PositionService.fresh [1, 2] : PositionService Bond Nat).addTrades
          (sampleTrades.take 1)).positionOf
          (Product.GetProductId (sampleExecution PricingSide.OFFER).product) trade.book +
          (match (sampleExecution PricingSide.OFFER).side with
            | PricingSide.OFFER => 2 * ((sampleExecution PricingSide.OFFER).visibleQuantity +
                (sampleExecution PricingSide.OFFER).GetHiddenQuantity)
            | PricingSide.BID => -(2 * ((sampleExecution PricingSide.OFFER).visibleQuantity +
                (sampleExecution PricingSide.OFFER).GetHiddenQuantity))) ∧
      (∀ i b, ¬ (i = Product.GetProductId (sampleExecution PricingSide.OFFER).product ∧
          b = trade.book) →
        (deliverTrades ((PositionService.fresh [1, 2] : PositionService Bond Nat).addTrades
            (sampleTrades.take 1))
          (TradeBookingToExecutionListener.ctor.ProcessAdd sampleBooking
            (sampleExecution PricingSide.OFFER)).2.2).1.positionOf i b =
          ((PositionService.fresh [1, 2] : PositionService Bond Nat).addTrades
            (sampleTrades.take 1)).positionOf i b) ∧
      (deliverTrades ((PositionService.fresh [1, 2] : PositionService Bond Nat).addTrades
          (sampleTrades.take 1))
        (TradeBookingToExecutionListener.ctor.ProcessAdd sampleBooking
          (sampleExecution PricingSide.OFFER)).2.2).2 =
        ((PositionService.fresh [1, 2] : PositionService Bond Nat).addTrades
          (sampleTrades.take 1)).listeners.map (fun l => (l, first)) ++
          ((PositionService.fresh [1, 2] : PositionService Bond Nat).addTrades
            (sampleTrades.take 1)).listeners.map (fun l => (l, second)) ∧
      (((PositionService.fresh [1, 2] : PositionService Bond Nat).addTrades
          (sampleTrades.take 1)).AddTrade trade).1.positions
        (Product.GetProductId (sampleExecution PricingSide.OFFER).product) = some first ∧
      (deliverTrades ((PositionService.fresh [1, 2] : PositionService Bond Nat).addTrades
          (sampleTrades.take 1))
        (TradeBookingToExecutionListener.ctor.ProcessAdd sampleBooking
          (sampleExecution PricingSide.OFFER)).2.2).1.positions
        (Product.GetProductId (sampleExecution PricingSide.OFFER).product) = some second :=
  booking_counts_twice TradeBookingToExecutionListener.ctor sampleBooking
    ((PositionService.fresh [1, 2] : PositionService Bond Nat).addTrades (sampleTrades.take 1))
    (sampleExecution PricingSide.OFFER) rfl
    (addTrades_spec (sampleTrades.take 1) (PositionService.fresh [1, 2])
      (wellFormed_fresh [1, 2])).1

/-- The booking of the witness in figures: 3,000,000 is booked to TRSY2, whose position goes
from 0 to 6,000,000 (TRSY1 stays at 1,000,000). -/
theorem booking_sample :
    (deliverTrades ((PositionService.fresh [1, 2] : PositionService Bond Nat).addTrades
        (sampleTrades.take 1))
      (TradeBookingToExecutionListener.ctor.ProcessAdd sampleBooking
        (sampleExecution PricingSide.OFFER)).2.2).1.positionOf "91282CJL6".toList
        "TRSY2".toList = 6000000 ∧
      (deliverTrades ((PositionService.fresh [1, 2] : PositionService Bond Nat).addTrades
        (sampleTrades.take 1))
      (TradeBookingToExecutionListener.ctor.ProcessAdd sampleBooking
        (sampleExecution PricingSide.OFFER)).2.2).1.positionOf "91282CJL6".toList
        "TRSY1".toList = 1000000 := by
  have hq : (sampleExecution PricingSide.OFFER).GetHiddenQuantity = 2000000 := by
    simp [ExecutionOrder.GetHiddenQuantity, sampleExecution, truncToInt]
  have ht : TradeBookingToExecutionListener.ctor.tradeOf (sampleExecution PricingSide.OFFER) =
      ⟨sampleBond, "ORDER1".toList, 100, "TRSY2".toList, 3000000, Side.BUY⟩ := by
    unfold TradeBookingToExecutionListener.tradeOf
    rw [hq]
    simp [sampleExecution, marketVector, TradeBookingToExecutionListener.ctor]
  have hc : (TradeBookingToExecutionListener.ctor.ProcessAdd sampleBooking
      (sampleExecution PricingSide.OFFER)).2.2 =
      [(TradeListener.position, ⟨sampleBond, "ORDER1".toList, 100, "TRSY2".toList, 3000000,
          Side.BUY⟩),
        (TradeListener.position, ⟨sampleBond, "ORDER1".toList, 100, "TRSY2".toList, 3000000,
          Side.BUY⟩)] := by
    rw [ProcessAdd_eq, ht]
    rfl
  rw [hc]
  decide

/-- C29, counterexample. With the position listener registered, `TradeBookingService::OnMessage`
calls `ProcessAdd` on it with the trade. -/
theorem TradeBooking_OnMessage_calls_listener :
    (sampleBooking.OnMessage (sampleTrades.headD default)).2 =
        [(TradeListener.position, sampleTrades.headD default)] ∧
      (sampleBooking.OnMessage (sampleTrades.headD default)).2 ≠ [] := by
  constructor
  · rfl
  · intro h
    have := congrArg List.length h
    simp [TradeBookingService.OnMessage, sampleBooking, TradeBookingService.AddListener,
      TradeBookingService.ctor] at this

/-- C29, amended. `TradeBookingService::OnMessage` upserts the trade under its trade id and
then calls `ProcessAdd` with the trade on every registered listener, once per entry of the
listener list and in list order; it calls no listener only when none is registered. -/
theorem TradeBooking_OnMessage_notifies {T L : Type} (s : TradeBookingService T L)
    (trade : Trade T) :
    (s.OnMessage trade).1.trades = s.trades.assign trade.tradeId trade ∧
      (s.OnMessage trade).1.listeners = s.listeners ∧
      (s.OnMessage trade).2 = s.listeners.map (fun l => (l, trade)) ∧
      (s.OnMessage trade).2.length = s.listeners.length ∧
      ((s.OnMessage trade).2 = [] ↔ s.listeners = []) := by
  refine ⟨rfl, rfl, rfl, ?_, ?_⟩
  · simp [TradeBookingService.OnMessage]
  · simp [TradeBookingService.OnMessage]

/-! ### The market data connector -/

/-- What `Subscribe` reads from a record it can read. -/
theorem readRecord_of_wellFormed (record : List Char) (h : wellFormedRecord record = true) :
    ∃ (id : List Char) (order : Order) (product : Bond),
      MarketDataConnector.readRecord record = some (id, order) ∧
      RetrieveProduct id = some product ∧ recordProduct record = some product := by
  unfold wellFormedRecord at h
  cases hr : MarketDataConnector.readRecord record with
  | none => simp [recordProduct, hr] at h
  | some p =>
    cases hp : RetrieveProduct p.1 with
    | none => simp [recordProduct, hr, hp] at h
    | some product =>
      exact ⟨p.1, p.2, product, rfl, hp, by simp [recordProduct, hr, hp]⟩

theorem recordOrders_append_singleton (records : List (List Char)) (record id : List Char)
    (order : Order) (hr : MarketDataConnector.readRecord record = some (id, order)) :
    recordOrders (records ++ [record]) = recordOrders records ++ [order] := by
  simp [recordOrders, List.filterMap_append, hr]

theorem bidsOf_append_singleton (records : List (List Char)) (record id : List Char)
    (order : Order) (hr : MarketDataConnector.readRecord record = some (id, order)) :
    bidsOf (records ++ [record]) =
      if order.side = PricingSide.BID then bidsOf records ++ [order] else bidsOf records := by
  unfold bidsOf
  rw [recordOrders_append_singleton records record id order hr, List.filter_append]
  by_cases hs : order.side = PricingSide.BID <;> simp [hs]

theorem offersOf_append_singleton (records : List (List Char)) (record id : List Char)
    (order : Order) (hr : MarketDataConnector.readRecord record = some (id, order)) :
    offersOf (records ++ [record]) =
      if order.side = PricingSide.BID then offersOf records else offersOf records ++ [order] := by
  unfold offersOf
  rw [recordOrders_append_singleton records record id order hr, List.filter_append]
  cases hs : order.side <;> simp [hs]

/-- One turn of the loop of `Subscribe` on a record it can read, with the threshold 20. -/
theorem processRecord_eq {L : Type} (st : SubscribeState L) (record id : List Char)
    (order : Order) (product : Bond)
    (hr : MarketDataConnector.readRecord record = some (id, order))
    (hp : RetrieveProduct id = some product) :
    MarketDataConnector.processRecord 20 st record =
      some (if (st.totalOrdersProcessed + 1).tmod 20 = 0 then
        ⟨(st.service.OnMessage ⟨product,
            if order.side = PricingSide.BID then st.bids ++ [order] else st.bids,
            if order.side = PricingSide.BID then st.offers else st.offers ++ [order]⟩).1,
          [], [], st.totalOrdersProcessed + 1,
          st.calls ++ (st.service.OnMessage ⟨product,
            if order.side = PricingSide.BID then st.bids ++ [order] else st.bids,
            if order.side = PricingSide.BID then st.offers else st.offers ++ [order]⟩).2,
          st.snapshots ++ [⟨product,
            if order.side = PricingSide.BID then st.bids ++ [order] else st.bids,
            if order.side = PricingSide.BID then st.offers else st.offers ++ [order]⟩]⟩
      else
        ⟨st.service, if order.side = PricingSide.BID then st.bids ++ [order] else st.bids,
          if order.side = PricingSide.BID then st.offers else st.offers ++ [order],
          st.totalOrdersProcessed + 1, st.calls, st.snapshots⟩) := by
  unfold MarketDataConnector.processRecord
  simp only [hr, Option.bind_eq_bind, Option.some_bind, Option.pure_def]
  by_cases ht : (st.totalOrdersProcessed + 1).tmod 20 = 0
  · simp [ht, hp]
  · simp [ht]

theorem blockAt_append_of_complete (pre : List (List Char)) (r : List Char) (j : Nat)
    (hj : 20 * j + 20 ≤ pre.length) : blockAt (pre ++ [r]) j = blockAt pre j := by
  unfold blockAt
  rw [List.drop_append_of_le_length (by omega), List.take_append_of_le_length]
  rw [List.length_drop]
  omega

theorem blockAt_last (pre : List (List Char)) (r : List Char) (j : Nat)
    (hj : 20 * j + 20 = pre.length + 1) : blockAt (pre ++ [r]) j = pre.drop (20 * j) ++ [r] := by
  unfold blockAt
  rw [List.drop_append_of_le_length (by omega)]
  apply List.take_of_length_le
  rw [List.length_append, List.length_drop, List.length_singleton]
  omega

theorem snapshotOf_append_singleton (block : List (List Char)) (r : List Char) (product : Bond)
    (hp : recordProduct r = some product) :
    snapshotOf (block ++ [r]) =
      some ⟨product, bidsOf (block ++ [r]), offersOf (block ++ [r])⟩ := by
  simp [snapshotOf, hp]

/-- The state of `Subscribe` (threshold 20) after a run of records it can read. -/
theorem subscribe_fold {L : Type} (s : MarketDataService Bond L) (records : List (List Char))
    (hwf : ∀ r ∈ records, wellFormedRecord r = true) :
    ∃ st : SubscribeState L,
      records.foldlM (MarketDataConnector.processRecord 20) ⟨s, [], [], 0, [], []⟩ = some st ∧
      st.totalOrdersProcessed = (records.length : Int) ∧
      st.bids = bidsOf (records.drop (20 * (records.length / 20))) ∧
      st.offers = offersOf (records.drop (20 * (records.length / 20))) ∧
      st.snapshots.map some =
        (List.range (records.length / 20)).map (fun j => snapshotOf (blockAt records j)) ∧
      st.calls = st.snapshots.flatMap (fun b => s.listeners.map (fun l => (l, b))) ∧
      st.service.listeners = s.listeners ∧
      st.service.bookDepth = s.bookDepth ∧
      st.service.orderBooks =
        st.snapshots.foldl (fun m b => m.assign (Product.GetProductId b.product) b)
          s.orderBooks := by
  induction records using List.reverseRecOn with
  | nil =>
    exact ⟨⟨s, [], [], 0, [], []⟩, rfl, rfl, rfl, rfl, rfl, rfl, rfl, rfl, rfl⟩
  | append_singleton pre r ih =>
    have hwf_pre : ∀ x ∈ pre, wellFormedRecord x = true := fun x hx =>
      hwf x (List.mem_append_left _ hx)
    obtain ⟨st, hfold, htot, hb, ho, hsnap, hcalls, hlis, hdepth, hbooks⟩ := ih hwf_pre
    obtain ⟨id, order, product, hr, hp, hrp⟩ :=
      readRecord_of_wellFormed r (hwf r (by simp))
    have hstep := processRecord_eq st r id order product hr hp
    have hmod : (st.totalOrdersProcessed + 1).tmod 20 = 0 ↔ (pre.length + 1) % 20 = 0 := by
      rw [htot, show ((pre.length : Int) + 1) = ((pre.length + 1 : Nat) : Int) by simp,
        show (20 : Int) = ((20 : Nat) : Int) from rfl, ← Int.ofNat_tmod]
      exact Int.natCast_eq_zero
    have hrun : (pre ++ [r]).foldlM (MarketDataConnector.processRecord 20)
        (⟨s, [], [], 0, [], []⟩ : SubscribeState L) =
        MarketDataConnector.processRecord 20 st r := by
      rw [List.foldlM_append, hfold]
      simp
    rw [hrun, hstep]
    have hlen : (pre ++ [r]).length = pre.length + 1 := by simp
    by_cases ht : (pre.length + 1) % 20 = 0
    · have hdiv : (pre.length + 1) / 20 = pre.length / 20 + 1 := by omega
      have hstart : 20 * (pre.length / 20) + 20 = pre.length + 1 := by omega
      have hbids : (if order.side = PricingSide.BID then st.bids ++ [order] else st.bids) =
          bidsOf (pre.drop (20 * (pre.length / 20)) ++ [r]) := by
        rw [bidsOf_append_singleton _ r id order hr, hb]
      have hoffers : (if order.side = PricingSide.BID then st.offers
          else st.offers ++ [order]) = offersOf (pre.drop (20 * (pre.length / 20)) ++ [r]) := by
        rw [offersOf_append_singleton _ r id order hr, ho]
      rw [if_pos (hmod.2 ht), hbids, hoffers]
      refine ⟨_, rfl, ?_, ?_, ?_, ?_, ?_, ?_, ?_, ?_⟩
      · simp [htot]
      · rw [hlen, hdiv, show 20 * (pre.length / 20 + 1) = (pre ++ [r]).length by rw [hlen]; omega,
          List.drop_length]
        rfl
      · rw [hlen, hdiv, show 20 * (pre.length / 20 + 1) = (pre ++ [r]).length by rw [hlen]; omega,
          List.drop_length]
        rfl
      · rw [hlen, hdiv, List.range_succ, List.map_append, List.map_append, hsnap]
        congr 1
        · apply List.map_congr_left
          intro j hj
          rw [List.mem_range] at hj
          rw [blockAt_append_of_complete pre r j (by omega)]
        · simp only [List.map_cons, List.map_nil]
          rw [blockAt_last pre r _ hstart, snapshotOf_append_singleton _ r product hrp]
      · simp only [MarketDataService.OnMessage, hlis, hcalls, List.flatMap_append,
          List.flatMap_cons, List.flatMap_nil, List.append_nil]
      · simp only [MarketDataService.OnMessage, hlis]
      · simp only [MarketDataService.OnMessage, hdepth]
      · simp only [MarketDataService.OnMessage, hbooks, List.foldl_append, List.foldl_cons,
          List.foldl_nil]
    · have hdiv : (pre.length + 1) / 20 = pre.length / 20 := by omega
      have hle : 20 * (pre.length / 20) ≤ pre.length := by omega
      rw [if_neg (fun h => ht (hmod.1 h))]
      refine ⟨_, rfl, ?_, ?_, ?_, ?_, hcalls, hlis, hdepth, hbooks⟩
      · simp [htot]
      · rw [hlen, hdiv, List.drop_append_of_le_length hle,
          bidsOf_append_singleton _ r id order hr, hb]
      · rw [hlen, hdiv, List.drop_append_of_le_length hle,
          offersOf_append_singleton _ r id order hr, ho]
      · rw [hlen, hdiv, hsnap]
        apply List.map_congr_left
        intro j hj
        rw [List.mem_range] at hj
        rw [blockAt_append_of_complete pre r j (by omega)]

theorem threshold_of_depth {L : Type} (s : MarketDataService Bond L) (hdepth : s.bookDepth = 10) :
    s.GetOrderBookDepth * 2 = 20 := by
  rw [MarketDataService.GetOrderBookDepth, hdepth]
  rfl

/-- The witness in figures: 41 records give 2 order books of 10 bids and 10 offers each, and one
bid is left in the buffer. -/
theorem Subscribe_sampleRecords :
    (MarketDataConnector.Subscribe (MarketDataService.ctor : MarketDataService Bond Nat)
        sampleRecords).map
        (fun st => (st.snapshots.map (fun b => (b.bidStack.length, b.offerStack.length)),
          st.bids.length, st.offers.length)) =
      some ([(10, 10), (10, 10)], 1, 0) := by
  decide

/-- `AlgoOrderExecution` has no defined result on an order book whose best bid and offer are
undefined. -/
theorem AlgoOrderExecution_undefined {T L : Type} [Product T] (s : AlgoExecutionService T L)
    (book : OrderBook T) (orderId : List Char) (h : book.GetBidOffer.isSome = false) :
    AlgoExecutionToMarketDataListener.ProcessAdd s book orderId = none := by
  have hn : book.GetBidOffer = none := by
    cases hg : book.GetBidOffer with
    | none => rfl
    | some r => simp [hg] at h
  simp [AlgoExecutionToMarketDataListener.ProcessAdd, AlgoExecutionService.AlgoOrderExecution, hn]

/-- C30. Twenty records of side BID, each of which `Subscribe` can read, make `Subscribe` hand
to `OnMessage`, and so to the registered listener, one order book with 20 bids and an empty offer
stack: `GetBidOffer` is undefined on it (`front()` of an empty vector), and so is
`AlgoOrderExecution`, which the listener of the algo execution service calls on it. -/
theorem Subscribe_emits_one_sided :
    (∀ r ∈ oneSidedRecords, wellFormedRecord r = true) ∧
      (MarketDataConnector.Subscribe
          ((MarketDataService.ctor : MarketDataService Bond Nat).AddListener 1)
          oneSidedRecords).map
          (fun st => (st.snapshots.map
              (fun b => (b.bidStack.length, b.offerStack.length, b.GetBidOffer.isSome)),
            st.calls.map (fun c => (c.1, c.2.offerStack.length)))) =
        some ([(20, 0, false)], [(1, 0)]) ∧
      (∀ st, MarketDataConnector.Subscribe
          ((MarketDataService.ctor : MarketDataService Bond Nat).AddListener 1)
          oneSidedRecords = some st →
        ∀ b ∈ st.snapshots, ∀ (algo : AlgoExecutionService Bond Nat) (orderId : List Char),
          AlgoExecutionToMarketDataListener.ProcessAdd algo b orderId = none) := by
  have hsum : (MarketDataConnector.Subscribe
      ((MarketDataService.ctor : MarketDataService Bond Nat).AddListener 1)
      oneSidedRecords).map
      (fun st => (st.snapshots.map
          (fun b => (b.bidStack.length, b.offerStack.length, b.GetBidOffer.isSome)),
        st.calls.map (fun c => (c.1, c.2.offerStack.length)))) =
      some ([(20, 0, false)], [(1, 0)]) := by
    decide
  refine ⟨by decide, hsum, ?_⟩
  intro st hst b hb algo orderId
  rw [hst] at hsum
  simp only [Option.map_some', Option.some.injEq, Prod.mk.injEq] at hsum
  have hmem : (b.bidStack.length, b.offerStack.length, b.GetBidOffer.isSome) ∈
      st.snapshots.map
        (fun b => (b.bidStack.length, b.offerStack.length, b.GetBidOffer.isSome)) :=
    List.mem_map_of_mem _ hb
  rw [hsum.1] at hmem
  simp only [List.mem_singleton, Prod.mk.injEq] at hmem
  exact AlgoOrderExecution_undefined algo b orderId hmem.2.2

/-- When every block of 20 records holds a BID record and an OFFER record (as in the file
`GenerateMarketData` writes, which alternates the two), every order book that `Subscribe` hands
over has a best bid and offer. -/
theorem Subscribe_two_sided {L : Type} (s : MarketDataService Bond L)
    (records : List (List Char)) (hdepth : s.bookDepth = 10)
    (hwf : ∀ r ∈ records, wellFormedRecord r = true)
    (hboth : ∀ j, j < records.length / 20 →
      bidsOf (blockAt records j) ≠ [] ∧ offersOf (blockAt records j) ≠ []) :
    ∃ st : SubscribeState L,
      MarketDataConnector.Subscribe s records = some st ∧
      ∀ b ∈ st.snapshots, b.GetBidOffer.isSome = true := by
  obtain ⟨st, hfold, _, _, _, hsnap, _, _, _, _⟩ := subscribe_fold s records hwf
  refine ⟨st, ?_, ?_⟩
  · simp only [MarketDataConnector.Subscribe, threshold_of_depth s hdepth, hfold]
  · intro b hb
    have hmem : some b ∈ st.snapshots.map some := List.mem_map_of_mem _ hb
    rw [hsnap, List.mem_map] at hmem
    obtain ⟨j, hj, hjb⟩ := hmem
    rw [List.mem_range] at hj
    obtain ⟨h1, h2⟩ := hboth j hj
    have hshape : b.bidStack = bidsOf (blockAt records j) ∧
        b.offerStack = offersOf (blockAt records j) := by
      unfold snapshotOf at hjb
      cases hl : (blockAt records j).getLast? with
      | none => simp [hl] at hjb
      | some last =>
        cases hp : recordProduct last with
        | none => simp [hl, hp] at hjb
        | some product =>
          simp only [hl, hp, Option.bind_eq_bind, Option.some_bind, Option.pure_def,
            Option.some.injEq] at hjb
          rw [← hjb]
          exact ⟨rfl, rfl⟩
    unfold OrderBook.GetBidOffer
    rw [hshape.1, hshape.2]
    cases hbl : bidsOf (blockAt records j) with
    | nil => exact absurd hbl h1
    | cons x xs =>
      cases hol : offersOf (blockAt records j) with
      | nil => exact absurd hol h2
      | cons y ys => rfl

/-! ### Encoding a price off the grid -/

/-- `PriceToString` drops what lies between a price and the grid point below it. -/
theorem PriceToString_floor (n a e : Nat) (r : ℚ) (ha : a < 32) (he : e < 8) (hr0 : 0 ≤ r)
    (hr1 : r < 1 / 256) :
    PriceToString ((n : ℚ) + (a : ℚ) / 32 + (e : ℚ) / 256 + r) = gridText n a e := by
  have ha' : (a : ℚ) ≤ 31 := by exact_mod_cast Nat.lt_succ_iff.1 ha
  have he' : (e : ℚ) ≤ 7 := by exact_mod_cast Nat.lt_succ_iff.1 he
  have ha0 : (0 : ℚ) ≤ (a : ℚ) := Nat.cast_nonneg a
  have he0 : (0 : ℚ) ≤ (e : ℚ) := Nat.cast_nonneg e
  have h1 : truncToInt ((n : ℚ) + (a : ℚ) / 32 + (e : ℚ) / 256 + r) = (n : Int) := by
    have := truncToInt_nat_add n ((a : ℚ) / 32 + (e : ℚ) / 256 + r) (by positivity)
      (by linarith)
    rw [← this]
    congr 1
    ring
  have h2 : truncToInt (((n : ℚ) + (a : ℚ) / 32 + (e : ℚ) / 256 + r - ((n : Int) : ℚ)) * 32) =
      (a : Int) := by
    have := truncToInt_nat_add a ((e : ℚ) / 8 + r * 32) (by positivity) (by linarith)
    rw [← this]
    congr 1
    push_cast
    ring
  have h3 : truncToInt ((((n : ℚ) + (a : ℚ) / 32 + (e : ℚ) / 256 + r - ((n : Int) : ℚ)) * 32 -
      ((a : Int) : ℚ)) * 8) = (e : Int) := by
    have := truncToInt_nat_add e (r * 256) (by positivity) (by linarith)
    rw [← this]
    congr 1
    push_cast
    ring
  simp only [PriceToString, h1, h2, h3, to_string_natCast, gridText]
  have e1 : ((a : Int) < 10) ↔ a < 10 := by omega
  have e2 : ((e : Int) = 4) ↔ e = 4 := by omega
  simp only [e1, e2]
  split <;> split <;> simp

/-- The last character of an encoded price. -/
theorem lastChar_mem : ∀ e, e < 8 →
    (if e = 4 then '+' else Nat.digitChar e) ∈ ['0', '1', '2', '3', '+', '5', '6', '7'] := by
  decide

/-- Every non-negative price is a grid point plus a remainder below 1/256. -/
theorem floor_decompose (p : ℚ) (h0 : 0 ≤ p) :
    ∃ (k : Nat) (r : ℚ), p = (k : ℚ) / 256 + r ∧ 0 ≤ r ∧ r < 1 / 256 ∧
      (k : Int) = ⌊p * 256⌋ := by
  have hfl : 0 ≤ ⌊p * 256⌋ := Int.floor_nonneg.2 (by positivity)
  obtain ⟨k, hk⟩ := Int.eq_ofNat_of_zero_le hfl
  have hle : ((⌊p * 256⌋ : Int) : ℚ) ≤ p * 256 := Int.floor_le _
  have hlt : p * 256 < ((⌊p * 256⌋ : Int) : ℚ) + 1 := Int.lt_floor_add_one _
  rw [hk] at hle hlt
  simp only [Int.cast_natCast] at hle hlt
  refine ⟨k, p - (k : ℚ) / 256, by ring, by linarith, by linarith, hk.symm⟩

/-- C31. For every non-negative price `p` below 2^31, not necessarily a multiple of 1/256,
encoding truncates toward zero onto the 1/256 grid: the encoded text decodes to
`floor(256 p) / 256`, so that `0 <= p - decode(encode(p)) < 1/256`, and the text is the integer
part, a dash, a 32nds field of two digits with value in 00-31 and one last character among
`0 1 2 3 + 5 6 7`. -/
theorem PriceToString_truncates (p : ℚ) (h0 : 0 ≤ p) (hlt : p < 2147483648) :
    ∃ (q : ℚ) (n a : Nat) (z : Char),
      ConvertStringToPrice (PriceToString p) = some q ∧
      q = ((⌊p * 256⌋ : Int) : ℚ) / 256 ∧
      0 ≤ p - q ∧ p - q < 1 / 256 ∧
      PriceToString p = priceText n a z ∧
      a < 32 ∧ z ∈ ['0', '1', '2', '3', '+', '5', '6', '7'] := by
  obtain ⟨k, r, hp, hr0, hr1, hk⟩ := floor_decompose p h0
  have hdec := grid_decompose k
  have ha : k % 256 / 8 < 32 := by omega
  have he : k % 8 < 8 := by omega
  have hn : k / 256 ≤ 2147483647 := by
    have h1 : ((k : ℚ)) / 256 < 2147483648 := by linarith
    have h2 : (k : ℚ) < 2147483648 * 256 := by
      rw [div_lt_iff₀ (by norm_num)] at h1
      exact h1
    have h3 : k < 2147483648 * 256 := by exact_mod_cast h2
    omega
  have henc : PriceToString p = gridText (k / 256) (k % 256 / 8) (k % 8) := by
    rw [hp, hdec]
    exact PriceToString_floor _ _ _ r ha he hr0 hr1
  refine ⟨(k : ℚ) / 256, k / 256, k % 256 / 8,
    (if k % 8 = 4 then '+' else Nat.digitChar (k % 8)), ?_, ?_, ?_, ?_, ?_, ha,
    lastChar_mem _ he⟩
  · rw [henc, ConvertStringToPrice_gridText _ _ _ hn ha he, ← hdec]
  · rw [← hk]
    simp
  · linarith
  · linarith
  · rw [henc, gridText_eq _ _ _ ha he]

/-- Witness for C31 at the price 100 + 1/3, which is encoded `100-105` and decodes to
100 + 85/256. -/
theorem PriceToString_truncates_witness :
    ∃ (q : ℚ) (n a : Nat) (z : Char),
      ConvertStringToPrice (PriceToString (301 / 3)) = some q ∧
      q = ((⌊(301 / 3 : ℚ) * 256⌋ : Int) : ℚ) / 256 ∧
      0 ≤ (301 / 3 : ℚ) - q ∧ (301 / 3 : ℚ) - q < 1 / 256 ∧
      PriceToString (301 / 3) = priceText n a z ∧
      a < 32 ∧ z ∈ ['0', '1', '2', '3', '+', '5', '6', '7'] :=
  PriceToString_truncates (301 / 3) (by norm_num) (by norm_num)

/-- The encoding of 100 + 1/3. -/
theorem PriceToString_third : PriceToString (301 / 3) = "100-105".toList := by
  have h : (301 / 3 : ℚ) = ((100 : Nat) : ℚ) + ((10 : Nat) : ℚ) / 32 + ((5 : Nat) : ℚ) / 256 +
      1 / 768 := by norm_num
  rw [h, PriceToString_floor 100 10 5 (1 / 768) (by decide) (by decide) (by norm_num)
    (by norm_num)]
  decide

/-! ### The pricing connector -/

/-- What `PricingConnector::Subscribe` builds from a line it can read. -/
theorem readLine_eq (line id bidText offerText : List Char) (b o : ℚ) (product : Bond)
    (h0 : (SplitLine line).get? 0 = some id) (h1 : (SplitLine line).get? 1 = some bidText)
    (h2 : (SplitLine line).get? 2 = some offerText)
    (hb : ConvertStringToPrice bidText = some b) (ho : ConvertStringToPrice offerText = some o)
    (hp : RetrieveProduct id = some product) :
    PricingConnector.readLine line = some ⟨product, (b + o) / 2, o - b⟩ := by
  simp only [PricingConnector.readLine, h0, h1, h2, hb, ho, hp, Option.bind_eq_bind,
    Option.some_bind, Option.pure_def]

theorem Subscribe_singleton {L : Type} (service : PricingService Bond L) (line : List Char)
    (price : Price Bond) (h : PricingConnector.readLine line = some price) :
    PricingConnector.Subscribe service [line] =
      some ((service.OnMessage price).1, (service.OnMessage price).2) := by
  simp [PricingConnector.Subscribe, PricingConnector.processLine, h]

/-- `PricingConnector::Subscribe` on lines it can read: every line gives one price, handed to
`OnMessage`, which calls every listener with it. -/
theorem Subscribe_all_lines {L : Type} (lines : List (List Char))
    (hread : ∀ line ∈ lines, (PricingConnector.readLine line).isSome = true) :
    ∀ (service : PricingService Bond L),
      ∃ final : PricingService Bond L,
        PricingConnector.Subscribe service lines =
          some (final, (lines.filterMap PricingConnector.readLine).flatMap
            (fun price => service.listeners.map (fun l => (l, price)))) ∧
        final.listeners = service.listeners := by
  have hgen : ∀ (ls : List (List Char)),
      (∀ line ∈ ls, (PricingConnector.readLine line).isSome = true) →
      ∀ (st : PricingService Bond L × List (L × Price Bond)),
        ∃ final : PricingService Bond L,
          ls.foldlM PricingConnector.processLine st =
            some (final, st.2 ++ (ls.filterMap PricingConnector.readLine).flatMap
              (fun price => st.1.listeners.map (fun l => (l, price)))) ∧
          final.listeners = st.1.listeners := by
    intro ls
    induction ls with
    | nil => intro _ st; exact ⟨st.1, by simp, rfl⟩
    | cons line rest ih =>
      intro hr st
      have hl := hr line (by simp)
      cases hp : PricingConnector.readLine line with
      | none => simp [hp] at hl
      | some price =>
        obtain ⟨final, hfold, hlis⟩ := ih (fun l hl' => hr l (List.mem_cons_of_mem _ hl'))
          ((st.1.OnMessage price).1, st.2 ++ (st.1.OnMessage price).2)
        have hstep : PricingConnector.processLine st line =
            some ((st.1.OnMessage price).1, st.2 ++ (st.1.OnMessage price).2) := by
          simp [PricingConnector.processLine, hp]
        refine ⟨final, ?_, hlis⟩
        rw [List.foldlM_cons, hstep]
        simp only [Option.bind_eq_bind, Option.some_bind]
        rw [hfold]
        simp [PricingService.OnMessage, List.filterMap_cons, hp, List.flatMap_cons]
  intro service
  obtain ⟨final, h1, h2⟩ := hgen lines hread (service, [])
  exact ⟨final, by simpa [PricingConnector.Subscribe] using h1, h2⟩

theorem ConvertStringToPrice_samples :
    ConvertStringToPrice "99-16+".toList = some (6369 / 64) ∧
      ConvertStringToPrice "99-170".toList = some (3185 / 32) ∧
      ConvertStringToPrice "100-000".toList = some 100 ∧
      ConvertStringToPrice "99-000".toList = some 99 := by
  have e1 : "99-16+".toList = priceText 99 16 '+' := by decide
  have e2 : "99-170".toList = priceText 99 17 '0' := by decide
  have e3 : "100-000".toList = priceText 100 0 '0' := by decide
  have e4 : "99-000".toList = priceText 99 0 '0' := by decide
  rw [e1, e2, e3, e4, ConvertStringToPrice_priceText _ _ _ (by decide) (by decide),
    ConvertStringToPrice_priceText _ _ _ (by decide) (by decide),
    ConvertStringToPrice_priceText _ _ _ (by decide) (by decide),
    ConvertStringToPrice_priceText _ _ _ (by decide) (by decide)]
  have hz : '0'.toNat = 48 := by decide
  have hne : ¬ ('0' : Char) = '+' := by decide
  refine ⟨?_, ?_, ?_, ?_⟩ <;> simp only [hz, hne, if_true, if_false] <;> norm_num

/-- C32. For every price-feed line whose second and third cells decode to the bid `b` and the
offer `o` (and whose first cell names a known instrument), `PricingConnector::Subscribe` hands
to `PricingService::OnMessage`, and so to every listener, a price with mid `(b + o) / 2` and
spread `o - b`; the stream that `AlgoPublishPrice` derives from that price has bid price `b` and
offer price `o` (rational arithmetic, without rounding). -/
theorem Subscribe_publishes_mid_spread {L M : Type} (service : PricingService Bond L)
    (algo : AlgoStreamingService Bond M) (line id bidText offerText : List Char) (b o : ℚ)
    (product : Bond)
    (h0 : (SplitLine line).get? 0 = some id) (h1 : (SplitLine line).get? 1 = some bidText)
    (h2 : (SplitLine line).get? 2 = some offerText)
    (hb : ConvertStringToPrice bidText = some b) (ho : ConvertStringToPrice offerText = some o)
    (hp : RetrieveProduct id = some product) :
    ∃ (price : Price Bond) (stream : PriceStream Bond),
      PricingConnector.readLine line = some price ∧
      PricingConnector.Subscribe service [line] =
        some ((service.OnMessage price).1, (service.OnMessage price).2) ∧
      (service.OnMessage price).2 = service.listeners.map (fun l => (l, price)) ∧
      price.product = product ∧
      price.mid = (b + o) / 2 ∧
      price.bidOfferSpread = o - b ∧
      (AlgoStreamingToPricingListener.ProcessAdd algo price).2 =
        algo.listeners.map (fun l => (l, ⟨some stream⟩)) ∧
      (AlgoStreamingToPricingListener.ProcessAdd algo price).1.algoStreams
        (Product.GetProductId product) = some ⟨some stream⟩ ∧
      stream.product = product ∧
      stream.bidOrder.price = b ∧
      stream.offerOrder.price = o := by
  have hread := readLine_eq line id bidText offerText b o product h0 h1 h2 hb ho hp
  refine ⟨⟨product, (b + o) / 2, o - b⟩,
    ⟨product,
      ⟨(b + o) / 2 - (o - b) / 2, calculateVisibleQuantity (longToInt algo.pricePublishCount),
        calculateVisibleQuantity (longToInt algo.pricePublishCount) * 2, PricingSide.BID⟩,
      ⟨(b + o) / 2 + (o - b) / 2, calculateVisibleQuantity (longToInt algo.pricePublishCount),
        calculateVisibleQuantity (longToInt algo.pricePublishCount) * 2, PricingSide.OFFER⟩⟩,
    hread, Subscribe_singleton service line _ hread, rfl, rfl, rfl, rfl, ?_, ?_, rfl, ?_, ?_⟩
  · rw [AlgoStreamingToPricingListener.ProcessAdd, AlgoPublishPrice_eq]
  · rw [AlgoStreamingToPricingListener.ProcessAdd, AlgoPublishPrice_eq]
    simp [StdMap.assign]
  · show (b + o) / 2 - (o - b) / 2 = b
    ring
  · show (b + o) / 2 + (o - b) / 2 = o
    ring

/-- Witness for C32: the line `91282CJL6,99-16+,99-170`. -/
theorem Subscribe_publishes_mid_spread_witness :
    ∃ (price : Price Bond) (stream : PriceStream Bond),
      PricingConnector.readLine sampleLine = some price ∧
      PricingConnector.Subscribe ((PricingService.ctor : PricingService Bond Nat).AddListener 1)
          [sampleLine] =
        some ((((PricingService.ctor : PricingService Bond Nat).AddListener 1).OnMessage price).1,
          (((PricingService.ctor : PricingService Bond Nat).AddListener 1).OnMessage price).2) ∧
      (((PricingService.ctor : PricingService Bond Nat).AddListener 1).OnMessage price).2 =
        ((PricingService.ctor : PricingService Bond Nat).AddListener 1).listeners.map
          (fun l => (l, price)) ∧
      price.product = sampleBond ∧
      price.mid = ((6369 / 64 : ℚ) + 3185 / 32) / 2 ∧
      price.bidOfferSpread = (3185 / 32 : ℚ) - 6369 / 64 ∧
      (AlgoStreamingToPricingListener.ProcessAdd
          (AlgoStreamingService.fresh [1, 2] : AlgoStreamingService Bond Nat) price).2 =
        (AlgoStreamingService.fresh [1, 2] : AlgoStreamingService Bond Nat).listeners.map
          (fun l => (l, ⟨some stream⟩)) ∧
      (AlgoStreamingToPricingListener.ProcessAdd
          (AlgoStreamingService.fresh [1, 2] : AlgoStreamingService Bond Nat)
          price).1.algoStreams (Product.GetProductId sampleBond) = some ⟨some stream⟩ ∧
      stream.product = sampleBond ∧
      stream.bidOrder.price = 6369 / 64 ∧
      stream.offerOrder.price = 3185 / 32 :=
  Subscribe_publishes_mid_spread ((PricingService.ctor : PricingService Bond Nat).AddListener 1)
    (AlgoStreamingService.fresh [1, 2]) sampleLine "91282CJL6".toList "99-16+".toList
    "99-170".toList (6369 / 64) (3185 / 32) sampleBond (by decide) (by decide) (by decide)
    ConvertStringToPrice_samples.1 ConvertStringToPrice_samples.2.1 (by rfl)

/-- C33, counterexample. The line `91282CJL6,100-000,99-000` can be read, and the price handed
to `OnMessage` has the spread 99 - 100 = -1. -/
theorem Subscribe_negative_spread :
    PricingConnector.readLine crossedLine = some ⟨sampleBond, 199 / 2, -1⟩ ∧
      PricingConnector.Subscribe ((PricingService.ctor : PricingService Bond Nat).AddListener 1)
          [crossedLine] =
        some ((((PricingService.ctor : PricingService Bond Nat).AddListener 1).OnMessage
            ⟨sampleBond, 199 / 2, -1⟩).1, [(1, ⟨sampleBond, 199 / 2, -1⟩)]) ∧
      (⟨sampleBond, 199 / 2, -1⟩ : Price Bond).bidOfferSpread < 0 := by
  have hread : PricingConnector.readLine crossedLine = some ⟨sampleBond, 199 / 2, -1⟩ := by
    have h := readLine_eq crossedLine "91282CJL6".toList "100-000".toList "99-000".toList 100 99
      sampleBond (by decide) (by decide) (by decide) ConvertStringToPrice_samples.2.2.1
      ConvertStringToPrice_samples.2.2.2 (by rfl)
    rw [h]
    norm_num
  refine ⟨hread, ?_, by norm_num⟩
  rw [Subscribe_singleton _ _ _ hread]
  rfl

/-- C33, amended. For every price-feed line that can be read, with decoded bid `b` and offer `o`,
the price handed to `PricingService::OnMessage` by `PricingConnector::Subscribe` has the spread
`o - b`, which is non-negative exactly when the offer is not below the bid; nothing in
`Subscribe` rejects a line whose offer is below its bid. -/
theorem Subscribe_spread_sign {L : Type} (service : PricingService Bond L)
    (line id bidText offerText : List Char) (b o : ℚ) (product : Bond)
    (h0 : (SplitLine line).get? 0 = some id) (h1 : (SplitLine line).get? 1 = some bidText)
    (h2 : (SplitLine line).get? 2 = some offerText)
    (hb : ConvertStringToPrice bidText = some b) (ho : ConvertStringToPrice offerText = some o)
    (hp : RetrieveProduct id = some product) :
    ∃ price : Price Bond,
      PricingConnector.readLine line = some price ∧
      PricingConnector.Subscribe service [line] =
        some ((service.OnMessage price).1, (service.OnMessage price).2) ∧
      price.bidOfferSpread = o - b ∧
      (0 ≤ price.bidOfferSpread ↔ b ≤ o) ∧
      (b ≤ o → 0 ≤ price.bidOfferSpread) := by
  have hread := readLine_eq line id bidText offerText b o product h0 h1 h2 hb ho hp
  refine ⟨⟨product, (b + o) / 2, o - b⟩, hread, Subscribe_singleton service line _ hread, rfl,
    ?_, ?_⟩
  · show 0 ≤ o - b ↔ b ≤ o
    exact sub_nonneg
  · intro h
    show 0 ≤ o - b
    exact sub_nonneg.2 h

/-- Witness for C33: the line `91282CJL6,99-16+,99-170`, whose spread is 1/64. -/
theorem Subscribe_spread_sign_witness :
    ∃ price : Price Bond,
      PricingConnector.readLine sampleLine = some price ∧
      PricingConnector.Subscribe (PricingService.ctor : PricingService Bond Nat) [sampleLine] =
        some (((PricingService.ctor : PricingService Bond Nat).OnMessage price).1,
          ((PricingService.ctor : PricingService Bond Nat).OnMessage price).2) ∧
      price.bidOfferSpread = (3185 / 32 : ℚ) - 6369 / 64 ∧
      (0 ≤ price.bidOfferSpread ↔ (6369 / 64 : ℚ) ≤ 3185 / 32) ∧
      ((6369 / 64 : ℚ) ≤ 3185 / 32 → 0 ≤ price.bidOfferSpread) :=
  Subscribe_spread_sign PricingService.ctor sampleLine "91282CJL6".toList "99-16+".toList
    "99-170".toList (6369 / 64) (3185 / 32) sampleBond (by decide) (by decide) (by decide)
    ConvertStringToPrice_samples.1 ConvertStringToPrice_samples.2.1 (by rfl)

/-! ### Quotes and rejections -/

/-- The effect of `InquiryService::OnMessage` in every state of the inquiry. -/
theorem OnMessage_effect {T L : Type} (s : InquiryService T L) (inquiry : Inquiry T) :
    (inquiry.state = InquiryState.RECEIVED ∨ inquiry.state = InquiryState.QUOTED →
        (InquiryService.OnMessage s inquiry).service.inquiries =
          s.inquiries.assign inquiry.inquiryId (inquiry.SetState InquiryState.DONE) ∧
        (InquiryService.OnMessage s inquiry).calls =
          s.listeners.map (fun l => (l, inquiry.SetState InquiryState.DONE))) ∧
      (¬ (inquiry.state = InquiryState.RECEIVED ∨ inquiry.state = InquiryState.QUOTED) →
        (InquiryService.OnMessage s inquiry).service.inquiries = s.inquiries ∧
        (InquiryService.OnMessage s inquiry).calls = []) ∧
      (InquiryService.OnMessage s inquiry).service.listeners = s.listeners := by
  by_cases hr : inquiry.state = InquiryState.RECEIVED
  · rw [OnMessage_received_eq s inquiry hr]
    exact ⟨fun _ => ⟨rfl, rfl⟩, fun h => absurd (Or.inl hr) h, rfl⟩
  · by_cases hq : inquiry.state = InquiryState.QUOTED
    · rw [OnMessage_quoted s inquiry hq]
      exact ⟨fun _ => ⟨rfl, rfl⟩, fun h => absurd (Or.inr hq) h, rfl⟩
    · rw [OnMessage_other s inquiry hr hq]
      exact ⟨fun h => absurd h (by simp [hr, hq]), fun _ => ⟨rfl, rfl⟩, rfl⟩

/-- Reading `m[key]` leaves every other key as it was. -/
theorem index_other {V : Type} [Inhabited V] (m : StdMap V) (key k : List Char) (hk : k ≠ key) :
    (m.index key).2 k = m k := by
  unfold StdMap.index
  cases h : m key with
  | some v => rfl
  | none => simp [StdMap.assign, hk]

theorem performAll_acc {T L : Type} [Inhabited T] (ops : List (InquiryCall T)) :
    ∀ (st : InquiryService T L × List (L × Inquiry T)),
      ops.foldl (fun st op => ((st.1.perform op).1, st.2 ++ (st.1.perform op).2)) st =
        ((st.1.performAll ops).1, st.2 ++ (st.1.performAll ops).2) := by
  induction ops with
  | nil => intro st; simp [InquiryService.performAll]
  | cons op rest ih =>
    intro st
    rw [List.foldl_cons, ih]
    simp only [InquiryService.performAll, List.foldl_cons, List.nil_append]
    rw [ih ((st.1.perform op).1, (st.1.perform op).2)]
    simp [InquiryService.performAll, List.append_assoc]

theorem performAll_cons {T L : Type} [Inhabited T] (s : InquiryService T L)
    (op : InquiryCall T) (rest : List (InquiryCall T)) :
    s.performAll (op :: rest) =
      (((s.perform op).1.performAll rest).1,
        (s.perform op).2 ++ ((s.perform op).1.performAll rest).2) := by
  have h := performAll_acc rest ((s.perform op).1, (s.perform op).2)
  simp only [InquiryService.performAll, List.foldl_cons, List.nil_append] at h ⊢
  exact h

/-- One call that is not an `OnMessage` with an inquiry of the same id in state RECEIVED or
QUOTED leaves a rejected inquiry rejected. -/
theorem perform_keeps_rejected {T L : Type} [Inhabited T] (s : InquiryService T L)
    (id : List Char) (op : InquiryCall T)
    (hstate : (s.inquiries id).map Inquiry.state = some InquiryState.REJECTED)
    (hop : ∀ inquiry, op = InquiryCall.onMessage inquiry →
      inquiry.inquiryId ≠ id ∨
        (inquiry.state ≠ InquiryState.RECEIVED ∧ inquiry.state ≠ InquiryState.QUOTED)) :
    ((s.perform op).1.inquiries id).map Inquiry.state = some InquiryState.REJECTED := by
  cases op with
  | onMessage inquiry =>
    obtain ⟨h1, h2, _⟩ := OnMessage_effect s inquiry
    simp only [InquiryService.perform]
    by_cases hact : inquiry.state = InquiryState.RECEIVED ∨ inquiry.state = InquiryState.QUOTED
    · rw [(h1 hact).1]
      rcases hop inquiry rfl with hne | ⟨hr, hq⟩
      · have hne' : ¬ id = inquiry.inquiryId := fun h => hne h.symm
        simp only [StdMap.assign, if_neg hne']
        exact hstate
      · rcases hact with h | h
        · exact absurd h hr
        · exact absurd h hq
    · rw [(h2 hact).1]
      exact hstate
  | sendQuote inquiryId price =>
    simp only [InquiryService.perform, InquiryService.SendQuote]
    by_cases hid : id = inquiryId
    · subst hid
      cases hs : s.inquiries id with
      | none => simp [hs] at hstate
      | some v =>
        simp only [hs, Option.map_some', Option.some.injEq] at hstate
        simp [StdMap.assign, StdMap.index, hs, Inquiry.SetPrice, hstate]
    · simp only [StdMap.assign, if_neg hid, index_other _ _ _ hid]
      exact hstate
  | rejectInquiry inquiryId =>
    simp only [InquiryService.perform, InquiryService.RejectInquiry]
    by_cases hid : id = inquiryId
    · subst hid
      simp [StdMap.assign, Inquiry.SetState]
    · simp only [StdMap.assign, if_neg hid, index_other _ _ _ hid]
      exact hstate

/-- C34, counterexample. An inquiry INQ1 is received (and ends DONE), then rejected with
`RejectInquiry`: it is on file in state REJECTED.  A later `OnMessage` with an inquiry INQ1 in
state QUOTED puts it on file in state DONE. -/
theorem REJECTED_overwritten :
    (((InquiryService.OnMessage sampleInquiryService
        (sampleInquiry InquiryState.RECEIVED)).service.RejectInquiry
        "INQ1".toList).inquiries "INQ1".toList).map Inquiry.state =
        some InquiryState.REJECTED ∧
      ((InquiryService.OnMessage
        ((InquiryService.OnMessage sampleInquiryService
          (sampleInquiry InquiryState.RECEIVED)).service.RejectInquiry "INQ1".toList)
        (sampleInquiry InquiryState.QUOTED)).service.inquiries "INQ1".toList).map
        Inquiry.state = some InquiryState.DONE := by
  constructor
  · simp [InquiryService.RejectInquiry, StdMap.assign, Inquiry.SetState]
  · rw [OnMessage_quoted _ _ rfl]
    simp [StdMap.assign, Inquiry.SetState, sampleInquiry]

/-- C34, amended. Once an inquiry is on file in state REJECTED (as `RejectInquiry(id)` leaves
it), no later call of `SendQuote` or `RejectInquiry`, and no later call of `OnMessage` with an
inquiry that carries another id or is in state DONE, REJECTED or CUSTOMER_REJECTED, changes its
state on file.  A call of `OnMessage` with an inquiry of the same id in state RECEIVED or QUOTED
does: the inquiry on file is replaced and its state is DONE. -/
theorem REJECTED_kept {T L : Type} [Inhabited T] (s : InquiryService T L) (id : List Char)
    (ops : List (InquiryCall T))
    (hstate : (s.inquiries id).map Inquiry.state = some InquiryState.REJECTED)
    (hops : ∀ inquiry, InquiryCall.onMessage inquiry ∈ ops →
      inquiry.inquiryId ≠ id ∨
        (inquiry.state ≠ InquiryState.RECEIVED ∧ inquiry.state ≠ InquiryState.QUOTED)) :
    ((s.performAll ops).1.inquiries id).map Inquiry.state = some InquiryState.REJECTED ∧
      (∀ s0 : InquiryService T L,
        ((s0.RejectInquiry id).inquiries id).map Inquiry.state = some InquiryState.REJECTED) ∧
      (∀ inquiry : Inquiry T, inquiry.inquiryId = id →
        inquiry.state = InquiryState.RECEIVED ∨ inquiry.state = InquiryState.QUOTED →
        ((InquiryService.OnMessage s inquiry).service.inquiries id).map Inquiry.state =
          some InquiryState.DONE) := by
  refine ⟨?_, ?_, ?_⟩
  · induction ops generalizing s with
    | nil => simpa [InquiryService.performAll] using hstate
    | cons op rest ih =>
      rw [performAll_cons]
      apply ih
      · apply perform_keeps_rejected s id op hstate
        intro inquiry hop
        exact hops inquiry (by rw [hop]; exact List.mem_cons_self _ _)
      · intro inquiry hmem
        exact hops inquiry (List.mem_cons_of_mem _ hmem)
  · intro s0
    simp [InquiryService.RejectInquiry, StdMap.assign, Inquiry.SetState]
  · intro inquiry hid hact
    rw [((OnMessage_effect s inquiry).1 hact).1, hid]
    simp [StdMap.assign, Inquiry.SetState]

/-- Witness for C34: INQ1 has been rejected, then a quote is sent for it, a DONE message for it
arrives, INQ2 is rejected and received, and INQ1 is rejected again. -/
theorem REJECTED_kept_witness :
    (((sampleInquiryService.RejectInquiry "INQ1".toList).performAll sampleCalls).1.inquiries
        "INQ1".toList).map Inquiry.state = some InquiryState.REJECTED ∧
      (∀ s0 : InquiryService Bond Nat,
        ((s0.RejectInquiry "INQ1".toList).inquiries "INQ1".toList).map Inquiry.state =
          some InquiryState.REJECTED) ∧
      (∀ inquiry : Inquiry Bond, inquiry.inquiryId = "INQ1".toList →
        inquiry.state = InquiryState.RECEIVED ∨ inquiry.state = InquiryState.QUOTED →
        ((InquiryService.OnMessage (sampleInquiryService.RejectInquiry "INQ1".toList)
          inquiry).service.inquiries "INQ1".toList).map Inquiry.state =
          some InquiryState.DONE) :=
  REJECTED_kept (sampleInquiryService.RejectInquiry "INQ1".toList) "INQ1".toList sampleCalls
    (by simp [InquiryService.RejectInquiry, StdMap.assign, Inquiry.SetState])
    (by
      intro inquiry hmem
      simp only [sampleCalls, List.mem_cons, List.mem_singleton, List.not_mem_nil, or_false,
        InquiryCall.onMessage.injEq, reduceCtorEq, false_or] at hmem
      rcases hmem with rfl | rfl
      · exact Or.inr ⟨by decide, by decide⟩
      · exact Or.inl (by decide))

/-- One call keeps CUSTOMER_REJECTED out of the store and out of the notifications. -/
theorem perform_no_customer_rejected {T L : Type} [Inhabited T] (s : InquiryService T L)
    (op : InquiryCall T)
    (hinv : ∀ id v, s.inquiries id = some v → v.state ≠ InquiryState.CUSTOMER_REJECTED) :
    (∀ id v, (s.perform op).1.inquiries id = some v →
        v.state ≠ InquiryState.CUSTOMER_REJECTED) ∧
      (∀ c ∈ (s.perform op).2, c.2.state ≠ InquiryState.CUSTOMER_REJECTED) ∧
      (s.perform op).1.listeners = s.listeners := by
  have hindex : ∀ key, ((s.inquiries.index key).1).state ≠ InquiryState.CUSTOMER_REJECTED := by
    intro key
    rw [index_value]
    cases hs : s.inquiries key with
    | none => simp [default]
    | some v => exact hinv key v hs
  have hrest : ∀ key id v, (s.inquiries.index key).2 id = some v →
      v.state ≠ InquiryState.CUSTOMER_REJECTED := by
    intro key id v hv
    by_cases hid : id = key
    · subst hid
      unfold StdMap.index at hv
      cases hs : s.inquiries id with
      | none =>
        simp only [hs, StdMap.assign, if_true, Option.some.injEq] at hv
        rw [← hv]
        simp [default]
      | some w =>
        simp only [hs] at hv
        exact hinv id v (hs ▸ hv)
    · rw [index_other _ _ _ hid] at hv
      exact hinv id v hv
  cases op with
  | onMessage inquiry =>
    obtain ⟨h1, h2, h3⟩ := OnMessage_effect s inquiry
    simp only [InquiryService.perform]
    by_cases hact : inquiry.state = InquiryState.RECEIVED ∨ inquiry.state = InquiryState.QUOTED
    · rw [(h1 hact).1, (h1 hact).2]
      refine ⟨?_, ?_, h3⟩
      · intro id v hv
        by_cases hid : id = inquiry.inquiryId
        · simp only [StdMap.assign, if_pos hid, Option.some.injEq] at hv
          rw [← hv]
          simp [Inquiry.SetState]
        · simp only [StdMap.assign, if_neg hid] at hv
          exact hinv id v hv
      · intro c hc
        rw [List.mem_map] at hc
        obtain ⟨l, _, rfl⟩ := hc
        simp [Inquiry.SetState]
    · rw [(h2 hact).1, (h2 hact).2]
      exact ⟨hinv, by simp, h3⟩
  | sendQuote inquiryId price =>
    simp only [InquiryService.perform, InquiryService.SendQuote]
    refine ⟨?_, ?_, trivial⟩
    · intro id v hv
      by_cases hid : id = inquiryId
      · simp only [StdMap.assign, if_pos hid, Option.some.injEq] at hv
        rw [← hv]
        exact hindex inquiryId
      · simp only [StdMap.assign, if_neg hid] at hv
        exact hrest inquiryId id v hv
    · intro c hc
      rw [List.mem_map] at hc
      obtain ⟨l, _, rfl⟩ := hc
      exact hindex inquiryId
  | rejectInquiry inquiryId =>
    simp only [InquiryService.perform, InquiryService.RejectInquiry]
    refine ⟨?_, by simp, trivial⟩
    intro id v hv
    by_cases hid : id = inquiryId
    · simp only [StdMap.assign, if_pos hid, Option.some.injEq] at hv
      rw [← hv]
      simp [Inquiry.SetState]
    · simp only [StdMap.assign, if_neg hid] at hv
      exact hrest inquiryId id v hv

theorem performAll_no_customer_rejected {T L : Type} [Inhabited T] (ops : List (InquiryCall T)) :
    ∀ (s : InquiryService T L),
      (∀ id v, s.inquiries id = some v → v.state ≠ InquiryState.CUSTOMER_REJECTED) →
      (∀ id v, (s.performAll ops).1.inquiries id = some v →
          v.state ≠ InquiryState.CUSTOMER_REJECTED) ∧
        (∀ c ∈ (s.performAll ops).2, c.2.state ≠ InquiryState.CUSTOMER_REJECTED) ∧
        (s.performAll ops).1.listeners = s.listeners := by
  induction ops with
  | nil =>
    intro s hinv
    exact ⟨by simpa [InquiryService.performAll] using hinv,
      by simp [InquiryService.performAll], rfl⟩
  | cons op rest ih =>
    intro s hinv
    obtain ⟨h1, h2, h3⟩ := perform_no_customer_rejected s op hinv
    obtain ⟨k1, k2, k3⟩ := ih (s.perform op).1 h1
    rw [performAll_cons]
    refine ⟨k1, ?_, k3.trans h3⟩
    intro c hc
    rcases List.mem_append.1 hc with h | h
    · exact h2 c h
    · exact k2 c h

theorem inquiryService_fresh_fields {T L : Type} (ls : List L) :
    (InquiryService.fresh ls : InquiryService T L).listeners = ls ∧
      (InquiryService.fresh ls : InquiryService T L).inquiries = StdMap.empty := by
  have h : ∀ (xs : List L) (s : InquiryService T L),
      (xs.foldl InquiryService.AddListener s).listeners = s.listeners ++ xs ∧
        (xs.foldl InquiryService.AddListener s).inquiries = s.inquiries := by
    intro xs
    induction xs with
    | nil => intro s; simp
    | cons x rest ih =>
      intro s
      obtain ⟨h1, h2⟩ := ih (s.AddListener x)
      rw [List.foldl_cons, h1, h2]
      simp [InquiryService.AddListener]
  obtain ⟨h1, h2⟩ := h ls (InquiryService.ctor : InquiryService T L)
  exact ⟨by rw [InquiryService.fresh, h1]; rfl, by rw [InquiryService.fresh, h2]; rfl⟩

/-- C35. CUSTOMER_REJECTED is never produced: after any sequence of `OnMessage` (with inquiries
in any of the five states), `SendQuote` and `RejectInquiry` calls on a new `InquiryService` with
any listeners registered, no inquiry on file is in state CUSTOMER_REJECTED and no `ProcessAdd`
call made carries an inquiry in state CUSTOMER_REJECTED; an `OnMessage` with an inquiry in that
state changes nothing and calls no listener. -/
theorem CUSTOMER_REJECTED_never_produced {T L : Type} [Inhabited T] (ls : List L)
    (ops : List (InquiryCall T)) :
    (∀ id v, ((InquiryService.fresh ls : InquiryService T L).performAll ops).1.inquiries id =
        some v → v.state ≠ InquiryState.CUSTOMER_REJECTED) ∧
      (∀ c ∈ ((InquiryService.fresh ls : InquiryService T L).performAll ops).2,
        c.2.state ≠ InquiryState.CUSTOMER_REJECTED) ∧
      ((InquiryService.fresh ls : InquiryService T L).performAll ops).1.listeners = ls ∧
      (∀ (s : InquiryService T L) (inquiry : Inquiry T),
        inquiry.state = InquiryState.CUSTOMER_REJECTED →
        s.perform (InquiryCall.onMessage inquiry) = (s, [])) := by
  have hstart : ∀ id v, (InquiryService.fresh ls : InquiryService T L).inquiries id = some v →
      v.state ≠ InquiryState.CUSTOMER_REJECTED := by
    intro id v hv
    rw [(inquiryService_fresh_fields ls).2] at hv
    simp [StdMap.empty] at hv
  obtain ⟨h1, h2, h3⟩ := performAll_no_customer_rejected ops (InquiryService.fresh ls) hstart
  refine ⟨h1, h2, h3.trans (inquiryService_fresh_fields ls).1, ?_⟩
  intro s inquiry hst
  have hr : inquiry.state ≠ InquiryState.RECEIVED := by rw [hst]; decide
  have hq : inquiry.state ≠ InquiryState.QUOTED := by rw [hst]; decide
  simp only [InquiryService.perform, OnMessage_other s inquiry hr hq]

/-! ### Risk records -/

/-- C36, counterexample. `GetPV01` of an identifier that is not in the table returns 0, and
`AddPosition` for a position in such an instrument stores a record with PV01 0 and the
position's aggregate quantity, and sends it to the listeners. -/
theorem GetPV01_unknown_returns_zero :
    "XXXXXXXXX".toList ∉ PV01Map.map Prod.fst ∧
      GetPV01 "XXXXXXXXX".toList = 0 ∧
      ((RiskService.ctor : RiskService Bond Nat).AddListener 1).AddPosition unknownPosition =
        ({ pv01s := (StdMap.empty : StdMap (PV01 Bond)).assign "XXXXXXXXX".toList
              ⟨unknownBond, 0, 5⟩
           listeners := [1] }, [(1, ⟨unknownBond, 0, 5⟩)]) := by
  have h1 : GetPV01 "XXXXXXXXX".toList = 0 := by
    simp [GetPV01, PV01Map, List.lookup]
  have h2 : unknownPosition.GetAggregatePosition = 5 := by decide
  have h3 : Product.GetProductId unknownPosition.product = "XXXXXXXXX".toList := rfl
  refine ⟨by decide, h1, ?_⟩
  simp only [RiskService.AddPosition, h3, h1, h2]
  rfl

theorem lookup_eq_none_of_not_mem {β : Type} (l : List (List Char × β)) (key : List Char)
    (h : key ∉ l.map Prod.fst) : l.lookup key = none := by
  induction l with
  | nil => rfl
  | cons e rest ih =>
    obtain ⟨k, v⟩ := e
    simp only [List.map_cons, List.mem_cons, not_or] at h
    have hk : (key == k) = false := by simpa using h.1
    simp only [List.lookup, hk]
    exact ih h.2

/-- C36, amended. `GetPV01` never throws: for every identifier that is not one of the seven
entries of the PV01 table it returns 0 (the table is indexed with `operator[]`), and for an
identifier of the table it returns the entry; so `RiskService::AddPosition` stores a record for
every instrument, for an instrument outside the table one with PV01 0 and the position's
aggregate quantity, and sends it to every listener. -/
theorem GetPV01_total {T L : Type} [Product T] (s : RiskService T L) (position : Position T) :
    (∀ id, id ∉ PV01Map.map Prod.fst → GetPV01 id = 0) ∧
      (∀ id v, PV01Map.lookup id = some v → GetPV01 id = v) ∧
      (Product.GetProductId position.product ∉ PV01Map.map Prod.fst →
        (s.AddPosition position).1.pv01s (Product.GetProductId position.product) =
          some ⟨position.product, 0, position.GetAggregatePosition⟩ ∧
        (s.AddPosition position).2 =
          s.listeners.map (fun l => (l, ⟨position.product, 0,
            position.GetAggregatePosition⟩))) ∧
      PV01Map.length = 7 := by
  have h0 : ∀ id, id ∉ PV01Map.map Prod.fst → GetPV01 id = 0 := by
    intro id h
    simp [GetPV01, lookup_eq_none_of_not_mem PV01Map id h]
  refine ⟨h0, ?_, ?_, rfl⟩
  · intro id v h
    simp [GetPV01, h]
  · intro h
    simp only [RiskService.AddPosition, h0 _ h]
    exact ⟨by simp [StdMap.assign], trivial⟩

/-- C37. After `RiskService::AddPosition(position)`, the record stored under the instrument id
has the position's product, as PV01 the reference value `GetPV01(id)` per unit, and as quantity
the position's aggregate quantity; the records of all other instruments and the listener list
are unchanged; and the `ProcessAdd` calls are one per registered listener, in registration
order, each with that record. -/
theorem AddPosition_stores {T L : Type} [Product T] [Inhabited T] (s : RiskService T L)
    (position : Position T) :
    (s.AddPosition position).1.pv01s =
        s.pv01s.assign (Product.GetProductId position.product)
          ⟨position.product, GetPV01 (Product.GetProductId position.product),
            position.GetAggregatePosition⟩ ∧
      (s.AddPosition position).1.pv01s (Product.GetProductId position.product) =
        some ⟨position.product, GetPV01 (Product.GetProductId position.product),
          position.GetAggregatePosition⟩ ∧
      (∀ id, id ≠ Product.GetProductId position.product →
        (s.AddPosition position).1.pv01s id = s.pv01s id) ∧
      (s.AddPosition position).1.listeners = s.listeners ∧
      (s.AddPosition position).2 =
        s.listeners.map (fun l => (l, ⟨position.product,
          GetPV01 (Product.GetProductId position.product),
          position.GetAggregatePosition⟩)) ∧
      (s.AddPosition position).2.length = s.listeners.length := by
  refine ⟨rfl, ?_, ?_, rfl, rfl, ?_⟩
  · simp [RiskService.AddPosition, StdMap.assign]
  · intro id hid
    simp [RiskService.AddPosition, StdMap.assign, hid]
  · simp [RiskService.AddPosition]

/-! ### The GUI throttle -/

/-- The loop of `Publish` adds whole seconds until the stored time is reached. -/
theorem catchUp_spec (time : Int) :
    ∀ c : Int, (∃ k : Nat, catchUp time c = c + 1000 * (k : Int)) ∧
      (c < time → time ≤ catchUp time c ∧ catchUp time c < time + 1000) ∧
      (¬ c < time → catchUp time c = c) := by
  intro c
  induction c using catchUp.induct time with
  | case1 x hx ih =>
    obtain ⟨⟨k, hk⟩, h1, h2⟩ := ih
    have hstep : catchUp time x = catchUp time (x + 1000) := by
      rw [catchUp.eq_1 time x, if_pos hx]
    refine ⟨⟨k + 1, ?_⟩, ?_, fun h => absurd hx h⟩
    · rw [hstep, hk]
      push_cast
      ring
    · intro _
      rw [hstep]
      by_cases hnext : x + 1000 < time
      · exact h1 hnext
      · rw [h2 hnext]
        omega
  | case2 x hx =>
    have hstep : catchUp time x = x := by
      rw [catchUp.eq_1 time x, if_neg hx]
    exact ⟨⟨0, by rw [hstep]; simp⟩, fun h => absurd h hx, fun _ => hstep⟩

/-- One call of `Publish` at the instant `w`, on a service with interval 300 and a stored time
that is not negative: it writes exactly when the time caught up lies 300 or more after the stored
time; then the stored time becomes that time, which is `w` up to whole seconds and less than a
second after the old one. -/
theorem Publish_step {T L : Type} [Product T] (s : GUIService T L) (data : Price T) (w : Int)
    (hacc : s.accelerator = 300) (htime : 0 ≤ s.time) :
    ((GUIConnector.Publish s data (GetTime w)).2 = none ∧
        (GUIConnector.Publish s data (GetTime w)).1 = s) ∨
      ((GUIConnector.Publish s data (GetTime w)).2 = some data.ToStrings ∧
        (GUIConnector.Publish s data (GetTime w)).1.accelerator = 300 ∧
        (GUIConnector.Publish s data (GetTime w)).1.time % 1000 = w % 1000 ∧
        s.time + 300 ≤ (GUIConnector.Publish s data (GetTime w)).1.time ∧
        (GUIConnector.Publish s data (GetTime w)).1.time < s.time + 1000) := by
  have hc0 : 0 ≤ GetTime w := by unfold GetTime; omega
  have hc1 : GetTime w < 1000 := by unfold GetTime; omega
  have hconv : longToInt (GetTime w) = GetTime w := by unfold longToInt; omega
  obtain ⟨⟨k, hk⟩, h1, h2⟩ := catchUp_spec s.time (GetTime w)
  have hmod : catchUp s.time (GetTime w) % 1000 = w % 1000 := by
    rw [hk]
    unfold GetTime
    omega
  have hlt : catchUp s.time (GetTime w) < s.time + 1000 := by
    by_cases hlt : GetTime w < s.time
    · exact (h1 hlt).2
    · rw [h2 hlt]
      omega
  unfold GUIConnector.Publish
  simp only [hconv, hacc]
  by_cases hw : catchUp s.time (GetTime w) - s.time ≥ 300
  · right
    rw [if_pos hw]
    refine ⟨rfl, rfl, ?_, ?_, ?_⟩
    · show catchUp s.time (GetTime w) % 1000 = w % 1000
      exact hmod
    · show s.time + 300 ≤ catchUp s.time (GetTime w)
      omega
    · show catchUp s.time (GetTime w) < s.time + 1000
      exact hlt
  · left
    rw [if_neg hw]
    exact ⟨rfl, rfl⟩

theorem throttle_append {T L : Type} [Product T] (s : GUIService T L)
    (pre : List (Price T × Int)) (ev : Price T × Int) :
    GUIConnector.publishAll s (pre ++ [ev]) =
      ((GUIConnector.Publish (GUIConnector.publishAll s pre).1 ev.1 (GetTime ev.2)).1,
        if (GUIConnector.Publish (GUIConnector.publishAll s pre).1 ev.1 (GetTime ev.2)).2.isSome
        then (GUIConnector.publishAll s pre).2 ++ [ev.2] else (GUIConnector.publishAll s pre).2) := by
  simp [GUIConnector.publishAll, List.foldl_append]

/-- The state of the throttle after a run of calls at non-decreasing instants. -/
theorem throttle_spec {T L : Type} [Product T] (events : List (Price T × Int))
    (hsorted : (events.map Prod.snd).Pairwise (fun a b => a ≤ b)) :
    (GUIConnector.publishAll (GUIService.ctor : GUIService T L) events).1.accelerator = 300 ∧
      0 ≤ (GUIConnector.publishAll (GUIService.ctor : GUIService T L) events).1.time ∧
      (∀ last ∈ (GUIConnector.publishAll (GUIService.ctor : GUIService T L) events).2.getLast?,
        (GUIConnector.publishAll (GUIService.ctor : GUIService T L) events).1.time % 1000 =
          last % 1000) ∧
      (∀ x ∈ (GUIConnector.publishAll (GUIService.ctor : GUIService T L) events).2,
        x ∈ events.map Prod.snd) ∧
      (GUIConnector.publishAll (GUIService.ctor : GUIService T L) events).2.Chain'
        (fun a b => a + 300 ≤ b) := by
  induction events using List.reverseRecOn with
  | nil => simp [GUIConnector.publishAll, GUIService.ctor]
  | append_singleton pre ev ih =>
    rw [List.map_append, List.pairwise_append] at hsorted
    obtain ⟨hpre, _, hle⟩ := hsorted
    obtain ⟨hacc, htime, hlast, hmem, hchain⟩ := ih hpre
    rw [throttle_append]
    rcases Publish_step (GUIConnector.publishAll (GUIService.ctor : GUIService T L) pre).1 ev.1
      ev.2 hacc htime with ⟨hnone, hsame⟩ | ⟨hsome, hacc2, hmod, hlow, hhigh⟩
    · simp only [hnone, hsame, Option.isSome_none, Bool.false_eq_true, if_false]
      refine ⟨hacc, htime, hlast, ?_, hchain⟩
      intro x hx
      rw [List.map_append]
      exact List.mem_append_left _ (hmem x hx)
    · simp only [hsome, Option.isSome_some, if_true]
      refine ⟨hacc2, by omega, ?_, ?_, ?_⟩
      · intro last hl
        simp only [List.getLast?_concat, Option.mem_def, Option.some.injEq] at hl
        rw [← hl]
        exact hmod
      · intro x hx
        rw [List.map_append]
        rcases List.mem_append.1 hx with h | h
        · exact List.mem_append_left _ (hmem x h)
        · exact List.mem_append_right _ (by simpa using h)
      · rw [List.chain'_append]
        refine ⟨hchain, List.chain'_singleton _, ?_⟩
        intro W hW y hy
        simp only [List.head?_cons, Option.mem_def, Option.some.injEq] at hy
        subst hy
        have hWmem : W ∈ (GUIConnector.publishAll (GUIService.ctor : GUIService T L) pre).2 :=
          List.mem_of_mem_getLast? hW
        have hWle : W ≤ ev.2 := hle W (hmem W hWmem) ev.2 (by simp)
        have hWmod := hlast W hW
        omega

/-- C38. The GUI throttle writes no more often than once per 300 ms: with the clock reading at
the instant `w` (in milliseconds) taken as `w mod 1000`, for every sequence of
`GUIConnector::Publish` calls on a new `GUIService` at non-decreasing instants, any two
consecutive writes are at least 300 ms apart, every write happens at the instant of one of the
calls, and a call that does not write leaves the service, in particular the stored time,
unchanged. -/
theorem Publish_throttled {T L : Type} [Product T] (events : List (Price T × Int))
    (hsorted : (events.map Prod.snd).Pairwise (fun a b => a ≤ b)) :
    (GUIConnector.publishAll (GUIService.ctor : GUIService T L) events).2.Chain'
        (fun a b => a + 300 ≤ b) ∧
      (∀ x ∈ (GUIConnector.publishAll (GUIService.ctor : GUIService T L) events).2,
        x ∈ events.map Prod.snd) ∧
      (∀ (s : GUIService T L) (data : Price T) (clock : Int),
        (GUIConnector.Publish s data clock).2 = none →
        (GUIConnector.Publish s data clock).1 = s) ∧
      (GUIService.ctor : GUIService T L).accelerator = 300 ∧
      (GUIService.ctor : GUIService T L).time = 0 := by
  obtain ⟨_, _, _, hmem, hchain⟩ := throttle_spec (L := L) events hsorted
  refine ⟨hchain, hmem, ?_, rfl, rfl⟩
  intro s data clock hnone
  unfold GUIConnector.Publish at hnone ⊢
  by_cases hw : catchUp s.time (longToInt clock) - s.time ≥ s.accelerator
  · simp [hw] at hnone
  · simp [hw]

/-- Witness for C38: nine calls at the instants 100, 350, 600, 900, 1100, 1250, 5050, 5100 and
5400. -/
theorem Publish_throttled_witness :
    (GUIConnector.publishAll (GUIService.ctor : GUIService Bond Nat) sampleEvents).2.Chain'
        (fun a b => a + 300 ≤ b) ∧
      (∀ x ∈ (GUIConnector.publishAll (GUIService.ctor : GUIService Bond Nat) sampleEvents).2,
        x ∈ sampleEvents.map Prod.snd) ∧
      (∀ (s : GUIService Bond Nat) (data : Price Bond) (clock : Int),
        (GUIConnector.Publish s data clock).2 = none →
        (GUIConnector.Publish s data clock).1 = s) ∧
      (GUIService.ctor : GUIService Bond Nat).accelerator = 300 ∧
      (GUIService.ctor : GUIService Bond Nat).time = 0 :=
  Publish_throttled sampleEvents (by decide)

theorem catchUp_of_lt (time c : Int) (h : c < time) :
    catchUp time c = catchUp time (c + 1000) := by
  rw [catchUp.eq_1 time c, if_pos h]

theorem catchUp_of_not_lt (time c : Int) (h : ¬ c < time) : catchUp time c = c := by
  rw [catchUp.eq_1 time c, if_neg h]

/-- The witness in figures: of the nine calls, those at 350, 900, 1250, 5050 and 5400 write. -/
theorem publishAll_sampleEvents :
    (GUIConnector.publishAll (GUIService.ctor : GUIService Bond Nat) sampleEvents).2 =
      [350, 900, 1250, 5050, 5400] := by
  have c1 : catchUp 0 100 = 100 := catchUp_of_not_lt _ _ (by decide)
  have c2 : catchUp 0 350 = 350 := catchUp_of_not_lt _ _ (by decide)
  have c3 : catchUp 350 600 = 600 := catchUp_of_not_lt _ _ (by decide)
  have c4 : catchUp 350 900 = 900 := catchUp_of_not_lt _ _ (by decide)
  have c5 : catchUp 900 100 = 1100 := by
    rw [catchUp_of_lt _ _ (by decide)]
    exact catchUp_of_not_lt _ _ (by decide)
  have c6 : catchUp 900 250 = 1250 := by
    rw [catchUp_of_lt _ _ (by decide)]
    exact catchUp_of_not_lt _ _ (by decide)
  have c7 : catchUp 1250 50 = 2050 := by
    rw [catchUp_of_lt _ _ (by decide), catchUp_of_lt _ _ (by decide)]
    exact catchUp_of_not_lt _ _ (by decide)
  have c8 : catchUp 2050 100 = 2100 := by
    rw [catchUp_of_lt _ _ (by decide), catchUp_of_lt _ _ (by decide)]
    exact catchUp_of_not_lt _ _ (by decide)
  have c9 : catchUp 2050 400 = 2400 := by
    rw [catchUp_of_lt _ _ (by decide), catchUp_of_lt _ _ (by decide)]
    exact catchUp_of_not_lt _ _ (by decide)
  simp [GUIConnector.publishAll, sampleEvents, GUIConnector.Publish, GUIService.ctor, GetTime,
    longToInt, c1, c2, c3, c4, c5, c6, c7, c8, c9]

/-! ### Text fields of an execution order -/

/-- The text of a `long` holds no point. -/
theorem point_not_mem_to_string (i : Int) : '.' ∉ to_string i := by
  have hd : ∀ n, '.' ∉ Nat.toDigits 10 n := by
    intro n hmem
    have h := (toDigits_spec n).2.1 '.' hmem
    exact absurd h (by decide)
  unfold to_string
  split
  · intro hmem
    rcases List.mem_cons.1 hmem with h | h
    · exact absurd h (by decide)
    · exact hd _ h
  · exact hd _

/-- The text of a `double` holds a point. -/
theorem point_mem_to_string_double (x : ℚ) : '.' ∈ to_string_double x := by
  simp [to_string_double]

/-- C39. For every execution order, `ExecutionOrder::ToStrings` returns nine fields in the
order product id, side, order id, order type, price text, visible quantity, hidden quantity,
parent order id, child flag; but the field of the visible quantity is the empty text whatever the
quantity: the text of the `long` holds no point, `find(".")` is `npos`, and
`substr(0, npos + 1)` is `substr(0, 0)`.  The field of the hidden quantity is the text of the
`double` up to and including its point. -/
theorem ToStrings_visible_quantity_empty {T : Type} [Product T] (o : ExecutionOrder T) :
    o.ToStrings =
        some [Product.GetProductId o.product,
          if o.side = PricingSide.BID then "BID".toList else "OFFER".toList,
          o.orderId,
          (match o.orderType with
            | OrderType.FOK => "FOK".toList
            | OrderType.IOC => "IOC".toList
            | OrderType.MARKET => "MARKET".toList
            | OrderType.LIMIT => "LIMIT".toList
            | OrderType.STOP => "STOP".toList),
          PriceToString o.price,
          [],
          (to_string_double o.hiddenQuantity).take
            ((to_string_double o.hiddenQuantity).indexOf '.' + 1),
          o.parentOrderId,
          if o.isChildOrder then "YES".toList else "NO".toList] ∧
      (o.ToStrings.map List.length) = some 9 ∧
      (o.ToStrings.bind (fun fields => fields.get? 5)) = some [] ∧
      (o.visibleQuantity = 1000000 →
        to_string o.visibleQuantity = "1000000".toList ∧
        (o.ToStrings.bind (fun fields => fields.get? 5)) ≠ some "1000000".toList) := by
  have hv : find (to_string o.visibleQuantity) '.' = none := by
    simp [find, point_not_mem_to_string]
  have hh : find (to_string_double o.hiddenQuantity) '.' =
      some ((to_string_double o.hiddenQuantity).indexOf '.') := by
    simp [find, point_mem_to_string_double]
  have htype : (if o.orderType = OrderType.STOP then "STOP".toList
      else if o.orderType = OrderType.LIMIT then "LIMIT".toList
      else if o.orderType = OrderType.MARKET then "MARKET".toList
      else if o.orderType = OrderType.IOC then "IOC".toList
      else if o.orderType = OrderType.FOK then "FOK".toList else []) =
      (match o.orderType with
        | OrderType.FOK => "FOK".toList
        | OrderType.IOC => "IOC".toList
        | OrderType.MARKET => "MARKET".toList
        | OrderType.LIMIT => "LIMIT".toList
        | OrderType.STOP => "STOP".toList) := by
    cases o.orderType <;> rfl
  have hmain : o.ToStrings =
      some [Product.GetProductId o.product,
        if o.side = PricingSide.BID then "BID".toList else "OFFER".toList,
        o.orderId,
        (match o.orderType with
          | OrderType.FOK => "FOK".toList
          | OrderType.IOC => "IOC".toList
          | OrderType.MARKET => "MARKET".toList
          | OrderType.LIMIT => "LIMIT".toList
          | OrderType.STOP => "STOP".toList),
        PriceToString o.price,
        [],
        (to_string_double o.hiddenQuantity).take
          ((to_string_double o.hiddenQuantity).indexOf '.' + 1),
        o.parentOrderId,
        if o.isChildOrder then "YES".toList else "NO".toList] := by
    unfold ExecutionOrder.ToStrings
    simp only [hv, hh, substr, Option.bind_eq_bind, Option.pure_def]
    rw [← htype]
    simp
  refine ⟨hmain, ?_, ?_, ?_⟩
  · rw [hmain]
    rfl
  · rw [hmain]
    rfl
  · intro hq
    refine ⟨by rw [hq]; decide, ?_⟩
    rw [hmain]
    simp

theorem to_string_double_sample : to_string_double 2000000 = "2000000.000000".toList := by
  have h1 : |(2000000 : ℚ)| * 1000000 = ((2000000000000 : Nat) : ℚ) := by norm_num
  have h2 : ⌊((2000000000000 : Nat) : ℚ)⌋ = ((2000000000000 : Nat) : Int) := Int.floor_natCast _
  have h3 : ¬ ((2000000 : ℚ) < 0) := by norm_num
  unfold to_string_double
  simp only [h1, h2, Int.toNat_ofNat, sub_self, h3, if_false]
  have h4 : ¬ ((1 / 2 : ℚ) < 0 ∨ ((0 : ℚ) = 1 / 2 ∧ 2000000000000 % 2 = 1)) := by norm_num
  rw [if_neg h4]
  decide

/-- The fields of the sample execution order (1,000,000 visible, 2,000,000 hidden): the sixth
is empty and the seventh ends with the point. -/
theorem ToStrings_sample :
    (sampleExecution PricingSide.OFFER).ToStrings =
      some ["91282CJL6".toList, "OFFER".toList, "ORDER1".toList, "MARKET".toList,
        "100-000".toList, [], "2000000.".toList, "PARENT_ORDER_ID".toList, "NO".toList] := by
  have hp : PriceToString (sampleExecution PricingSide.OFFER).price = "100-000".toList := by
    have h : (sampleExecution PricingSide.OFFER).price =
        ((100 : Nat) : ℚ) + ((0 : Nat) : ℚ) / 32 + ((0 : Nat) : ℚ) / 256 := by
      simp [sampleExecution]
    rw [h, PriceToString_grid 100 0 0 (by decide) (by decide)]
    decide
  have hh : to_string_double (sampleExecution PricingSide.OFFER).hiddenQuantity =
      "2000000.000000".toList := to_string_double_sample
  have hv : to_string (sampleExecution PricingSide.OFFER).visibleQuantity =
      "1000000".toList := by decide
  unfold ExecutionOrder.ToStrings
  rw [hp, hh, hv]
  decide

end TradingSystem
